import Mathlib

/-!
# Matrix-multiply differential-testing harness

A shallow embedding of `test_harness.c` and of the three candidate kernels
`src/matmul_broken_{A,B,C}.c`, followed by the properties proved about them.

* C `double` and `float` values are modelled by `Flt`, an IEEE-754 binary datum (NaN,
  signed infinity, or a signed significand with a binary exponent); every operation
  rounds its exact result to binary64 (or binary32) to nearest, ties to even.
* C `int` is 32 bits wide. An `int` expression is a mathematical integer together
  with a range check: when its value leaves `INT_MIN..INT_MAX` the behaviour is
  undefined and the embedded function returns `none`.
* C `unsigned` arithmetic wraps modulo `2^32`; `size_t` is 64 bits wide.
* A `double *` buffer is a `List Flt`; reading or writing outside the buffer is
  undefined behaviour and returns `none`.
-/

namespace Harness

/-! ## IEEE-754 binary floating point -/

/-- An IEEE-754 binary floating-point datum: NaN, a signed infinity, or the finite
value `(-1)^neg * m * 2^e`. The operations below return a zero as `fin neg 0 0` and a
non-zero number with the significand and exponent of its IEEE encoding. -/
inductive Flt where
  | nan : Flt
  | inf (neg : Bool) : Flt
  | fin (neg : Bool) (m : Nat) (e : Int) : Flt
deriving DecidableEq, Repr

/-- A binary format: `prec` significand bits, `emin` the exponent of the last place
of the subnormal numbers, `emax` the exponent of the last place of the largest
finite numbers. -/
structure Fmt where
  prec : Nat
  emin : Int
  emax : Int
deriving DecidableEq, Repr

/-- The format of C `double`. -/
def binary64 : Fmt := ⟨53, -1074, 971⟩

/-- The format of C `float`. -/
def binary32 : Fmt := ⟨24, -149, 104⟩

/-- Number of binary digits of `n`, by halving at most `fuel` times. -/
def bitlenAux : Nat → Nat → Nat
  | 0, _ => 0
  | fuel + 1, n => if n = 0 then 0 else bitlenAux fuel (n / 2) + 1

/-- Number of binary digits of `n` (`0` for `n = 0`). -/
def bitlen (n : Nat) : Nat := bitlenAux n n

/-- Round the positive rational `num / den` to the format, to nearest with ties to
even; `neg` is the sign of the result. -/
def Fmt.roundPos (f : Fmt) (neg : Bool) (num den : Nat) : Flt :=
  let L : Int := (bitlen num : Int) - (bitlen den : Int)
  let e0 : Int := if den * 2 ^ L.toNat ≤ num * 2 ^ (-L).toNat then L else L - 1
  let e : Int := max (e0 - ((f.prec : Int) - 1)) f.emin
  let n := num * 2 ^ (-e).toNat
  let d := den * 2 ^ e.toNat
  let q := n / d
  let r := n % d
  let m := if 2 * r < d then q else if d < 2 * r then q + 1
           else if q % 2 = 0 then q else q + 1
  if m = 0 then Flt.fin neg 0 0
  else if m = 2 ^ f.prec then
    (if f.emax < e + 1 then Flt.inf neg else Flt.fin neg (2 ^ (f.prec - 1)) (e + 1))
  else if f.emax < e then Flt.inf neg else Flt.fin neg m e

/-- Round the non-negative rational `num / den` to the format; zero keeps the sign
`neg`. -/
def Fmt.round (f : Fmt) (neg : Bool) (num den : Nat) : Flt :=
  if num = 0 then Flt.fin neg 0 0
  else f.roundPos neg (num / Nat.gcd num den) (den / Nat.gcd num den)

/-- The integer `(-1)^neg * m * 2^k`. -/
def Flt.scaled (neg : Bool) (m : Nat) (k : Int) : Int :=
  if neg then -((m * 2 ^ k.toNat : Nat) : Int) else ((m * 2 ^ k.toNat : Nat) : Int)

/-- IEEE addition in format `f`. -/
def Fmt.add (f : Fmt) : Flt → Flt → Flt
  | .nan, _ => .nan
  | _, .nan => .nan
  | .inf a, .inf b => if a = b then .inf a else .nan
  | .inf a, .fin _ _ _ => .inf a
  | .fin _ _ _, .inf b => .inf b
  | .fin s1 m1 e1, .fin s2 m2 e2 =>
    let e := min e1 e2
    let s := Flt.scaled s1 m1 (e1 - e) + Flt.scaled s2 m2 (e2 - e)
    if s = 0 then .fin (s1 && s2) 0 0
    else f.round (decide (s < 0)) (s.natAbs * 2 ^ e.toNat) (2 ^ (-e).toNat)

/-- Sign change. -/
def Flt.neg : Flt → Flt
  | .nan => .nan
  | .inf a => .inf (!a)
  | .fin s m e => .fin (!s) m e

/-- IEEE subtraction in format `f`. -/
def Fmt.sub (f : Fmt) (x y : Flt) : Flt := f.add x y.neg

/-- IEEE multiplication in format `f`. -/
def Fmt.mul (f : Fmt) : Flt → Flt → Flt
  | .nan, _ => .nan
  | _, .nan => .nan
  | .inf a, .inf b => .inf (xor a b)
  | .inf a, .fin s m _ => if m = 0 then .nan else .inf (xor a s)
  | .fin s m _, .inf b => if m = 0 then .nan else .inf (xor s b)
  | .fin s1 m1 e1, .fin s2 m2 e2 =>
    f.round (xor s1 s2) (m1 * m2 * 2 ^ (e1 + e2).toNat) (2 ^ (-(e1 + e2)).toNat)

/-- IEEE division in format `f`. -/
def Fmt.div (f : Fmt) : Flt → Flt → Flt
  | .nan, _ => .nan
  | _, .nan => .nan
  | .inf _, .inf _ => .nan
  | .inf a, .fin s _ _ => .inf (xor a s)
  | .fin s _ _, .inf b => .fin (xor s b) 0 0
  | .fin s1 m1 e1, .fin s2 m2 e2 =>
    if m2 = 0 then (if m1 = 0 then .nan else .inf (xor s1 s2))
    else f.round (xor s1 s2) (m1 * 2 ^ (e1 - e2).toNat) (m2 * 2 ^ (e2 - e1).toNat)

/-- Absolute value (`fabs`). -/
def Flt.abs : Flt → Flt
  | .nan => .nan
  | .inf _ => .inf false
  | .fin _ m e => .fin false m e

/-- The comparison `x < y`: false as soon as an operand is NaN. -/
def Flt.lt : Flt → Flt → Bool
  | .nan, _ => false
  | _, .nan => false
  | .inf a, .inf b => a && !b
  | .inf a, .fin _ _ _ => a
  | .fin _ _ _, .inf b => !b
  | .fin s1 m1 e1, .fin s2 m2 e2 =>
    decide (Flt.scaled s1 m1 (e1 - min e1 e2) < Flt.scaled s2 m2 (e2 - min e1 e2))

/-- The comparison `x > y`. -/
def Flt.gt (x y : Flt) : Bool := Flt.lt y x

/-- The comparison `x >= y`: false as soon as an operand is NaN. -/
def Flt.ge : Flt → Flt → Bool
  | .nan, _ => false
  | _, .nan => false
  | x, y => !Flt.lt x y

/-- The comparison `x <= y`: false as soon as an operand is NaN. -/
def Flt.le : Flt → Flt → Bool
  | .nan, _ => false
  | _, .nan => false
  | x, y => !Flt.lt y x

/-- The comparison `x == y`: numerical equality, false as soon as an operand is NaN;
`-0.0 == 0.0` holds. -/
def Flt.beq : Flt → Flt → Bool
  | .nan, _ => false
  | _, .nan => false
  | .inf a, .inf b => a == b
  | .inf _, .fin _ _ _ => false
  | .fin _ _ _, .inf _ => false
  | .fin s1 m1 e1, .fin s2 m2 e2 =>
    decide (Flt.scaled s1 m1 (e1 - min e1 e2) = Flt.scaled s2 m2 (e2 - min e1 e2))

/-- Neither NaN nor an infinity. -/
def Flt.isFinite : Flt → Bool
  | .fin _ _ _ => true
  | _ => false

/-- Conversion of an integer to the format. -/
def Fmt.ofInt (f : Fmt) (n : Int) : Flt := f.round (decide (n < 0)) n.natAbs 1

/-- Conversion of a floating-point datum to the format `f` (the casts `(float)x` and
`(double)x`): the value is rounded to `f`. -/
def Fmt.ofFlt (f : Fmt) : Flt → Flt
  | .nan => .nan
  | .inf a => .inf a
  | .fin s m e => f.round s (m * 2 ^ e.toNat) (2 ^ (-e).toNat)

/-- A C `double`. -/
abbrev Dbl := Flt

/-- The constant `0.0`. -/
def Dbl.zero : Dbl := Flt.fin false 0 0

/-- The constant `1.0`. -/
def Dbl.one : Dbl := binary64.ofInt 1

/-- The conversion `(double)n` of an `int`. -/
def Dbl.ofInt (n : Int) : Dbl := binary64.ofInt n

/-- The constant `1e-12`: the double nearest to `1 / 10^12`. -/
def Dbl.tol_default : Dbl := binary64.round false 1 (10 ^ 12)

/-- Addition of doubles. -/
def Dbl.add (x y : Dbl) : Dbl := binary64.add x y

/-- Subtraction of doubles. -/
def Dbl.sub (x y : Dbl) : Dbl := binary64.sub x y

/-- Multiplication of doubles. -/
def Dbl.mul (x y : Dbl) : Dbl := binary64.mul x y

/-- Division of doubles. -/
def Dbl.div (x y : Dbl) : Dbl := binary64.div x y

/-- The constant `3.0`. -/
def Dbl.three : Dbl := binary64.ofInt 3

/-- The constant `4.0`. -/
def Dbl.four : Dbl := binary64.ofInt 4

/-! ## C integers and buffers -/

/-- Largest value of a C `int`. -/
def INT_MAX : Int := 2147483647

/-- Smallest value of a C `int`. -/
def INT_MIN : Int := -2147483648

/-- The result of an `int` operation whose mathematical value is `x`: undefined
when `x` is not representable. -/
def int_chk (x : Int) : Option Int :=
  if INT_MIN ≤ x ∧ x ≤ INT_MAX then some x else none

/-- The `int` expression `a * b`. -/
def int_mul (a b : Int) : Option Int := int_chk (a * b)

/-- The `int` expression `a + b`. -/
def int_add (a b : Int) : Option Int := int_chk (a + b)

/-- The `int` expression `a - b`. -/
def int_sub (a b : Int) : Option Int := int_chk (a - b)

/-- The `int` expression `a % b`: the remainder of the division truncating toward
zero. -/
def int_mod (a b : Int) : Option Int :=
  if b = 0 then none else int_chk (Int.tmod a b)

/-- The index expression `i * N + j`. -/
def idx (i N j : Int) : Option Int := do
  let t ← int_mul i N
  int_add t j

/-- The conversion `(int)u` of an `unsigned` value. -/
def int_of_unsigned (u : Nat) : Int :=
  if (u : Int) ≤ INT_MAX then (u : Int) else (u : Int) - 2 ^ 32

/-- The read `buf[i]`. -/
def rd (buf : List Dbl) (i : Int) : Option Dbl :=
  if 0 ≤ i then buf[i.toNat]? else none

/-- The write `buf[i] = v`. -/
def wr (buf : List Dbl) (i : Int) (v : Dbl) : Option (List Dbl) :=
  if 0 ≤ i ∧ i.toNat < buf.length then some (buf.set i.toNat v) else none

/-- The loop `for (i = 0; i < N; ++i) body` over an `int` counter. -/
def forInt {σ : Type} (N : Int) (s : σ) (body : σ → Int → Option σ) : Option σ :=
  (List.range N.toNat).foldlM (fun s (i : Nat) => body s (i : Int)) s

/-- The loop `for (size_t i = 0; i < size; ++i) body`. -/
def forSize {σ : Type} (size : Nat) (s : σ) (body : σ → Nat → Option σ) : Option σ :=
  (List.range size).foldlM body s

/-! ## The kernels -/

/-- A multiply kernel `void f(const double *A, const double *B, double *C, int N)`:
the content of `C` after the call. -/
abbrev Kernel := List Dbl → List Dbl → List Dbl → Int → Option (List Dbl)

/-- The reference kernel `matmul_ref` of `test_harness.c`. -/
def matmul_ref : Kernel := fun A B C N =>
  forInt N C fun C i =>
    forInt N C fun C j => do
      let sum ← forInt N Dbl.zero fun sum k => do
        let p ← idx i N k
        let a ← rd A p
        let q ← idx k N j
        let b ← rd B q
        pure (Dbl.add sum (Dbl.mul a b))
      let p ← idx i N j
      wr C p sum

/-- The candidate `matmul_broken_A`: the inner product is computed and dropped. -/
def matmul_broken_A : Kernel := fun A B C N =>
  forInt N C fun C i =>
    forInt N C fun C j => do
      let _ ← forInt N Dbl.zero fun sum k => do
        let p ← idx i N k
        let a ← rd A p
        let q ← idx k N j
        let b ← rd B q
        pure (Dbl.add sum (Dbl.mul a b))
      pure C

/-- The candidate `matmul_broken_B`: `A` is read at `k * N + i`. -/
def matmul_broken_B : Kernel := fun A B C N =>
  forInt N C fun C i =>
    forInt N C fun C j => do
      let sum ← forInt N Dbl.zero fun sum k => do
        let p ← idx k N i
        let a ← rd A p
        let q ← idx k N j
        let b ← rd B q
        pure (Dbl.add sum (Dbl.mul a b))
      let p ← idx i N j
      wr C p sum

/-- The candidate `matmul_broken_C`: the inner product is accumulated in `float`.
Every `float` operation is rounded to binary32 (`FLT_EVAL_METHOD` 0, no contraction
of the multiply-add). -/
def matmul_broken_C : Kernel := fun A B C N =>
  forInt N C fun C i =>
    forInt N C fun C j => do
      let sum_f ← forInt N (Flt.fin false 0 0) fun sum_f k => do
        let p ← idx i N k
        let a ← rd A p
        let q ← idx k N j
        let b ← rd B q
        pure (binary32.add sum_f (binary32.mul (binary32.ofFlt a) (binary32.ofFlt b)))
      let p ← idx i N j
      wr C p (binary64.ofFlt sum_f)

/-! ## The scenarios -/

/-- The scenario `increment`. -/
def fill_increment (A B : List Dbl) (N : Int) : Option (List Dbl × List Dbl) :=
  forInt N (A, B) fun AB i =>
    forInt N AB fun AB j => do
      let p ← idx i N j
      let t ← idx i N j
      let v ← int_add t 1
      let A ← wr AB.1 p (Dbl.ofInt v)
      let q ← idx i N j
      let u ← int_add i j
      let r ← int_mod u 7
      let w ← int_sub r 3
      let B ← wr AB.2 q (Dbl.ofInt w)
      pure (A, B)

/-- The scenario `identity`. -/
def fill_identity (A B : List Dbl) (N : Int) : Option (List Dbl × List Dbl) :=
  forInt N (A, B) fun AB i =>
    forInt N AB fun AB j => do
      let p ← idx i N j
      let A ← wr AB.1 p (if i = j then Dbl.one else Dbl.zero)
      let q ← idx i N j
      let B ← wr AB.2 q (if i = j then Dbl.one else Dbl.zero)
      pure (A, B)

/-- One step `seed * 1103515245u + 12345u` of the generator, in `unsigned`
arithmetic. -/
def lcg_next (seed : Nat) : Nat := (seed * 1103515245 + 12345) % 2 ^ 32

/-- The value `(double)((int)(seed >> 16) % 97 - 48) / 3.0` stored in `A`. -/
def draw_A (seed : Nat) : Option Dbl := do
  let r ← int_mod (int_of_unsigned (seed >>> 16)) 97
  let v ← int_sub r 48
  pure (Dbl.div (Dbl.ofInt v) Dbl.three)

/-- The value `(double)((int)(seed >> 16) % 61 - 30) / 4.0` stored in `B`. -/
def draw_B (seed : Nat) : Option Dbl := do
  let r ← int_mod (int_of_unsigned (seed >>> 16)) 61
  let v ← int_sub r 30
  pure (Dbl.div (Dbl.ofInt v) Dbl.four)

/-- The loop of `fill_random`, from a given generator state: the final state and
the two buffers. -/
def fill_random_from (seed : Nat) (A B : List Dbl) (N : Int) :
    Option (Nat × List Dbl × List Dbl) :=
  forInt N (seed, A, B) fun st i =>
    forInt N st fun st j => do
      let seed := lcg_next st.1
      let p ← idx i N j
      let a ← draw_A seed
      let A ← wr st.2.1 p a
      let seed := lcg_next seed
      let q ← idx i N j
      let b ← draw_B seed
      let B ← wr st.2.2 q b
      pure (seed, A, B)

/-- The scenario `random`. -/
def fill_random (A B : List Dbl) (N : Int) : Option (List Dbl × List Dbl) :=
  (fill_random_from 123456789 A B N).map fun st => (st.2.1, st.2.2)

/-- The scenario `pattern`. -/
def fill_pattern (A B : List Dbl) (N : Int) : Option (List Dbl × List Dbl) :=
  forInt N (A, B) fun AB i =>
    forInt N AB fun AB j => do
      let p ← idx i N j
      let v ← int_add i 1
      let A ← wr AB.1 p (Dbl.ofInt v)
      let q ← idx i N j
      let w ← int_add j 2
      let B ← wr AB.2 q (Dbl.ofInt w)
      pure (A, B)

/-! ## The harness `main` -/

/-- What a run does that can be observed, in program order: the lines it prints and
the two kernel calls. -/
inductive Event where
  | usage (prog : String)
  | alloc_failed
  | unknown_scenario (name : String)
  | call_test
  | call_ref
  | header (N : Int) (scenario : String)
  | max_diff (d : Dbl)
  | sum_diff (d : Dbl)
  | sample_header
  | entry (i j : Int) (ref test : Dbl)
  | truncated
  | detected (max_abs_diff tolerance : Dbl)
  | no_difference (tolerance : Dbl)
deriving DecidableEq, Repr

/-- A finished run: the exit code, the trace, the value of `tolerance` on return,
and `(max_abs_diff, sum_abs_diff)` once the comparison loop has run. -/
structure Run where
  exit_code : Int
  trace : List Event
  tolerance : Dbl
  diff : Option (Dbl × Dbl)
deriving DecidableEq, Repr

/-- Argument handling of `main` (the block from `int N = 6;` to the tolerance
check): `N`, `scenario` and `tolerance`, or `none` for the usage exit on `N <= 0`.
`argv` holds the program name first, so `argc` is `argv.length`. -/
def parse_args (atoi : String → Int) (atof : String → Dbl) (argv : List String) :
    Option (Int × String × Dbl) :=
  let N := if 2 ≤ argv.length then atoi (argv.getD 1 "") else 6
  if 2 ≤ argv.length ∧ N ≤ 0 then none
  else
    let scenario := if 3 ≤ argv.length then argv.getD 2 "" else "increment"
    let tolerance :=
      if 4 ≤ argv.length then
        (if Flt.lt (atof (argv.getD 3 "")) Dbl.zero then Dbl.tol_default
         else atof (argv.getD 3 ""))
      else Dbl.tol_default
    some (N, scenario, tolerance)

/-- The call `malloc(size * sizeof(double))`, the `k`-th of the run: `heap k` is
`none` when it fails and otherwise gives the arbitrary initial content of the block.
`size_t` is 64 bits wide. -/
def malloc_doubles (heap : Nat → Option (Nat → Dbl)) (k size : Nat) : Option (List Dbl) :=
  (heap k).map fun g => (List.range ((size * 8) % 2 ^ 64 / 8)).map g

/-- The scenario dispatch of `main`: the outer `none` is undefined behaviour, the
inner `none` the unknown-scenario exit. -/
def fill_scenario (scenario : String) (A B : List Dbl) (N : Int) :
    Option (Option (List Dbl × List Dbl)) :=
  if scenario = "increment" then (fill_increment A B N).map some
  else if scenario = "identity" then (fill_identity A B N).map some
  else if scenario = "random" then (fill_random A B N).map some
  else if scenario = "pattern" then (fill_pattern A B N).map some
  else some none

/-- The loop of `main` that zeroes both output buffers. -/
def zero_outputs (C_test C_ref : List Dbl) (size : Nat) : Option (List Dbl × List Dbl) :=
  forSize size (C_test, C_ref) fun CC i => do
    let Ct ← wr CC.1 (i : Int) Dbl.zero
    let Cr ← wr CC.2 (i : Int) Dbl.zero
    pure (Ct, Cr)

/-- The comparison loop of `main`: `(max_abs_diff, sum_abs_diff)`. -/
def compare (C_ref C_test : List Dbl) (size : Nat) : Option (Dbl × Dbl) :=
  forSize size (Dbl.zero, Dbl.zero) fun ms i => do
    let r ← rd C_ref (i : Int)
    let t ← rd C_test (i : Int)
    let d := Flt.abs (Dbl.sub r t)
    let sum_abs_diff := Dbl.add ms.2 d
    pure (if Flt.gt d ms.1 then d else ms.1, sum_abs_diff)

/-- One row of the sample table: the inner loop over `j`. -/
def sample_row (C_ref C_test : List Dbl) (N : Int) (i : Int) : Option (List Event) :=
  forInt N [] fun out j => do
    let p ← idx i N j
    let r ← rd C_ref p
    let t ← rd C_test p
    pure (out ++ [Event.entry i j r t])

/-- The sample-table loop of `main` over the rows still to visit: after a row `i`
with `i >= 5 && N > 6` the truncation line is printed and the loop is left. -/
def sample_rows (C_ref C_test : List Dbl) (N : Int) : List Nat → Option (List Event)
  | [] => some []
  | i :: rest => do
    let row ← sample_row C_ref C_test N (i : Int)
    if 5 ≤ (i : Int) ∧ 6 < N then pure (row ++ [Event.truncated])
    else do
      let more ← sample_rows C_ref C_test N rest
      pure (row ++ more)

/-- The final test of `main`: exit code and closing line. -/
def verdict (max_abs_diff tolerance : Dbl) : Int × Event :=
  if Flt.gt max_abs_diff tolerance then (2, Event.detected max_abs_diff tolerance)
  else (0, Event.no_difference tolerance)

/-- The function `main`, with the kernel under test `impl` (the macro
`matmul_test_impl`), the library functions `atoi` and `atof`, and the allocator as
parameters. `none` is undefined behaviour. -/
def main (impl : Kernel) (atoi : String → Int) (atof : String → Dbl)
    (heap : Nat → Option (Nat → Dbl)) (argv : List String) : Option Run :=
  match parse_args atoi atof argv with
  | none => some ⟨1, [Event.usage (argv.getD 0 "")], Dbl.tol_default, none⟩
  | some (N, scenario, tolerance) =>
    let size := (N.toNat * N.toNat) % 2 ^ 64
    match malloc_doubles heap 0 size, malloc_doubles heap 1 size,
          malloc_doubles heap 2 size, malloc_doubles heap 3 size with
    | some A, some B, some C_test, some C_ref =>
      (fill_scenario scenario A B N).bind fun filled =>
      match filled with
      | none => some ⟨1, [Event.unknown_scenario scenario], tolerance, none⟩
      | some (A, B) => do
        let CC ← zero_outputs C_test C_ref size
        let C_test ← impl A B CC.1 N
        let C_ref ← matmul_ref A B CC.2 N
        let ms ← compare C_ref C_test size
        let rows ← sample_rows C_ref C_test N (List.range N.toNat)
        let v := verdict ms.1 tolerance
        pure ⟨v.1,
          [Event.call_test, Event.call_ref, Event.header N scenario,
            Event.max_diff ms.1, Event.sum_diff ms.2, Event.sample_header]
            ++ rows ++ [v.2],
          tolerance, some ms⟩
    | _, _, _, _ => some ⟨1, [Event.alloc_failed], tolerance, none⟩


/-! ## Reference values used in the statements -/

/-- The inner product of row `i` of `A` and column `j` of `B`, accumulated from
`0.0` in increasing `k`. -/
def dot (A B : List Dbl) (N i j : Nat) : Dbl :=
  (List.range N).foldl
    (fun s k => Dbl.add s (Dbl.mul (A.getD (i * N + k) Dbl.zero) (B.getD (k * N + j) Dbl.zero)))
    Dbl.zero

/-- The first `p` cells of the `N * N` buffer `C`, in row-major order, hold `v i j` in
cell `i * N + j`. -/
def Filled (N : Nat) (v : Nat → Nat → Dbl) (p : Nat) (C : List Dbl) : Prop :=
  C.length = N * N ∧ ∀ q, q < p → C[q]? = some (v (q / N) (q % N))

/-- The generator states of `fill_random`: `s_0 = 123456789` and
`s_(n+1) = (s_n * 1103515245 + 12345) mod 2^32`. -/
def lcg_state : Nat → Nat
  | 0 => 123456789
  | n + 1 => (lcg_state n * 1103515245 + 12345) % 2 ^ 32

/-- The cell `(i, j)` of the identity matrix. -/
def identity_cell (i j : Nat) : Dbl := if i = j then Dbl.one else Dbl.zero

/-- The value stored in `A` for the generator state `seed`, with the shift read as a
logical shift: `((seed / 2^16) mod 97 - 48) / 3.0`. -/
def draw_A_val (seed : Nat) : Dbl :=
  Dbl.div (Dbl.ofInt ((((seed / 65536) % 97 : Nat) : Int) - 48)) Dbl.three

/-- The value stored in `B` for the generator state `seed`, with the shift read as a
logical shift: `((seed / 2^16) mod 61 - 30) / 4.0`. -/
def draw_B_val (seed : Nat) : Dbl :=
  Dbl.div (Dbl.ofInt ((((seed / 65536) % 61 : Nat) : Int) - 30)) Dbl.four

/-- The integer a floating-point datum is equal to, when it is one. -/
def Flt.toInt? : Flt → Option Int
  | .nan => none
  | .inf _ => none
  | .fin s m e =>
    if 0 ≤ e then some (Flt.scaled s m e)
    else if m % 2 ^ (-e).toNat = 0 then some (Flt.scaled s (m / 2 ^ (-e).toNat) 0)
    else none

/-! ## Concrete runs used as witnesses -/

/-- The run of `matmul_broken_A` on the 1×1 `identity` scenario with the default
tolerance. -/
def run_identity_1 : Run :=
  ⟨2, [Event.call_test, Event.call_ref, Event.header 1 "identity", Event.max_diff Dbl.one,
      Event.sum_diff Dbl.one, Event.sample_header, Event.entry 0 0 Dbl.one Dbl.zero,
      Event.detected Dbl.one Dbl.tol_default], Dbl.tol_default, some (Dbl.one, Dbl.one)⟩

/-- An allocator whose every call succeeds and returns a block full of NaN. -/
def heap_nan : Nat → Option (Nat → Dbl) := fun _ => some (fun _ => Flt.nan)

/-! ## The draw formula as the specification words it -/

/-- A 32-bit pattern read as a signed 32-bit integer. -/
def to_signed32 (s : Nat) : Int := if s < 2 ^ 31 then (s : Int) else (s : Int) - 2 ^ 32

/-- The value for `A` as the specification describes it: the state read as a signed
32-bit integer, shifted right arithmetically by 16 bits, reduced by the C remainder
modulo 97, minus 48, divided by `3.0`. -/
def draw_A_spec (s : Nat) : Dbl :=
  Dbl.div (Dbl.ofInt (Int.tmod (Int.fdiv (to_signed32 s) 65536) 97 - 48)) Dbl.three

/-- The value for `B` as the specification describes it: the state read as a signed
32-bit integer, shifted right arithmetically by 16 bits, reduced by the C remainder
modulo 61, minus 30, divided by `4.0`. -/
def draw_B_spec (s : Nat) : Dbl :=
  Dbl.div (Dbl.ofInt (Int.tmod (Int.fdiv (to_signed32 s) 65536) 61 - 30)) Dbl.four

/-! ## Reference values for the later statements -/

/-- The sum `matmul_broken_B` accumulates for cell `(i, j)`: `A` is read at
`k * N + i`. -/
def dot_B (A B : List Dbl) (N i j : Nat) : Dbl :=
  (List.range N).foldl
    (fun s k => Dbl.add s (Dbl.mul (A.getD (k * N + i) Dbl.zero) (B.getD (k * N + j) Dbl.zero)))
    Dbl.zero

/-- The value of `N` after argument handling: `atoi(argv[1])` when given, else `6`. -/
def arg_N (atoi : String → Int) (argv : List String) : Int :=
  if 2 ≤ argv.length then atoi (argv.getD 1 "") else 6

/-- The scenario name after argument handling: `argv[2]` when given, else
`"increment"`. -/
def arg_scenario (argv : List String) : String :=
  if 3 ≤ argv.length then argv.getD 2 "" else "increment"

/-- The tolerance after argument handling. -/
def arg_tolerance (atof : String → Dbl) (argv : List String) : Dbl :=
  if 4 ≤ argv.length then
    (if Flt.lt (atof (argv.getD 3 "")) Dbl.zero then Dbl.tol_default
     else atof (argv.getD 3 ""))
  else Dbl.tol_default

/-- The four scenario names `main` recognises. -/
def known_scenarios : List String := ["increment", "identity", "random", "pattern"]

/-- Row `i` of the sample table: the pair (reference, candidate) of every column. -/
def table_row (C_ref C_test : List Dbl) (N i : Nat) : List Event :=
  (List.range N).map fun (j : Nat) =>
    Event.entry (i : Int) (j : Int) (C_ref.getD (i * N + j) Dbl.zero)
      (C_test.getD (i * N + j) Dbl.zero)

/-- The sample table: rows `0 .. N-1` when `N <= 6`, rows `0 .. 5` followed by the
truncation line when `N > 6`. -/
def sample_table (C_ref C_test : List Dbl) (N : Nat) : List Event :=
  if 6 < N then ((List.range 6).map (table_row C_ref C_test N)).flatten ++ [Event.truncated]
  else ((List.range N).map (table_row C_ref C_test N)).flatten

/-- The partial sum `matmul_broken_C` holds in `sum_f` for cell `(i, j)` after `n` steps
of its inner loop. -/
def dot_C (A B : List Dbl) (N i j n : Nat) : Flt :=
  (List.range n).foldl
    (fun s k => binary32.add s (binary32.mul (binary32.ofFlt (A.getD (i * N + k) Dbl.zero))
      (binary32.ofFlt (B.getD (k * N + j) Dbl.zero))))
    (Flt.fin false 0 0)

/-- An integer of magnitude below `2^24`. -/
def Flt.isSmallInt (x : Flt) : Bool :=
  match x.toInt? with
  | some z => decide (z.natAbs < 2 ^ 24)
  | none => false

/-- The 25 zeroes of a cleared 5×5 buffer. -/
def zeros_5 : List Dbl := List.replicate 25 Dbl.zero

/-- The operands the `increment` scenario leaves in `A` and `B` for `N = 5`. -/
def increment_5 : List Dbl × List Dbl := (fill_increment zeros_5 zeros_5 5).getD ([], [])

/-- The reference product of the `increment` operands for `N = 5`. -/
def product_5 : List Dbl := (matmul_ref increment_5.1 increment_5.2 zeros_5 5).getD []

/-! ## The parts of a rounding, and the value of a datum -/

/-- The exponent of the last place `Fmt.roundPos` rounds `num / den` at. -/
def Fmt.expo (f : Fmt) (num den : Nat) : Int :=
  let L : Int := (bitlen num : Int) - (bitlen den : Int)
  let e0 : Int := if den * 2 ^ L.toNat ≤ num * 2 ^ (-L).toNat then L else L - 1
  max (e0 - ((f.prec : Int) - 1)) f.emin

/-- The integer nearest to `n / d`, ties to even. -/
def nearest (n d : Nat) : Nat :=
  if 2 * (n % d) < d then n / d else if d < 2 * (n % d) then n / d + 1
  else if (n / d) % 2 = 0 then n / d else n / d + 1

/-- The datum `Fmt.roundPos` returns for the rounded significand `m` at exponent `e`. -/
def Fmt.pack (f : Fmt) (neg : Bool) (m : Nat) (e : Int) : Flt :=
  if m = 0 then Flt.fin neg 0 0
  else if m = 2 ^ f.prec then
    (if f.emax < e + 1 then Flt.inf neg else Flt.fin neg (2 ^ (f.prec - 1)) (e + 1))
  else if f.emax < e then Flt.inf neg else Flt.fin neg m e

/-- A finite `double` in the encoding the operations return: a zero is `fin s 0 0`, a
subnormal number has exponent `-1074`, a normal number has a 53-bit significand. -/
def Flt.isDouble : Flt → Bool
  | .fin _ m e =>
    decide (m < 2 ^ 53 ∧ -1074 ≤ e ∧ e ≤ 971 ∧ (m = 0 → e = 0) ∧
      (m ≠ 0 → 2 ^ 52 ≤ m ∨ e = -1074))
  | _ => false

/-- The value of a datum as a rational number, with `2^1024` standing for the
infinities (above every finite `double`) and `0` for NaN. -/
def Flt.val : Flt → ℚ
  | .nan => 0
  | .inf s => if s then -(2 : ℚ) ^ (1024 : Nat) else (2 : ℚ) ^ (1024 : Nat)
  | .fin s m e => if s then -((m : ℚ) * (2 : ℚ) ^ e) else (m : ℚ) * (2 : ℚ) ^ e

/-- A `double` that is `+inf` or finite and not negative in sign: the range of `fabs`
on differences of finite numbers. -/
def Flt.isMag : Flt → Bool
  | .nan => false
  | .inf s => !s
  | .fin s m e => !s && decide (m < 2 ^ 53 ∧ -1074 ≤ e ∧ e ≤ 971)

/-- The datum with a negative zero replaced by `+0.0`. -/
def Flt.plusZero : Flt → Flt
  | .fin s m e => if m = 0 then Flt.fin false 0 0 else Flt.fin s m e
  | x => x

/-! ## Loops -/

theorem foldlM_range_inv {σ : Type} (n : Nat) (f : σ → Nat → Option σ) (P : Nat → σ → Prop)
    (s0 : σ) (h0 : P 0 s0)
    (hstep : ∀ t, t < n → ∀ s, P t s → ∃ s', f s t = some s' ∧ P (t + 1) s') :
    ∃ s', (List.range n).foldlM f s0 = some s' ∧ P n s' := by
  induction n with
  | zero => exact ⟨s0, rfl, h0⟩
  | succ m ih =>
    obtain ⟨s1, h1, hP1⟩ := ih (fun t ht s hs => hstep t (Nat.lt_succ_of_lt ht) s hs)
    obtain ⟨s2, h2, hP2⟩ := hstep m (Nat.lt_succ_self m) s1 hP1
    refine ⟨s2, ?_, hP2⟩
    rw [List.range_succ, List.foldlM_append, h1]
    simp [h2]

theorem forInt_inv {σ : Type} (N : Nat) (body : σ → Int → Option σ) (P : Nat → σ → Prop)
    (s0 : σ) (h0 : P 0 s0)
    (hstep : ∀ t, t < N → ∀ s, P t s → ∃ s', body s (t : Int) = some s' ∧ P (t + 1) s') :
    ∃ s', forInt (N : Int) s0 body = some s' ∧ P N s' := by
  unfold forInt
  rw [Int.toNat_ofNat]
  exact foldlM_range_inv N (fun s (i : Nat) => body s (i : Int)) P s0 h0 hstep

theorem forSize_inv {σ : Type} (n : Nat) (body : σ → Nat → Option σ) (P : Nat → σ → Prop)
    (s0 : σ) (h0 : P 0 s0)
    (hstep : ∀ t, t < n → ∀ s, P t s → ∃ s', body s t = some s' ∧ P (t + 1) s') :
    ∃ s', forSize n s0 body = some s' ∧ P n s' :=
  foldlM_range_inv n body P s0 h0 hstep

/-- Two nested `int` loops over `0..N-1` with an invariant indexed by the number
`i * N + j` of cells already visited. -/
theorem forInt2_inv {σ : Type} (N : Nat) (body : σ → Int → Int → Option σ)
    (P : Nat → σ → Prop) (s0 : σ) (h0 : P 0 s0)
    (hstep : ∀ i j, i < N → j < N → ∀ s, P (i * N + j) s →
      ∃ s', body s (i : Int) (j : Int) = some s' ∧ P (i * N + j + 1) s') :
    ∃ s', forInt (N : Int) s0 (fun s i => forInt (N : Int) s (fun s j => body s i j)) = some s'
      ∧ P (N * N) s' := by
  apply forInt_inv N _ (fun i s => P (i * N) s) s0 (by simpa using h0)
  intro i hi s hs
  have := forInt_inv N (fun s j => body s (i : Int) j) (fun j s => P (i * N + j) s) s
    (by simpa using hs) (fun j hj s hs => hstep i j hi hj s hs)
  obtain ⟨s', h1, h2⟩ := this
  exact ⟨s', h1, by rw [Nat.succ_mul]; exact h2⟩

theorem foldlM_none_of_mem {σ α : Type} (f : σ → α → Option σ) (l : List α) (x : α)
    (hx : x ∈ l) (hf : ∀ s, f s x = none) (s0 : σ) : l.foldlM f s0 = none := by
  induction l generalizing s0 with
  | nil => cases hx
  | cons a l ih =>
    rw [List.foldlM_cons]
    rcases List.mem_cons.mp hx with h | h
    · subst h; simp [hf]
    · cases h1 : f s0 a with
      | none => rfl
      | some s1 => exact ih h s1

theorem forInt_none_of_lt {σ : Type} (N : Nat) (body : σ → Int → Option σ) (t : Nat)
    (ht : t < N) (hf : ∀ s, body s (t : Int) = none) (s0 : σ) :
    forInt (N : Int) s0 body = none := by
  unfold forInt
  rw [Int.toNat_ofNat]
  exact foldlM_none_of_mem (fun s (i : Nat) => body s (i : Int)) _ t (List.mem_range.mpr ht) hf s0

/-! ## Indices and buffers -/

theorem idx_eq (i j N : Nat) (hi : i < N) (hj : j ≤ N) (hN : N ≤ 46340) :
    idx (i : Int) (N : Int) (j : Int) = some ((i * N + j : Nat) : Int) := by
  have h1 : i * N ≤ 46339 * 46340 := Nat.mul_le_mul (by omega) hN
  have h2 : ((i * N : Nat) : Int) = (i : Int) * (N : Int) := by push_cast; ring
  unfold idx int_mul int_add int_chk INT_MIN INT_MAX
  rw [← h2]
  have h3 : (-2147483648 : Int) ≤ ((i * N : Nat) : Int) ∧ ((i * N : Nat) : Int) ≤ 2147483647 := by
    constructor <;> omega
  rw [if_pos h3]
  have h4 : (-2147483648 : Int) ≤ ((i * N : Nat) : Int) + (j : Int) ∧
      ((i * N : Nat) : Int) + (j : Int) ≤ 2147483647 := by
    constructor <;> omega
  simp only [Option.bind_eq_bind, Option.some_bind]
  rw [if_pos h4]
  push_cast
  rfl

theorem rd_nat (buf : List Dbl) (p : Nat) : rd buf (p : Int) = buf[p]? := by
  unfold rd
  rw [if_pos (Int.ofNat_nonneg p), Int.toNat_ofNat]

theorem rd_lt (buf : List Dbl) (p : Nat) (h : p < buf.length) :
    rd buf (p : Int) = some (buf.getD p Dbl.zero) := by
  rw [rd_nat, List.getD_eq_getElem?_getD, List.getElem?_eq_getElem h]
  rfl

theorem wr_lt (buf : List Dbl) (p : Nat) (v : Dbl) (h : p < buf.length) :
    wr buf (p : Int) v = some (buf.set p v) := by
  unfold wr
  rw [Int.toNat_ofNat, if_pos ⟨Int.ofNat_nonneg p, h⟩]

theorem cell_lt (i j N : Nat) (hi : i < N) (hj : j < N) : i * N + j < N * N := by
  have : (i + 1) * N ≤ N * N := Nat.mul_le_mul_right N hi
  rw [Nat.succ_mul] at this
  omega

theorem cell_div (i j N : Nat) (hj : j < N) : (i * N + j) / N = i := by
  have hN : 0 < N := by omega
  rw [Nat.add_comm, Nat.add_mul_div_right _ _ hN, Nat.div_eq_of_lt hj, Nat.zero_add]

theorem cell_mod (i j N : Nat) (hj : j < N) : (i * N + j) % N = j := by
  rw [Nat.add_comm, Nat.add_mul_mod_self_right, Nat.mod_eq_of_lt hj]

/-! ## The reference kernel -/

/-- The `k` loop of `matmul_ref` returns the inner product. -/
theorem matmul_ref_inner (A B : List Dbl) (N i j : Nat) (hi : i < N) (hj : j < N)
    (hN : N ≤ 46340) (hA : A.length = N * N) (hB : B.length = N * N) :
    forInt (N : Int) Dbl.zero (fun sum k => do
        let p ← idx (i : Int) (N : Int) k
        let a ← rd A p
        let q ← idx k (N : Int) (j : Int)
        let b ← rd B q
        pure (Dbl.add sum (Dbl.mul a b))) = some (dot A B N i j) := by
  obtain ⟨s, h1, h2⟩ := forInt_inv N (fun sum k => do
        let p ← idx (i : Int) (N : Int) k
        let a ← rd A p
        let q ← idx k (N : Int) (j : Int)
        let b ← rd B q
        pure (Dbl.add sum (Dbl.mul a b)))
    (fun k s => s = (List.range k).foldl
      (fun s k => Dbl.add s (Dbl.mul (A.getD (i * N + k) Dbl.zero) (B.getD (k * N + j) Dbl.zero)))
      Dbl.zero) Dbl.zero rfl (by
      intro k hk s hs
      refine ⟨_, ?_, rfl⟩
      dsimp only
      rw [idx_eq i k N hi (le_of_lt hk) hN, idx_eq k j N hk (le_of_lt hj) hN]
      simp only [Option.bind_eq_bind, Option.some_bind]
      rw [rd_lt A _ (by rw [hA]; exact cell_lt i k N hi hk),
        rd_lt B _ (by rw [hB]; exact cell_lt k j N hk hj)]
      simp only [Option.some_bind, Option.pure_def]
      rw [List.range_succ, List.foldl_append, hs]
      rfl)
  rw [h1, h2]
  rfl

theorem Filled.step {N : Nat} {v : Nat → Nat → Dbl} {C : List Dbl} (i j : Nat) (hi : i < N)
    (hj : j < N) (h : Filled N v (i * N + j) C) :
    Filled N v (i * N + j + 1) (C.set (i * N + j) (v i j)) := by
  refine ⟨by rw [List.length_set]; exact h.1, ?_⟩
  intro q hq
  rw [List.getElem?_set]
  by_cases hpq : i * N + j = q
  · rw [if_pos hpq, if_pos (by rw [h.1]; exact cell_lt i j N hi hj), ← hpq,
      cell_div i j N hj, cell_mod i j N hj]
  · rw [if_neg hpq]
    exact h.2 q (by omega)

theorem Filled.cell {N : Nat} {v : Nat → Nat → Dbl} {C : List Dbl} (h : Filled N v (N * N) C)
    (i j : Nat) (hi : i < N) (hj : j < N) : C[i * N + j]? = some (v i j) := by
  have := h.2 (i * N + j) (cell_lt i j N hi hj)
  rwa [cell_div i j N hj, cell_mod i j N hj] at this

theorem Filled.eq {N : Nat} {v : Nat → Nat → Dbl} {C C' : List Dbl} (h : Filled N v (N * N) C)
    (h' : Filled N v (N * N) C') : C = C' := by
  apply List.ext_getElem? 
  intro q
  by_cases hq : q < N * N
  · rw [h.2 q hq, h'.2 q hq]
  · rw [List.getElem?_eq_none (by rw [h.1]; omega), List.getElem?_eq_none (by rw [h'.1]; omega)]

theorem matmul_ref_filled (A B C : List Dbl) (N : Nat) (hN : N ≤ 46340)
    (hA : A.length = N * N) (hB : B.length = N * N) (hC : C.length = N * N) :
    ∃ C', matmul_ref A B C (N : Int) = some C' ∧ Filled N (dot A B N) (N * N) C' := by
  unfold matmul_ref
  apply forInt2_inv N _ (Filled N (dot A B N)) C ⟨hC, fun q hq => absurd hq (Nat.not_lt_zero q)⟩
  intro i j hi hj s hs
  refine ⟨s.set (i * N + j) (dot A B N i j), ?_, hs.step i j hi hj⟩
  dsimp only
  rw [matmul_ref_inner A B N i j hi hj hN hA hB, idx_eq i j N hi (le_of_lt hj) hN]
  simp only [Option.bind_eq_bind, Option.some_bind]
  exact wr_lt s _ _ (by rw [hs.1]; exact cell_lt i j N hi hj)

/-! ## Exact floating-point arithmetic on small integers -/

theorem bitlenAux_zero (fuel : Nat) : bitlenAux fuel 0 = 0 := by
  cases fuel <;> simp [bitlenAux]

theorem bitlenAux_spec (fuel n : Nat) (h : n ≤ fuel) :
    n < 2 ^ bitlenAux fuel n ∧ (n ≠ 0 → 1 ≤ bitlenAux fuel n ∧ 2 ^ (bitlenAux fuel n - 1) ≤ n) := by
  induction fuel generalizing n with
  | zero =>
    have : n = 0 := by omega
    subst this
    simp [bitlenAux]
  | succ fuel ih =>
    by_cases hn : n = 0
    · subst hn
      simp [bitlenAux]
    · have hhalf : n / 2 ≤ fuel := by omega
      obtain ⟨h1, h2⟩ := ih (n / 2) hhalf
      have hb : bitlenAux (fuel + 1) n = bitlenAux fuel (n / 2) + 1 := by
        simp [bitlenAux, hn]
      rw [hb]
      refine ⟨?_, fun _ => ⟨by omega, ?_⟩⟩
      · rw [pow_succ]; omega
      · rw [Nat.add_sub_cancel]
        by_cases h0 : n / 2 = 0
        · rw [h0, bitlenAux_zero]
          simp
          omega
        · obtain ⟨h3, h4⟩ := h2 h0
          have : 2 ^ bitlenAux fuel (n / 2) = 2 ^ (bitlenAux fuel (n / 2) - 1) * 2 := by
            rw [← pow_succ]
            congr 1
            omega
          omega

theorem bitlen_lt (n : Nat) : n < 2 ^ bitlen n := (bitlenAux_spec n n (le_refl n)).1

theorem bitlen_pos (n : Nat) (h : n ≠ 0) : 1 ≤ bitlen n :=
  ((bitlenAux_spec n n (le_refl n)).2 h).1

theorem bitlen_le (n : Nat) (h : n ≠ 0) : 2 ^ (bitlen n - 1) ≤ n :=
  ((bitlenAux_spec n n (le_refl n)).2 h).2

theorem bitlen_le_of_lt (n k : Nat) (h : n < 2 ^ k) (hn : n ≠ 0) : bitlen n ≤ k := by
  by_contra hc
  have h1 : 2 ^ k ≤ 2 ^ (bitlen n - 1) := Nat.pow_le_pow_right (by norm_num) (by omega)
  have h2 := bitlen_le n hn
  omega

/-- Rounding a positive integer below `2^53` to binary64 is exact: the result is the
integer with its leading bit moved to position 52. -/
theorem roundPos_nat (neg : Bool) (n : Nat) (hn : n ≠ 0) (h : n < 2 ^ 53) :
    binary64.roundPos neg n 1 =
      Flt.fin neg (n * 2 ^ (53 - bitlen n)) (-((53 - bitlen n : Nat) : Int)) := by
  have hb1 := bitlen_pos n hn
  have hb2 := bitlen_le_of_lt n 53 h hn
  have hlo := bitlen_le n hn
  have hhi := bitlen_lt n
  have hone : bitlen 1 = 1 := by decide
  have hL : ((bitlen n : Int) - (bitlen 1 : Int)) = ((bitlen n - 1 : Nat) : Int) := by
    rw [hone]; omega
  unfold Fmt.roundPos
  simp only [hL, binary64, Int.toNat_ofNat]
  have hneg : (-((bitlen n - 1 : Nat) : Int)).toNat = 0 := by omega
  rw [hneg]
  have hc : 1 * 2 ^ (bitlen n - 1) ≤ n * 2 ^ 0 := by simpa using hlo
  rw [if_pos hc]
  have he : max (((bitlen n - 1 : Nat) : Int) - (((53 : Nat) : Int) - 1)) (-1074)
      = -((53 - bitlen n : Nat) : Int) := by
    rw [max_eq_left (by omega)]; omega
  rw [he]
  have h1 : (- -((53 - bitlen n : Nat) : Int)).toNat = 53 - bitlen n := by omega
  have h2 : (-((53 - bitlen n : Nat) : Int)).toNat = 0 := by omega
  rw [h1, h2]
  simp only [pow_zero, mul_one, Nat.div_one, Nat.mod_one, mul_zero, Nat.lt_one_iff, 
    if_true, zero_lt_one]
  have hm0 : n * 2 ^ (53 - bitlen n) ≠ 0 := Nat.mul_ne_zero hn (by positivity)
  have hmlt : n * 2 ^ (53 - bitlen n) < 2 ^ 53 := by
    calc n * 2 ^ (53 - bitlen n) < 2 ^ bitlen n * 2 ^ (53 - bitlen n) :=
          Nat.mul_lt_mul_of_pos_right hhi (by positivity)
      _ = 2 ^ 53 := by rw [← pow_add]; congr 1; omega
  rw [if_neg hm0, if_neg (Nat.ne_of_lt hmlt), if_neg (by omega)]

theorem round_scaled (f : Fmt) (neg : Bool) (n c : Nat) (hn : n ≠ 0) (hc : c ≠ 0) :
    f.round neg (n * c) c = f.roundPos neg n 1 := by
  unfold Fmt.round
  rw [if_neg (Nat.mul_ne_zero hn hc), Nat.gcd_mul_left_left,
    Nat.mul_div_cancel _ (Nat.pos_of_ne_zero hc), Nat.div_self (Nat.pos_of_ne_zero hc)]

theorem round_nat (f : Fmt) (neg : Bool) (n : Nat) (hn : n ≠ 0) :
    f.round neg n 1 = f.roundPos neg n 1 := by
  have := round_scaled f neg n 1 hn one_ne_zero
  rwa [mul_one] at this

theorem ofInt_natCast (n : Nat) : Dbl.ofInt (n : Int) = binary64.round false n 1 := by
  unfold Dbl.ofInt Fmt.ofInt
  have h : decide ((n : Int) < 0) = false := by simp
  rw [h, Int.natAbs_ofNat]

/-- Every natural number below `2^53` is a binary64 number. -/
theorem ofInt_nat_repr (n : Nat) (h : n < 2 ^ 53) :
    ∃ k : Nat, Dbl.ofInt (n : Int) = Flt.fin false (n * 2 ^ k) (-(k : Int)) := by
  by_cases hn : n = 0
  · subst hn
    exact ⟨0, by decide⟩
  · exact ⟨53 - bitlen n, by rw [ofInt_natCast, round_nat _ _ _ hn, roundPos_nat false n hn h]⟩

theorem scaled_pos (m : Nat) (k : Nat) : Flt.scaled false m (k : Int) = ((m * 2 ^ k : Nat) : Int) := by
  unfold Flt.scaled
  simp

theorem add_dyadic (a b ka kb : Nat) :
    binary64.add (Flt.fin false (a * 2 ^ ka) (-(ka : Int))) (Flt.fin false (b * 2 ^ kb) (-(kb : Int)))
      = binary64.round false (a + b) 1 := by
  have hmin : min (-(ka : Int)) (-(kb : Int)) = -((max ka kb : Nat) : Int) := by
    rcases le_total ka kb with h | h
    · rw [max_eq_right h, min_eq_right (by omega)]
    · rw [max_eq_left h, min_eq_left (by omega)]
  have h1 : (-(ka : Int)) - -((max ka kb : Nat) : Int) = ((max ka kb - ka : Nat) : Int) := by
    have := le_max_left ka kb; omega
  have h2 : (-(kb : Int)) - -((max ka kb : Nat) : Int) = ((max ka kb - kb : Nat) : Int) := by
    have := le_max_right ka kb; omega
  have ha : a * 2 ^ ka * 2 ^ (max ka kb - ka) = a * 2 ^ max ka kb := by
    rw [mul_assoc, ← pow_add]; congr 2; have := le_max_left ka kb; omega
  have hb : b * 2 ^ kb * 2 ^ (max ka kb - kb) = b * 2 ^ max ka kb := by
    rw [mul_assoc, ← pow_add]; congr 2; have := le_max_right ka kb; omega
  show (let e := min (-(ka : Int)) (-(kb : Int))
        let s := Flt.scaled false (a * 2 ^ ka) (-(ka : Int) - e)
              + Flt.scaled false (b * 2 ^ kb) (-(kb : Int) - e)
        if s = 0 then Flt.fin (false && false) 0 0
        else binary64.round (decide (s < 0)) (s.natAbs * 2 ^ e.toNat) (2 ^ (-e).toNat)) = _
  simp only [hmin, h1, h2, scaled_pos, ha, hb]
  have hs : (((a * 2 ^ max ka kb : Nat) : Int) + ((b * 2 ^ max ka kb : Nat) : Int))
      = (((a + b) * 2 ^ max ka kb : Nat) : Int) := by
    push_cast; ring
  rw [hs]
  by_cases h0 : a + b = 0
  · have : (((a + b) * 2 ^ max ka kb : Nat) : Int) = 0 := by rw [h0]; simp
    rw [if_pos this, h0]
    rfl
  · have hne : (((a + b) * 2 ^ max ka kb : Nat) : Int) ≠ 0 := by
      have : (a + b) * 2 ^ max ka kb ≠ 0 := Nat.mul_ne_zero h0 (by positivity)
      exact_mod_cast this
    rw [if_neg hne]
    have hd : decide ((((a + b) * 2 ^ max ka kb : Nat) : Int) < 0) = false := by
      simp only [decide_eq_false_iff_not, not_lt]
      exact Int.ofNat_nonneg _
    have ht1 : (-((max ka kb : Nat) : Int)).toNat = 0 := by omega
    have ht2 : (- -((max ka kb : Nat) : Int)).toNat = max ka kb := by omega
    rw [hd, Int.natAbs_ofNat, ht1, ht2, pow_zero, mul_one,
      round_scaled _ _ _ _ h0 (by positivity), round_nat _ _ _ h0]

theorem mul_dyadic (a b ka kb : Nat) :
    binary64.mul (Flt.fin false (a * 2 ^ ka) (-(ka : Int))) (Flt.fin false (b * 2 ^ kb) (-(kb : Int)))
      = binary64.round false (a * b) 1 := by
  show binary64.round (xor false false) (a * 2 ^ ka * (b * 2 ^ kb) * 2 ^ (-(ka : Int) + -(kb : Int)).toNat)
      (2 ^ (-(-(ka : Int) + -(kb : Int))).toNat) = _
  have ht1 : (-(ka : Int) + -(kb : Int)).toNat = 0 := by omega
  have ht2 : (-(-(ka : Int) + -(kb : Int))).toNat = ka + kb := by omega
  have hm : a * 2 ^ ka * (b * 2 ^ kb) = a * b * 2 ^ (ka + kb) := by rw [pow_add]; ring
  rw [ht1, ht2, pow_zero, mul_one, hm]
  by_cases h0 : a * b = 0
  · rw [h0, zero_mul]
    simp [Fmt.round]
  · rw [round_scaled _ _ _ _ h0 (by positivity), round_nat _ _ _ h0]
    simp

/-- Adding two natural numbers in binary64 gives the rounding of their sum. -/
theorem Dbl_add_nat (a b : Nat) (ha : a < 2 ^ 53) (hb : b < 2 ^ 53) :
    Dbl.add (Dbl.ofInt (a : Int)) (Dbl.ofInt (b : Int)) = Dbl.ofInt ((a + b : Nat) : Int) := by
  obtain ⟨ka, hka⟩ := ofInt_nat_repr a ha
  obtain ⟨kb, hkb⟩ := ofInt_nat_repr b hb
  rw [hka, hkb, ofInt_natCast]
  exact add_dyadic a b ka kb

/-- Multiplying two natural numbers in binary64 gives the rounding of their product. -/
theorem Dbl_mul_nat (a b : Nat) (ha : a < 2 ^ 53) (hb : b < 2 ^ 53) :
    Dbl.mul (Dbl.ofInt (a : Int)) (Dbl.ofInt (b : Int)) = Dbl.ofInt ((a * b : Nat) : Int) := by
  obtain ⟨ka, hka⟩ := ofInt_nat_repr a ha
  obtain ⟨kb, hkb⟩ := ofInt_nat_repr b hb
  rw [hka, hkb, ofInt_natCast]
  exact mul_dyadic a b ka kb

/-! ## The scenarios -/

theorem int_chk_eq (x : Int) (h1 : -2147483648 ≤ x) (h2 : x ≤ 2147483647) :
    int_chk x = some x := by
  unfold int_chk INT_MIN INT_MAX
  rw [if_pos ⟨h1, h2⟩]

theorem Filled.zero {N : Nat} {v : Nat → Nat → Dbl} {C : List Dbl} (h : C.length = N * N) :
    Filled N v 0 C := ⟨h, fun q hq => absurd hq (Nat.not_lt_zero q)⟩

theorem cell_bound (i j N : Nat) (hi : i < N) (hj : j < N) (hN : N ≤ 46340) :
    i * N + j < 2147395600 := by
  have h1 := cell_lt i j N hi hj
  have h2 : N * N ≤ 46340 * 46340 := Nat.mul_le_mul hN hN
  omega

theorem fill_identity_filled (A B : List Dbl) (N : Nat) (hN : N ≤ 46340)
    (hA : A.length = N * N) (hB : B.length = N * N) :
    ∃ AB, fill_identity A B (N : Int) = some AB ∧ Filled N identity_cell (N * N) AB.1 ∧
      Filled N identity_cell (N * N) AB.2 := by
  unfold fill_identity
  apply forInt2_inv N _ (fun p AB => Filled N identity_cell p AB.1 ∧ Filled N identity_cell p AB.2)
    (A, B) ⟨Filled.zero hA, Filled.zero hB⟩
  intro i j hi hj s hs
  refine ⟨(s.1.set (i * N + j) (identity_cell i j), s.2.set (i * N + j) (identity_cell i j)), ?_,
    hs.1.step i j hi hj, hs.2.step i j hi hj⟩
  have hv : (if (i : Int) = (j : Int) then Dbl.one else Dbl.zero) = identity_cell i j := by
    unfold identity_cell
    simp only [Nat.cast_inj]
  rw [idx_eq i j N hi (le_of_lt hj) hN, hv]
  simp only [Option.bind_eq_bind, Option.some_bind]
  rw [wr_lt s.1 _ _ (by rw [hs.1.1]; exact cell_lt i j N hi hj),
    wr_lt s.2 _ _ (by rw [hs.2.1]; exact cell_lt i j N hi hj)]
  rfl

theorem fill_pattern_filled (A B : List Dbl) (N : Nat) (hN : N ≤ 46340)
    (hA : A.length = N * N) (hB : B.length = N * N) :
    ∃ AB, fill_pattern A B (N : Int) = some AB ∧
      Filled N (fun i _ => Dbl.ofInt ((i + 1 : Nat) : Int)) (N * N) AB.1 ∧
      Filled N (fun _ j => Dbl.ofInt ((j + 2 : Nat) : Int)) (N * N) AB.2 := by
  unfold fill_pattern
  apply forInt2_inv N _ (fun p AB => Filled N (fun i _ => Dbl.ofInt ((i + 1 : Nat) : Int)) p AB.1 ∧
      Filled N (fun _ j => Dbl.ofInt ((j + 2 : Nat) : Int)) p AB.2)
    (A, B) ⟨Filled.zero hA, Filled.zero hB⟩
  intro i j hi hj s hs
  refine ⟨(s.1.set (i * N + j) (Dbl.ofInt ((i + 1 : Nat) : Int)),
    s.2.set (i * N + j) (Dbl.ofInt ((j + 2 : Nat) : Int))), ?_,
    hs.1.step i j hi hj, hs.2.step i j hi hj⟩
  rw [idx_eq i j N hi (le_of_lt hj) hN]
  unfold int_add
  rw [int_chk_eq ((i : Int) + 1) (by omega) (by omega),
    int_chk_eq ((j : Int) + 2) (by omega) (by omega)]
  simp only [Option.bind_eq_bind, Option.some_bind]
  rw [wr_lt s.1 _ _ (by rw [hs.1.1]; exact cell_lt i j N hi hj),
    wr_lt s.2 _ _ (by rw [hs.2.1]; exact cell_lt i j N hi hj)]
  rfl

theorem fill_increment_filled (A B : List Dbl) (N : Nat) (hN : N ≤ 46340)
    (hA : A.length = N * N) (hB : B.length = N * N) :
    ∃ AB, fill_increment A B (N : Int) = some AB ∧
      Filled N (fun i j => Dbl.ofInt (((i * N + j : Nat) : Int) + 1)) (N * N) AB.1 ∧
      Filled N (fun i j => Dbl.ofInt ((((i + j) % 7 : Nat) : Int) - 3)) (N * N) AB.2 := by
  unfold fill_increment
  apply forInt2_inv N _ (fun p AB =>
      Filled N (fun i j => Dbl.ofInt (((i * N + j : Nat) : Int) + 1)) p AB.1 ∧
      Filled N (fun i j => Dbl.ofInt ((((i + j) % 7 : Nat) : Int) - 3)) p AB.2)
    (A, B) ⟨Filled.zero hA, Filled.zero hB⟩
  intro i j hi hj s hs
  refine ⟨(s.1.set (i * N + j) (Dbl.ofInt (((i * N + j : Nat) : Int) + 1)),
    s.2.set (i * N + j) (Dbl.ofInt ((((i + j) % 7 : Nat) : Int) - 3))), ?_,
    hs.1.step i j hi hj, hs.2.step i j hi hj⟩
  have hb := cell_bound i j N hi hj hN
  have hmod : Int.tmod ((i : Int) + (j : Int)) 7 = (((i + j) % 7 : Nat) : Int) := by
    rw [Int.tmod_eq_emod (by omega) (by omega)]
    push_cast
    rfl
  have hlt : (i + j) % 7 < 7 := Nat.mod_lt _ (by norm_num)
  have c1 := int_chk_eq (((i * N + j : Nat) : Int) + 1) (by omega) (by omega)
  have c2 := int_chk_eq ((i : Int) + (j : Int)) (by omega) (by omega)
  have c3 := int_chk_eq ((((i + j) % 7 : Nat) : Int)) (by omega) (by omega)
  have c4 := int_chk_eq ((((i + j) % 7 : Nat) : Int) - 3) (by omega) (by omega)
  have w1 := wr_lt s.1 (i * N + j) (Dbl.ofInt (((i * N + j : Nat) : Int) + 1))
    (by rw [hs.1.1]; exact cell_lt i j N hi hj)
  have w2 := wr_lt s.2 (i * N + j) (Dbl.ofInt ((((i + j) % 7 : Nat) : Int) - 3))
    (by rw [hs.2.1]; exact cell_lt i j N hi hj)
  have h7 : ¬ ((7 : Int) = 0) := by norm_num
  show (idx (i : Int) (N : Int) (j : Int)).bind (fun p =>
    (idx (i : Int) (N : Int) (j : Int)).bind fun t => (int_add t 1).bind fun v =>
      (wr s.1 p (Dbl.ofInt v)).bind fun A => (idx (i : Int) (N : Int) (j : Int)).bind fun q =>
       (int_add (i : Int) (j : Int)).bind fun u => (int_mod u 7).bind fun r => (int_sub r 3).bind fun w =>
        (wr s.2 q (Dbl.ofInt w)).bind fun B => some (A, B)) = _
  rw [idx_eq i j N hi (le_of_lt hj) hN, Option.some_bind, Option.some_bind]
  unfold int_add
  rw [c1, Option.some_bind, w1, Option.some_bind, Option.some_bind, c2, Option.some_bind]
  unfold int_mod
  rw [if_neg h7, hmod, c3, Option.some_bind]
  unfold int_sub
  rw [c4, Option.some_bind, w2, Option.some_bind]

theorem lcg_state_succ (n : Nat) : lcg_state (n + 1) = lcg_next (lcg_state n) := rfl

theorem lcg_state_lt (n : Nat) : lcg_state n < 2 ^ 32 := by
  cases n with
  | zero => decide
  | succ n => exact Nat.mod_lt _ (by norm_num)

theorem draw_unsigned (seed : Nat) (h : seed < 2 ^ 32) :
    int_of_unsigned (seed >>> 16) = ((seed / 65536 : Nat) : Int) := by
  have h1 : seed >>> 16 = seed / 65536 := by rw [Nat.shiftRight_eq_div_pow]
  have h2 : seed / 65536 < 65536 := by omega
  unfold int_of_unsigned INT_MAX
  rw [h1, if_pos (by omega)]

theorem draw_A_eq (seed : Nat) (h : seed < 2 ^ 32) : draw_A seed = some (draw_A_val seed) := by
  have hlt : (seed / 65536) % 97 < 97 := Nat.mod_lt _ (by norm_num)
  have hmod : Int.tmod ((seed / 65536 : Nat) : Int) 97 = (((seed / 65536) % 97 : Nat) : Int) := by
    rw [Int.tmod_eq_emod (by omega) (by omega)]
    rfl
  have h97 : ¬ ((97 : Int) = 0) := by norm_num
  unfold draw_A draw_A_val int_mod int_sub
  rw [draw_unsigned seed h, if_neg h97, hmod, int_chk_eq _ (by omega) (by omega)]
  simp only [Option.bind_eq_bind, Option.some_bind]
  rw [int_chk_eq _ (by omega) (by omega)]
  rfl

theorem draw_B_eq (seed : Nat) (h : seed < 2 ^ 32) : draw_B seed = some (draw_B_val seed) := by
  have hlt : (seed / 65536) % 61 < 61 := Nat.mod_lt _ (by norm_num)
  have hmod : Int.tmod ((seed / 65536 : Nat) : Int) 61 = (((seed / 65536) % 61 : Nat) : Int) := by
    rw [Int.tmod_eq_emod (by omega) (by omega)]
    rfl
  have h61 : ¬ ((61 : Int) = 0) := by norm_num
  unfold draw_B draw_B_val int_mod int_sub
  rw [draw_unsigned seed h, if_neg h61, hmod, int_chk_eq _ (by omega) (by omega)]
  simp only [Option.bind_eq_bind, Option.some_bind]
  rw [int_chk_eq _ (by omega) (by omega)]
  rfl

theorem fill_random_from_filled (A B : List Dbl) (N : Nat) (hN : N ≤ 46340)
    (hA : A.length = N * N) (hB : B.length = N * N) :
    ∃ st, fill_random_from 123456789 A B (N : Int) = some st ∧
      st.1 = lcg_state (2 * (N * N)) ∧
      Filled N (fun i j => draw_A_val (lcg_state (2 * (i * N + j) + 1))) (N * N) st.2.1 ∧
      Filled N (fun i j => draw_B_val (lcg_state (2 * (i * N + j) + 2))) (N * N) st.2.2 := by
  unfold fill_random_from
  apply forInt2_inv N _ (fun p st => st.1 = lcg_state (2 * p) ∧
      Filled N (fun i j => draw_A_val (lcg_state (2 * (i * N + j) + 1))) p st.2.1 ∧
      Filled N (fun i j => draw_B_val (lcg_state (2 * (i * N + j) + 2))) p st.2.2)
    (123456789, A, B) ⟨rfl, Filled.zero hA, Filled.zero hB⟩
  intro i j hi hj s hs
  refine ⟨(lcg_state (2 * (i * N + j + 1)),
    s.2.1.set (i * N + j) (draw_A_val (lcg_state (2 * (i * N + j) + 1))),
    s.2.2.set (i * N + j) (draw_B_val (lcg_state (2 * (i * N + j) + 2)))), ?_,
    rfl, hs.2.1.step i j hi hj, hs.2.2.step i j hi hj⟩
  have e1 : lcg_next s.1 = lcg_state (2 * (i * N + j) + 1) := by rw [hs.1, lcg_state_succ]
  have e2 : lcg_next (lcg_state (2 * (i * N + j) + 1)) = lcg_state (2 * (i * N + j) + 2) :=
    (lcg_state_succ _).symm
  have e3 : 2 * (i * N + j + 1) = 2 * (i * N + j) + 2 := by ring
  show (idx (i : Int) (N : Int) (j : Int)).bind (fun p =>
    (draw_A (lcg_next s.1)).bind fun a => (wr s.2.1 p a).bind fun A' =>
      (idx (i : Int) (N : Int) (j : Int)).bind fun q =>
        (draw_B (lcg_next (lcg_next s.1))).bind fun b => (wr s.2.2 q b).bind fun B' =>
          some (lcg_next (lcg_next s.1), A', B')) = _
  rw [idx_eq i j N hi (le_of_lt hj) hN, Option.some_bind, e1, e2, e3,
    draw_A_eq _ (lcg_state_lt _), Option.some_bind,
    wr_lt s.2.1 _ _ (by rw [hs.2.1.1]; exact cell_lt i j N hi hj), Option.some_bind,
    Option.some_bind, draw_B_eq _ (lcg_state_lt _), Option.some_bind,
    wr_lt s.2.2 _ _ (by rw [hs.2.2.1]; exact cell_lt i j N hi hj), Option.some_bind]

/-! ## Beyond the range of `int` -/

theorem idx_overflow (N : Nat) (h : 46340 < N) :
    idx ((N - 1 : Nat) : Int) (N : Int) ((N - 1 : Nat) : Int) = none := by
  have h1 : 46340 * 46341 ≤ (N - 1) * N := Nat.mul_le_mul (by omega) (by omega)
  have h2 : (((N - 1) * N : Nat) : Int) = ((N - 1 : Nat) : Int) * (N : Int) := Nat.cast_mul _ _
  unfold idx int_mul int_add int_chk INT_MIN INT_MAX
  rw [← h2]
  by_cases hc : (-2147483648 : Int) ≤ (((N - 1) * N : Nat) : Int) ∧
      (((N - 1) * N : Nat) : Int) ≤ 2147483647
  · rw [if_pos hc]
    simp only [Option.bind_eq_bind, Option.some_bind]
    rw [if_neg (by omega)]
  · rw [if_neg hc]
    rfl

/-- Two nested loops whose body is undefined in the last cell are undefined. -/
theorem forInt2_none {σ : Type} (N : Nat) (hN : 0 < N) (body : σ → Int → Int → Option σ)
    (h : ∀ s, body s ((N - 1 : Nat) : Int) ((N - 1 : Nat) : Int) = none) (s0 : σ) :
    forInt (N : Int) s0 (fun s i => forInt (N : Int) s (fun s j => body s i j)) = none := by
  apply forInt_none_of_lt N _ (N - 1) (by omega)
  intro s
  exact forInt_none_of_lt N _ (N - 1) (by omega) h s

theorem ofInt_repr (n : Int) (h : n.natAbs < 2 ^ 53) :
    ∃ k : Nat, Dbl.ofInt n = Flt.fin (decide (n < 0)) (n.natAbs * 2 ^ k) (-(k : Int)) := by
  unfold Dbl.ofInt Fmt.ofInt
  by_cases hn : n.natAbs = 0
  · refine ⟨0, ?_⟩
    rw [hn]
    simp [Fmt.round]
  · exact ⟨53 - bitlen n.natAbs, by rw [round_nat _ _ _ hn, roundPos_nat _ _ hn h]⟩

theorem scaled_natAbs (n : Int) : Flt.scaled (decide (n < 0)) n.natAbs 0 = n := by
  unfold Flt.scaled
  by_cases hs : n < 0
  · simp only [hs, decide_True, if_true, Int.toNat_zero, pow_zero, mul_one]
    omega
  · simp only [hs, decide_False, Int.toNat_zero, pow_zero, mul_one]
    simp
    omega

/-- The conversion `(double)n` is exact for `|n| < 2^53`. -/
theorem toInt_ofInt (n : Int) (h : n.natAbs < 2 ^ 53) : (Dbl.ofInt n).toInt? = some n := by
  obtain ⟨k, hk⟩ := ofInt_repr n h
  rw [hk]
  have hpos : 0 < 2 ^ k := by positivity
  show (if 0 ≤ -(k : Int) then some (Flt.scaled (decide (n < 0)) (n.natAbs * 2 ^ k) (-(k : Int)))
    else if (n.natAbs * 2 ^ k) % 2 ^ (- -(k : Int)).toNat = 0 then
      some (Flt.scaled (decide (n < 0)) ((n.natAbs * 2 ^ k) / 2 ^ (- -(k : Int)).toNat) 0)
    else none) = some n
  by_cases h0 : k = 0
  · subst h0
    simp only [Nat.cast_zero, neg_zero, le_refl, if_true, pow_zero, mul_one]
    rw [scaled_natAbs]
  · have hneg : ¬ (0 ≤ -(k : Int)) := by omega
    have ht : (- -(k : Int)).toNat = k := by omega
    rw [if_neg hneg, ht, Nat.mul_mod_left, if_pos rfl, Nat.mul_div_cancel _ hpos, scaled_natAbs]

/-! ## Claims on the reference kernel and the scenarios -/

theorem matmul_ref_none (A B C : List Dbl) (N : Nat) (h : 46340 < N) :
    matmul_ref A B C (N : Int) = none := by
  unfold matmul_ref
  apply forInt2_none N (by omega)
  intro s
  have hk : forInt (N : Int) Dbl.zero (fun sum k => do
        let p ← idx ((N - 1 : Nat) : Int) (N : Int) k
        let a ← rd A p
        let q ← idx k (N : Int) ((N - 1 : Nat) : Int)
        let b ← rd B q
        pure (Dbl.add sum (Dbl.mul a b))) = none := by
    apply forInt_none_of_lt N _ (N - 1) (by omega)
    intro s'
    show (idx ((N - 1 : Nat) : Int) (N : Int) ((N - 1 : Nat) : Int)).bind _ = none
    rw [idx_overflow N h]
    rfl
  show (forInt (N : Int) Dbl.zero _).bind _ = none
  rw [hk]
  rfl

/-- C2 (counterexample): for `N = 46341` the index `i * N + k` computed by
`matmul_ref` in row `46340` exceeds `INT_MAX`, so the call has no defined result. -/
theorem matmul_ref_undefined_at_46341 :
    matmul_ref (List.replicate (46341 * 46341) Dbl.zero) (List.replicate (46341 * 46341) Dbl.zero)
      (List.replicate (46341 * 46341) Dbl.zero) 46341 = none :=
  matmul_ref_none _ _ _ 46341 (by decide)

/-- C2 (amended): for `N <= 46340`, all `N * N` inputs `A`, `B` and every initial
content of `C`, `matmul_ref` returns a buffer of `N * N` cells whose cell `i * N + j`
is the sum of `A[i*N+k] * B[k*N+j]` accumulated from `0.0` in increasing `k`; the
result is the same for every initial content of `C`. -/
theorem matmul_ref_inner_products (N : Nat) (hfit : N ≤ 46340)
    (A B C : List Dbl) (hA : A.length = N * N) (hB : B.length = N * N)
    (hC : C.length = N * N) :
    ∃ C', matmul_ref A B C (N : Int) = some C' ∧ C'.length = N * N ∧
      (∀ i j, i < N → j < N → C'[i * N + j]? = some (dot A B N i j)) ∧
      ∀ D : List Dbl, D.length = N * N → matmul_ref A B D (N : Int) = some C' := by
  obtain ⟨C', h1, h2⟩ := matmul_ref_filled A B C N hfit hA hB hC
  refine ⟨C', h1, h2.1, fun i j hi hj => h2.cell i j hi hj, ?_⟩
  intro D hD
  obtain ⟨D', h3, h4⟩ := matmul_ref_filled A B D N hfit hA hB hD
  rw [h3, h4.eq h2]

/-- C2 (witness): the amended statement on 2×2 matrices. -/
theorem matmul_ref_inner_products_witness :
    ∃ C', matmul_ref [Dbl.one, Dbl.three, Dbl.four, Dbl.one] [Dbl.zero, Dbl.one, Dbl.one, Dbl.zero]
        [Flt.nan, Flt.nan, Flt.nan, Flt.nan] ((2 : Nat) : Int) = some C' ∧ C'.length = 2 * 2 ∧
      (∀ i j, i < 2 → j < 2 → C'[i * 2 + j]? =
        some (dot [Dbl.one, Dbl.three, Dbl.four, Dbl.one] [Dbl.zero, Dbl.one, Dbl.one, Dbl.zero]
          2 i j)) ∧
      ∀ D : List Dbl, D.length = 2 * 2 →
        matmul_ref [Dbl.one, Dbl.three, Dbl.four, Dbl.one] [Dbl.zero, Dbl.one, Dbl.one, Dbl.zero]
          D ((2 : Nat) : Int) = some C' :=
  matmul_ref_inner_products 2 (by decide) _ _ _ rfl rfl rfl

theorem getD_of_getElem? (l : List Dbl) (p : Nat) (v d : Dbl) (h : l[p]? = some v) :
    l.getD p d = v := by
  rw [List.getD_eq_getElem?_getD, h]
  rfl

theorem foldl_range_congr {β : Type} (n : Nat) (f g : β → Nat → β) (b : β)
    (h : ∀ k, k < n → ∀ s, f s k = g s k) :
    (List.range n).foldl f b = (List.range n).foldl g b := by
  induction n with
  | zero => rfl
  | succ m ih =>
    rw [List.range_succ, List.foldl_append, List.foldl_append,
      ih (fun k hk s => h k (Nat.lt_succ_of_lt hk) s)]
    simp only [List.foldl_cons, List.foldl_nil]
    exact h m (Nat.lt_succ_self m) _

/-- The inner product, given the entries of row `i` of `A` and of column `j` of `B`. -/
theorem dot_of_filled (A B : List Dbl) (N i j : Nat) (a b : Nat → Nat → Dbl) (hi : i < N)
    (hj : j < N) (hA : Filled N a (N * N) A) (hB : Filled N b (N * N) B) :
    dot A B N i j =
      (List.range N).foldl (fun s k => Dbl.add s (Dbl.mul (a i k) (b k j))) Dbl.zero := by
  unfold dot
  apply foldl_range_congr
  intro k hk s
  rw [getD_of_getElem? A _ _ _ (hA.cell i k hi hk), getD_of_getElem? B _ _ _ (hB.cell k j hk hj)]

/-- C4 (counterexample): for `N = 3` and the `pattern` scenario the reference kernel
stores `6` in `C_ref[0,0]`, not `9`. -/
theorem pattern_3_ref_cell_is_6_not_9 :
    ((fill_pattern (List.replicate 9 Dbl.zero) (List.replicate 9 Dbl.zero) 3).bind fun AB =>
        (matmul_ref AB.1 AB.2 (List.replicate 9 Dbl.zero) 3).bind fun C => C[0]?)
      = some (Dbl.ofInt 6) ∧ Dbl.ofInt 6 ≠ Dbl.ofInt 9 := by
  decide

/-- C4 (amended): for `N = 3` and the `pattern` scenario, whatever the buffers held
before, column `0` of `B` is `2, 2, 2` (`B[k,0] = 0 + 2` for every `k`), row `0` of `A`
is `1, 1, 1`, and `matmul_ref` produces
`C_ref[0,0] = A[0,0]*B[0,0] + A[0,1]*B[1,0] + A[0,2]*B[2,0] = 1*2 + 1*2 + 1*2 = 6`. -/
theorem pattern_3_ref_cell_00 (A0 B0 C0 : List Dbl) (hA : A0.length = 9) (hB : B0.length = 9)
    (hC : C0.length = 9) :
    ∃ A B C, fill_pattern A0 B0 3 = some (A, B) ∧ matmul_ref A B C0 3 = some C ∧
      A[0]? = some (Dbl.ofInt 1) ∧ A[1]? = some (Dbl.ofInt 1) ∧ A[2]? = some (Dbl.ofInt 1) ∧
      B[0]? = some (Dbl.ofInt 2) ∧ B[3]? = some (Dbl.ofInt 2) ∧ B[6]? = some (Dbl.ofInt 2) ∧
      C[0]? = some (Dbl.add (Dbl.add (Dbl.add Dbl.zero
        (Dbl.mul (Dbl.ofInt 1) (Dbl.ofInt 2))) (Dbl.mul (Dbl.ofInt 1) (Dbl.ofInt 2)))
        (Dbl.mul (Dbl.ofInt 1) (Dbl.ofInt 2))) ∧
      C[0]? = some (Dbl.ofInt 6) ∧ (Dbl.ofInt 6).toInt? = some 6 := by
  obtain ⟨AB, h1, hFA, hFB⟩ := fill_pattern_filled A0 B0 3 (by decide) hA hB
  obtain ⟨C, h2, hFC⟩ := matmul_ref_filled AB.1 AB.2 C0 3 (by decide) hFA.1 hFB.1 hC
  have hdot := dot_of_filled AB.1 AB.2 3 0 0 _ _ (by decide) (by decide) hFA hFB
  have hc := hFC.cell 0 0 (by decide) (by decide)
  rw [hdot] at hc
  refine ⟨AB.1, AB.2, C, h1, h2, hFA.cell 0 0 (by decide) (by decide),
    hFA.cell 0 1 (by decide) (by decide), hFA.cell 0 2 (by decide) (by decide),
    hFB.cell 0 0 (by decide) (by decide), hFB.cell 1 0 (by decide) (by decide),
    hFB.cell 2 0 (by decide) (by decide), hc, ?_, by decide⟩
  rw [hc]
  decide

/-- C4 (witness): the amended statement on buffers that held NaN before. -/
theorem pattern_3_ref_cell_00_witness :
    ∃ A B C, fill_pattern (List.replicate 9 Flt.nan) (List.replicate 9 Flt.nan) 3 = some (A, B) ∧
      matmul_ref A B (List.replicate 9 Flt.nan) 3 = some C ∧
      A[0]? = some (Dbl.ofInt 1) ∧ A[1]? = some (Dbl.ofInt 1) ∧ A[2]? = some (Dbl.ofInt 1) ∧
      B[0]? = some (Dbl.ofInt 2) ∧ B[3]? = some (Dbl.ofInt 2) ∧ B[6]? = some (Dbl.ofInt 2) ∧
      C[0]? = some (Dbl.add (Dbl.add (Dbl.add Dbl.zero
        (Dbl.mul (Dbl.ofInt 1) (Dbl.ofInt 2))) (Dbl.mul (Dbl.ofInt 1) (Dbl.ofInt 2)))
        (Dbl.mul (Dbl.ofInt 1) (Dbl.ofInt 2))) ∧
      C[0]? = some (Dbl.ofInt 6) ∧ (Dbl.ofInt 6).toInt? = some 6 :=
  pattern_3_ref_cell_00 _ _ _ (by decide) (by decide) (by decide)

theorem Filled.congr {N p : Nat} {v w : Nat → Nat → Dbl} {C : List Dbl} (h : Filled N v p C)
    (hp : p ≤ N * N) (hvw : ∀ i j, i < N → j < N → v i j = w i j) : Filled N w p C := by
  refine ⟨h.1, fun q hq => ?_⟩
  have hq2 : q < N * N := lt_of_lt_of_le hq hp
  have hN : 0 < N := by
    rcases Nat.eq_zero_or_pos N with h0 | h0
    · subst h0; simp at hq2
    · exact h0
  rw [h.2 q hq, hvw _ _ (Nat.div_lt_of_lt_mul (by rwa [Nat.mul_comm] at hq2)) (Nat.mod_lt _ hN)]

theorem identity_dot (i j n : Nat) :
    (List.range n).foldl
      (fun s k => Dbl.add s (Dbl.mul (identity_cell i k) (identity_cell k j))) Dbl.zero
      = if i = j ∧ i < n then Dbl.one else Dbl.zero := by
  have m11 : Dbl.mul Dbl.one Dbl.one = Dbl.one := by decide
  have m10 : Dbl.mul Dbl.one Dbl.zero = Dbl.zero := by decide
  have m01 : Dbl.mul Dbl.zero Dbl.one = Dbl.zero := by decide
  have m00 : Dbl.mul Dbl.zero Dbl.zero = Dbl.zero := by decide
  have a00 : Dbl.add Dbl.zero Dbl.zero = Dbl.zero := by decide
  have a01 : Dbl.add Dbl.zero Dbl.one = Dbl.one := by decide
  have a10 : Dbl.add Dbl.one Dbl.zero = Dbl.one := by decide
  induction n with
  | zero => simp
  | succ n ih =>
    rw [List.range_succ, List.foldl_append, ih]
    simp only [List.foldl_cons, List.foldl_nil]
    unfold identity_cell
    by_cases hin : i = n
    · by_cases hnj : n = j
      · have h1 : ¬ (i = j ∧ i < n) := by omega
        have h2 : i = j ∧ i < n + 1 := by omega
        rw [if_pos hin, if_pos hnj, if_neg h1, if_pos h2, m11, a01]
      · have h1 : ¬ (i = j ∧ i < n) := by omega
        have h2 : ¬ (i = j ∧ i < n + 1) := by omega
        rw [if_pos hin, if_neg hnj, if_neg h1, if_neg h2, m10, a00]
    · by_cases h1 : i = j ∧ i < n
      · have h2 : i = j ∧ i < n + 1 := by omega
        rw [if_neg hin, if_pos h1, if_pos h2]
        by_cases hnj : n = j
        · rw [if_pos hnj, m01, a10]
        · rw [if_neg hnj, m00, a10]
      · have h2 : ¬ (i = j ∧ i < n + 1) := by omega
        rw [if_neg hin, if_neg h1, if_neg h2]
        by_cases hnj : n = j
        · rw [if_pos hnj, m01, a00]
        · rw [if_neg hnj, m00, a00]

/-- On the identity matrices the reference kernel computes the identity matrix. -/
theorem matmul_ref_identity (A B C : List Dbl) (N : Nat) (hN : N ≤ 46340)
    (hA : Filled N identity_cell (N * N) A) (hB : Filled N identity_cell (N * N) B)
    (hC : C.length = N * N) :
    ∃ C', matmul_ref A B C (N : Int) = some C' ∧ Filled N identity_cell (N * N) C' := by
  obtain ⟨C', h1, h2⟩ := matmul_ref_filled A B C N hN hA.1 hB.1 hC
  refine ⟨C', h1, h2.congr (le_refl _) ?_⟩
  intro i j hi hj
  rw [dot_of_filled A B N i j _ _ hi hj hA hB, identity_dot]
  unfold identity_cell
  by_cases hij : i = j
  · rw [if_pos ⟨hij, hi⟩, if_pos hij]
  · rw [if_neg (fun h => hij h.1), if_neg hij]

theorem fill_identity_none (A B : List Dbl) (N : Nat) (h : 46340 < N) :
    fill_identity A B (N : Int) = none := by
  unfold fill_identity
  apply forInt2_none N (by omega)
  intro s
  show (idx ((N - 1 : Nat) : Int) (N : Int) ((N - 1 : Nat) : Int)).bind _ = none
  rw [idx_overflow N h]
  rfl

/-- C6 (counterexample): for `N = 46341` the index `i * N + j` computed by
`fill_identity` in the last row exceeds `INT_MAX`; the scenario has no defined
result. -/
theorem fill_identity_undefined_at_46341 :
    fill_identity (List.replicate (46341 * 46341) Dbl.zero)
      (List.replicate (46341 * 46341) Dbl.zero) 46341 = none :=
  fill_identity_none _ _ 46341 (by decide)

/-- C6 (amended): for `N <= 46340`, with `A` and `B` produced by `fill_identity`,
`matmul_ref` returns `C_ref` equal to `A`, the identity matrix cell for cell. -/
theorem identity_ref_is_identity (N : Nat) (hfit : N ≤ 46340) (A0 B0 C0 : List Dbl)
    (hA : A0.length = N * N) (hB : B0.length = N * N) (hC : C0.length = N * N) :
    ∃ A B C, fill_identity A0 B0 (N : Int) = some (A, B) ∧
      matmul_ref A B C0 (N : Int) = some C ∧ C = A ∧
      ∀ i j, i < N → j < N →
        A[i * N + j]? = some (if i = j then Dbl.one else Dbl.zero) ∧
        B[i * N + j]? = some (if i = j then Dbl.one else Dbl.zero) ∧
        C[i * N + j]? = some (if i = j then Dbl.one else Dbl.zero) := by
  obtain ⟨AB, h1, hFA, hFB⟩ := fill_identity_filled A0 B0 N hfit hA hB
  obtain ⟨C, h2, hFC⟩ := matmul_ref_identity AB.1 AB.2 C0 N hfit hFA hFB hC
  exact ⟨AB.1, AB.2, C, h1, h2, hFC.eq hFA, fun i j hi hj =>
    ⟨hFA.cell i j hi hj, hFB.cell i j hi hj, hFC.cell i j hi hj⟩⟩

/-- C6 (witness): the amended statement at `N = 2`. -/
theorem identity_ref_is_identity_witness :
    ∃ A B C, fill_identity [Flt.nan, Flt.nan, Flt.nan, Flt.nan]
        [Flt.nan, Flt.nan, Flt.nan, Flt.nan] ((2 : Nat) : Int) = some (A, B) ∧
      matmul_ref A B [Flt.nan, Flt.nan, Flt.nan, Flt.nan] ((2 : Nat) : Int) = some C ∧ C = A ∧
      ∀ i j, i < 2 → j < 2 →
        A[i * 2 + j]? = some (if i = j then Dbl.one else Dbl.zero) ∧
        B[i * 2 + j]? = some (if i = j then Dbl.one else Dbl.zero) ∧
        C[i * 2 + j]? = some (if i = j then Dbl.one else Dbl.zero) :=
  identity_ref_is_identity 2 (by decide) _ _ _ rfl rfl rfl

theorem fill_random_from_none (seed : Nat) (A B : List Dbl) (N : Nat) (h : 46340 < N) :
    fill_random_from seed A B (N : Int) = none := by
  unfold fill_random_from
  apply forInt2_none N (by omega)
  intro s
  show (idx ((N - 1 : Nat) : Int) (N : Int) ((N - 1 : Nat) : Int)).bind _ = none
  rw [idx_overflow N h]
  rfl

/-- C7 (counterexample): for `N = 46341` the index `i * N + j` computed by
`fill_random` in the last row exceeds `INT_MAX`; the scenario has no defined result. -/
theorem fill_random_undefined_at_46341 :
    fill_random (List.replicate (46341 * 46341) Dbl.zero)
      (List.replicate (46341 * 46341) Dbl.zero) 46341 = none := by
  unfold fill_random
  rw [show (46341 : Int) = ((46341 : Nat) : Int) from rfl,
    fill_random_from_none _ _ _ 46341 (by decide)]
  rfl

/-- C7 (amended): for `N <= 46340`, with `s_0 = 123456789` and
`s_(n+1) = (s_n * 1103515245 + 12345) mod 2^32`, `fill_random` stores in `A[p]`,
`p = i * N + j`, the value drawn from `s_(2p+1)` and in `B[p]` the value drawn from
`s_(2p+2)`, and leaves the generator in state `s_(2 N^2)`: one step per element of `A`
and one per element of `B`, `A` before `B` in each cell, cells in row-major order. -/
theorem fill_random_stream (N : Nat) (hfit : N ≤ 46340) (A0 B0 : List Dbl)
    (hA : A0.length = N * N) (hB : B0.length = N * N) :
    ∃ seed A B, fill_random_from 123456789 A0 B0 (N : Int) = some (seed, A, B) ∧
      fill_random A0 B0 (N : Int) = some (A, B) ∧ seed = lcg_state (2 * (N * N)) ∧
      ∀ i j, i < N → j < N →
        A[i * N + j]? = draw_A (lcg_state (2 * (i * N + j) + 1)) ∧
        B[i * N + j]? = draw_B (lcg_state (2 * (i * N + j) + 2)) := by
  obtain ⟨st, h1, h2, hFA, hFB⟩ := fill_random_from_filled A0 B0 N hfit hA hB
  refine ⟨st.1, st.2.1, st.2.2, h1, ?_, h2, fun i j hi hj => ⟨?_, ?_⟩⟩
  · unfold fill_random
    rw [h1]
    rfl
  · rw [draw_A_eq _ (lcg_state_lt _)]
    exact hFA.cell i j hi hj
  · rw [draw_B_eq _ (lcg_state_lt _)]
    exact hFB.cell i j hi hj

/-- C7 (witness): the amended statement at `N = 2`. -/
theorem fill_random_stream_witness :
    ∃ seed A B, fill_random_from 123456789 [Flt.nan, Flt.nan, Flt.nan, Flt.nan]
        [Flt.nan, Flt.nan, Flt.nan, Flt.nan] ((2 : Nat) : Int) = some (seed, A, B) ∧
      fill_random [Flt.nan, Flt.nan, Flt.nan, Flt.nan] [Flt.nan, Flt.nan, Flt.nan, Flt.nan]
        ((2 : Nat) : Int) = some (A, B) ∧ seed = lcg_state (2 * (2 * 2)) ∧
      ∀ i j, i < 2 → j < 2 →
        A[i * 2 + j]? = draw_A (lcg_state (2 * (i * 2 + j) + 1)) ∧
        B[i * 2 + j]? = draw_B (lcg_state (2 * (i * 2 + j) + 2)) :=
  fill_random_stream 2 (by decide) _ _ rfl rfl

/-- C9: for `0 < N <= 46340` and `i, j < N`, `fill_increment` stores
`(double)(i*N + j + 1)` in `A[i*N+j]` and `(double)((i + j) mod 7 - 3)` in `B[i*N+j]`;
both conversions are exact, the second integer lies in `-3..3`, and `A` read in
row-major order is `1, 2, ..., N*N`. -/
theorem fill_increment_values (N : Nat) (hN : 0 < N) (hfit : N ≤ 46340) (A0 B0 : List Dbl)
    (hA : A0.length = N * N) (hB : B0.length = N * N) :
    ∃ A B, fill_increment A0 B0 (N : Int) = some (A, B) ∧
      (∀ i j, i < N → j < N →
        A[i * N + j]? = some (Dbl.ofInt ((i * N + j + 1 : Nat) : Int)) ∧
        (Dbl.ofInt ((i * N + j + 1 : Nat) : Int)).toInt? = some ((i * N + j + 1 : Nat) : Int) ∧
        B[i * N + j]? = some (Dbl.ofInt ((((i + j) % 7 : Nat) : Int) - 3)) ∧
        (Dbl.ofInt ((((i + j) % 7 : Nat) : Int) - 3)).toInt?
          = some ((((i + j) % 7 : Nat) : Int) - 3) ∧
        -3 ≤ (((i + j) % 7 : Nat) : Int) - 3 ∧ (((i + j) % 7 : Nat) : Int) - 3 ≤ 3) ∧
      A = (List.range (N * N)).map (fun p => Dbl.ofInt ((p + 1 : Nat) : Int)) := by
  obtain ⟨AB, h1, hFA, hFB⟩ := fill_increment_filled A0 B0 N hfit hA hB
  refine ⟨AB.1, AB.2, h1, fun i j hi hj => ?_, ?_⟩
  · have hb := cell_bound i j N hi hj hfit
    have hlt : (i + j) % 7 < 7 := Nat.mod_lt _ (by norm_num)
    refine ⟨?_, toInt_ofInt _ (by omega), hFB.cell i j hi hj, toInt_ofInt _ (by omega),
      by omega, by omega⟩
    have := hFA.cell i j hi hj
    rw [this]
    push_cast
    rfl
  · apply List.ext_getElem?
    intro q
    by_cases hq : q < N * N
    · rw [hFA.2 q hq, List.getElem?_map, List.getElem?_range hq]
      show some (Dbl.ofInt (((q / N * N + q % N : Nat) : Int) + 1))
        = some (Dbl.ofInt ((q + 1 : Nat) : Int))
      rw [Nat.div_add_mod' q N]
      push_cast
      rfl
    · rw [List.getElem?_eq_none (by rw [hFA.1]; omega),
        List.getElem?_eq_none (by rw [List.length_map, List.length_range]; omega)]

/-- C9 (witness): the statement at `N = 2`. -/
theorem fill_increment_values_witness :
    ∃ A B, fill_increment [Flt.nan, Flt.nan, Flt.nan, Flt.nan]
        [Flt.nan, Flt.nan, Flt.nan, Flt.nan] ((2 : Nat) : Int) = some (A, B) ∧
      (∀ i j, i < 2 → j < 2 →
        A[i * 2 + j]? = some (Dbl.ofInt ((i * 2 + j + 1 : Nat) : Int)) ∧
        (Dbl.ofInt ((i * 2 + j + 1 : Nat) : Int)).toInt? = some ((i * 2 + j + 1 : Nat) : Int) ∧
        B[i * 2 + j]? = some (Dbl.ofInt ((((i + j) % 7 : Nat) : Int) - 3)) ∧
        (Dbl.ofInt ((((i + j) % 7 : Nat) : Int) - 3)).toInt?
          = some ((((i + j) % 7 : Nat) : Int) - 3) ∧
        -3 ≤ (((i + j) % 7 : Nat) : Int) - 3 ∧ (((i + j) % 7 : Nat) : Int) - 3 ≤ 3) ∧
      A = (List.range (2 * 2)).map (fun p => Dbl.ofInt ((p + 1 : Nat) : Int)) :=
  fill_increment_values 2 (by decide) (by decide) _ _ rfl rfl

/-! ## The comparison loop -/

theorem abs_sub_self (x : Dbl) (h : x.isFinite = true) : Flt.abs (Dbl.sub x x) = Dbl.zero := by
  cases x with
  | nan => cases h
  | inf a => cases h
  | fin s m e =>
    have hs : Flt.scaled s m (e - min e e) + Flt.scaled (!s) m (e - min e e) = 0 := by
      unfold Flt.scaled
      cases s <;> simp
    show Flt.abs (if Flt.scaled s m (e - min e e) + Flt.scaled (!s) m (e - min e e) = 0
      then Flt.fin (s && !s) 0 0 else _) = Dbl.zero
    rw [if_pos hs]
    rfl

/-- The comparison loop on two equal buffers of finite numbers. -/
theorem compare_self (C : List Dbl) (n : Nat) (hC : C.length = n)
    (hfin : ∀ x, x ∈ C → x.isFinite = true) :
    compare C C n = some (Dbl.zero, Dbl.zero) := by
  unfold compare
  obtain ⟨s, h1, h2⟩ := forSize_inv n (fun ms i => do
      let r ← rd C (i : Int)
      let t ← rd C (i : Int)
      let d := Flt.abs (Dbl.sub r t)
      let sum_abs_diff := Dbl.add ms.2 d
      pure (if Flt.gt d ms.1 then d else ms.1, sum_abs_diff))
    (fun _ ms => ms = (Dbl.zero, Dbl.zero)) (Dbl.zero, Dbl.zero) rfl (by
      intro t ht s hs
      refine ⟨(Dbl.zero, Dbl.zero), ?_, rfl⟩
      have hlt : t < C.length := by rw [hC]; exact ht
      have hx : rd C (t : Int) = some C[t] := by rw [rd_nat, List.getElem?_eq_getElem hlt]
      have hd : Flt.abs (Dbl.sub C[t] C[t]) = Dbl.zero :=
        abs_sub_self _ (hfin _ (List.getElem_mem hlt))
      show (rd C (t : Int)).bind (fun r => (rd C (t : Int)).bind fun t' =>
        some (if Flt.gt (Flt.abs (Dbl.sub r t')) s.1 then Flt.abs (Dbl.sub r t') else s.1,
          Dbl.add s.2 (Flt.abs (Dbl.sub r t')))) = _
      rw [hx, Option.some_bind, Option.some_bind, hd, hs]
      rfl)
  rw [h1, h2]

/-- C3 (counterexample): for the 1×1 matrices `[NaN]` and `[+inf]` the comparison of
the matrix with itself yields `sum_abs_diff = NaN`, not `0`. -/
theorem compare_self_not_zero_on_nan_or_inf :
    compare [Flt.nan] [Flt.nan] (1 * 1) = some (Dbl.zero, Flt.nan) ∧
    compare [Flt.inf false] [Flt.inf false] (1 * 1) = some (Dbl.zero, Flt.nan) ∧
    Flt.nan ≠ Dbl.zero := by
  decide

/-- C3 (amended): for every `N` and every `N * N` matrix `C` whose entries are all
finite (neither NaN nor an infinity), the comparison loop run with
`C_ref = C_test = C` yields `max_abs_diff = 0` and `sum_abs_diff = 0`. -/
theorem compare_self_is_zero (N : Nat) (C : List Dbl) (hC : C.length = N * N)
    (hfin : ∀ x, x ∈ C → x.isFinite = true) :
    compare C C (N * N) = some (Dbl.zero, Dbl.zero) :=
  compare_self C (N * N) hC hfin

/-- C3 (witness): the amended statement on a 2×2 matrix. -/
theorem compare_self_is_zero_witness :
    compare [Dbl.one, Dbl.ofInt (-3), Dbl.tol_default, Flt.fin true 0 0]
      [Dbl.one, Dbl.ofInt (-3), Dbl.tol_default, Flt.fin true 0 0] (2 * 2)
      = some (Dbl.zero, Dbl.zero) :=
  compare_self_is_zero 2 _ rfl (by decide)

/-! ## The verdict -/

/-- A run that reached the comparison took its tolerance from `parse_args` and its
exit code from `verdict`. -/
theorem main_done (impl : Kernel) (atoi : String → Int) (atof : String → Dbl)
    (heap : Nat → Option (Nat → Dbl)) (argv : List String) (r : Run) (ms : Dbl × Dbl)
    (hrun : main impl atoi atof heap argv = some r) (hdiff : r.diff = some ms) :
    ∃ N scenario, parse_args atoi atof argv = some (N, scenario, r.tolerance) ∧
      r.exit_code = (verdict ms.1 r.tolerance).1 := by
  unfold main at hrun
  split at hrun
  · cases hrun
    cases hdiff
  · rename_i N scenario tolerance hp
    dsimp only at hrun
    split at hrun
    · rename_i A B C_test C_ref h0 h1 h2 h3
      cases hf : fill_scenario scenario A B N with
      | none => rw [hf] at hrun; cases hrun
      | some filled =>
        rw [hf, Option.some_bind] at hrun
        cases filled with
        | none => cases hrun; cases hdiff
        | some AB =>
          obtain ⟨A', B'⟩ := AB
          simp only [Option.bind_eq_bind, Option.bind_eq_some, Option.pure_def,
            Option.some.injEq] at hrun
          obtain ⟨CC, -, Ct, -, Cr, -, ms', -, rows, -, hr⟩ := hrun
          subst hr
          cases hdiff
          exact ⟨N, scenario, hp, rfl⟩
    · cases hrun
      cases hdiff

theorem lt_irrefl_flt (x : Dbl) : Flt.lt x x = false := by
  cases x with
  | nan => rfl
  | inf a => cases a <;> rfl
  | fin s m e => simp [Flt.lt]

/-- C1: in every run that reaches the comparison, the exit code is `2` exactly when
`max_abs_diff > tolerance` and `0` otherwise; it is the function `verdict` of
`max_abs_diff` and `tolerance` alone, and `max_abs_diff` equal to the tolerance
gives `0`. -/
theorem main_exit_code_rule (impl : Kernel) (atoi : String → Int) (atof : String → Dbl)
    (heap : Nat → Option (Nat → Dbl)) (argv : List String) (r : Run)
    (max_abs_diff sum_abs_diff : Dbl)
    (hrun : main impl atoi atof heap argv = some r)
    (hdiff : r.diff = some (max_abs_diff, sum_abs_diff)) :
    (r.exit_code = 2 ↔ Flt.gt max_abs_diff r.tolerance = true) ∧
    (r.exit_code = 0 ↔ Flt.gt max_abs_diff r.tolerance = false) ∧
    r.exit_code = (verdict max_abs_diff r.tolerance).1 ∧
    (max_abs_diff = r.tolerance → r.exit_code = 0) := by
  obtain ⟨N, scenario, -, hv⟩ := main_done impl atoi atof heap argv r _ hrun hdiff
  have hcases : r.exit_code = if Flt.gt max_abs_diff r.tolerance = true then 2 else 0 := by
    rw [hv]
    unfold verdict
    split <;> rfl
  refine ⟨?_, ?_, hv, ?_⟩
  · rw [hcases]
    by_cases h : Flt.gt max_abs_diff r.tolerance = true
    · simp [h]
    · simp [h]
  · rw [hcases]
    by_cases h : Flt.gt max_abs_diff r.tolerance = true
    · simp [h]
    · simp [h]
  · intro heq
    rw [hcases, heq]
    have : Flt.gt r.tolerance r.tolerance = false := lt_irrefl_flt _
    simp [this]

/-- C1 (witness): the run of `matmul_broken_A` on the 1×1 `identity` scenario. -/
theorem main_exit_code_rule_witness :
    main matmul_broken_A (fun _ => 1) (fun _ => Dbl.zero) heap_nan
      ["test_run_A", "1", "identity"] = some run_identity_1 ∧
    run_identity_1.diff = some (Dbl.one, Dbl.one) ∧
    (run_identity_1.exit_code = 2 ↔ Flt.gt Dbl.one run_identity_1.tolerance = true) ∧
    (run_identity_1.exit_code = 0 ↔ Flt.gt Dbl.one run_identity_1.tolerance = false) ∧
    run_identity_1.exit_code = (verdict Dbl.one run_identity_1.tolerance).1 ∧
    (Dbl.one = run_identity_1.tolerance → run_identity_1.exit_code = 0) :=
  ⟨by decide, rfl, main_exit_code_rule matmul_broken_A (fun _ => 1) (fun _ => Dbl.zero) heap_nan
    ["test_run_A", "1", "identity"] run_identity_1 Dbl.one Dbl.one (by decide) rfl⟩

theorem ge_zero_not_lt (t : Dbl) (h : Flt.ge t Dbl.zero = true) : Flt.lt t Dbl.zero = false := by
  cases t with
  | nan => cases h
  | inf a => simpa [Flt.ge, Dbl.zero] using h
  | fin s m e => simpa [Flt.ge, Dbl.zero] using h

/-- C10: in every run that reaches the verdict, the tolerance used is `1e-12` when no
tolerance argument is given or when the parsed argument `t` satisfies `t < 0`, and `t`
itself when `t >= 0`; it is never negative. -/
theorem effective_tolerance (impl : Kernel) (atoi : String → Int) (atof : String → Dbl)
    (heap : Nat → Option (Nat → Dbl)) (argv : List String) (r : Run) (ms : Dbl × Dbl)
    (hrun : main impl atoi atof heap argv = some r) (hdiff : r.diff = some ms) :
    (argv.length < 4 → r.tolerance = Dbl.tol_default) ∧
    (4 ≤ argv.length → Flt.lt (atof (argv.getD 3 "")) Dbl.zero = true →
      r.tolerance = Dbl.tol_default) ∧
    (4 ≤ argv.length → Flt.ge (atof (argv.getD 3 "")) Dbl.zero = true →
      r.tolerance = atof (argv.getD 3 "")) ∧
    Flt.lt r.tolerance Dbl.zero = false ∧
    r.exit_code = (verdict ms.1 r.tolerance).1 := by
  obtain ⟨N, scenario, hp, hv⟩ := main_done impl atoi atof heap argv r ms hrun hdiff
  have hshape : parse_args atoi atof argv =
      if 2 ≤ argv.length ∧ (if 2 ≤ argv.length then atoi (argv.getD 1 "") else 6) ≤ 0 then none
      else some (if 2 ≤ argv.length then atoi (argv.getD 1 "") else 6,
        if 3 ≤ argv.length then argv.getD 2 "" else "increment",
        if 4 ≤ argv.length then
          (if Flt.lt (atof (argv.getD 3 "")) Dbl.zero = true then Dbl.tol_default
           else atof (argv.getD 3 ""))
        else Dbl.tol_default) := rfl
  rw [hshape] at hp
  by_cases hc : 2 ≤ argv.length ∧ (if 2 ≤ argv.length then atoi (argv.getD 1 "") else 6) ≤ 0
  · rw [if_pos hc] at hp
    cases hp
  · rw [if_neg hc] at hp
    simp only [Option.some.injEq, Prod.mk.injEq] at hp
    obtain ⟨-, -, ht⟩ := hp
    have hdef : Flt.lt Dbl.tol_default Dbl.zero = false := by decide
    refine ⟨?_, ?_, ?_, ?_, hv⟩
    · intro h
      rw [← ht, if_neg (by omega)]
    · intro h hlt
      rw [← ht, if_pos h, if_pos hlt]
    · intro h hge
      have := ge_zero_not_lt _ hge
      rw [← ht, if_pos h, if_neg (by rw [this]; simp)]
    · rw [← ht]
      by_cases h : 4 ≤ argv.length
      · rw [if_pos h]
        by_cases hlt : Flt.lt (atof (argv.getD 3 "")) Dbl.zero = true
        · rw [if_pos hlt]; exact hdef
        · rw [if_neg hlt]; simpa using hlt
      · rw [if_neg h]; exact hdef

/-- C10 (witness): the 1×1 `identity` run with the tolerance argument `-1`. -/
theorem effective_tolerance_witness :
    main matmul_broken_A (fun _ => 1) (fun _ => Dbl.ofInt (-1)) heap_nan
      ["test_run_A", "1", "identity", "-1"] = some run_identity_1 ∧
    ((["test_run_A", "1", "identity", "-1"] : List String).length < 4 →
      run_identity_1.tolerance = Dbl.tol_default) ∧
    (4 ≤ (["test_run_A", "1", "identity", "-1"] : List String).length →
      Flt.lt ((fun _ => Dbl.ofInt (-1)) ((["test_run_A", "1", "identity", "-1"] : List String).getD 3 ""))
        Dbl.zero = true → run_identity_1.tolerance = Dbl.tol_default) ∧
    (4 ≤ (["test_run_A", "1", "identity", "-1"] : List String).length →
      Flt.ge ((fun _ => Dbl.ofInt (-1)) ((["test_run_A", "1", "identity", "-1"] : List String).getD 3 ""))
        Dbl.zero = true →
      run_identity_1.tolerance =
        (fun _ => Dbl.ofInt (-1)) ((["test_run_A", "1", "identity", "-1"] : List String).getD 3 "")) ∧
    Flt.lt run_identity_1.tolerance Dbl.zero = false ∧
    run_identity_1.exit_code = (verdict (Dbl.one, Dbl.one).1 run_identity_1.tolerance).1 :=
  ⟨by decide, effective_tolerance matmul_broken_A (fun _ => 1) (fun _ => Dbl.ofInt (-1)) heap_nan
    ["test_run_A", "1", "identity", "-1"] run_identity_1 (Dbl.one, Dbl.one) (by decide) rfl⟩

/-! ## The whole run on the `identity` scenario with `matmul_broken_A` -/

theorem Filled.step_flat {N : Nat} {v : Nat → Nat → Dbl} {C : List Dbl} (t : Nat)
    (ht : t < N * N) (h : Filled N v t C) : Filled N v (t + 1) (C.set t (v (t / N) (t % N))) := by
  refine ⟨by rw [List.length_set]; exact h.1, ?_⟩
  intro q hq
  rw [List.getElem?_set]
  by_cases hpq : t = q
  · rw [if_pos hpq, if_pos (by rw [h.1]; exact ht), hpq]
  · rw [if_neg hpq]
    exact h.2 q (by omega)

theorem zero_outputs_filled (N : Nat) (Ct Cr : List Dbl) (hCt : Ct.length = N * N)
    (hCr : Cr.length = N * N) :
    ∃ CC, zero_outputs Ct Cr (N * N) = some CC ∧
      Filled N (fun _ _ => Dbl.zero) (N * N) CC.1 ∧ Filled N (fun _ _ => Dbl.zero) (N * N) CC.2 := by
  unfold zero_outputs
  apply forSize_inv (N * N) _ (fun p CC => Filled N (fun _ _ => Dbl.zero) p CC.1 ∧
    Filled N (fun _ _ => Dbl.zero) p CC.2) (Ct, Cr) ⟨Filled.zero hCt, Filled.zero hCr⟩
  intro t ht s hs
  refine ⟨(s.1.set t Dbl.zero, s.2.set t Dbl.zero), ?_, hs.1.step_flat t ht, hs.2.step_flat t ht⟩
  show (wr s.1 (t : Int) Dbl.zero).bind (fun Ct' => (wr s.2 (t : Int) Dbl.zero).bind fun Cr' =>
    some (Ct', Cr')) = _
  rw [wr_lt s.1 _ _ (by rw [hs.1.1]; exact ht), Option.some_bind,
    wr_lt s.2 _ _ (by rw [hs.2.1]; exact ht), Option.some_bind]

/-- The candidate `matmul_broken_A` returns `C` as it received it. -/
theorem matmul_broken_A_unchanged (A B C : List Dbl) (N : Nat) (hN : N ≤ 46340)
    (hA : A.length = N * N) (hB : B.length = N * N) :
    matmul_broken_A A B C (N : Int) = some C := by
  unfold matmul_broken_A
  obtain ⟨s, h1, h2⟩ := forInt2_inv N (fun C i j => do
      let _ ← forInt (N : Int) Dbl.zero fun sum k => do
        let p ← idx i (N : Int) k
        let a ← rd A p
        let q ← idx k (N : Int) j
        let b ← rd B q
        pure (Dbl.add sum (Dbl.mul a b))
      pure C) (fun _ s => s = C) C rfl (by
    intro i j hi hj s hs
    refine ⟨s, ?_, hs⟩
    show (forInt (N : Int) Dbl.zero _).bind (fun _ => some s) = some s
    rw [matmul_ref_inner A B N i j hi hj hN hA hB, Option.some_bind])
  rw [h1, h2]

/-- A loop over the `N * N` cells in row-major order, with an invariant indexed by
the row `i` and the column `j` of the next cell. -/
theorem forSize_sq_inv {σ : Type} (N : Nat) (body : σ → Nat → Option σ)
    (P : Nat → Nat → σ → Prop) (s0 : σ) (h0 : P 0 0 s0)
    (hrow : ∀ i, i < N → ∀ s, P i N s → P (i + 1) 0 s)
    (hstep : ∀ i j, i < N → j < N → ∀ s, P i j s →
      ∃ s', body s (i * N + j) = some s' ∧ P i (j + 1) s') :
    ∃ s', forSize (N * N) s0 body = some s' ∧ P N 0 s' := by
  rcases Nat.eq_zero_or_pos N with hN | hN
  · subst hN
    exact ⟨s0, rfl, h0⟩
  · obtain ⟨s', h1, h2⟩ := forSize_inv (N * N) body (fun t s => P (t / N) (t % N) s) s0
      (by simpa using h0) (by
        intro t ht s hs
        have hi : t / N < N := Nat.div_lt_of_lt_mul ht
        have hj : t % N < N := Nat.mod_lt _ hN
        have ht' : t / N * N + t % N = t := Nat.div_add_mod' t N
        obtain ⟨s', hs1, hs2⟩ := hstep (t / N) (t % N) hi hj s hs
        rw [ht'] at hs1
        refine ⟨s', hs1, ?_⟩
        by_cases hlast : t % N + 1 < N
        · have e1 : (t + 1) / N = t / N := by
            rw [← ht', Nat.add_assoc, cell_div _ _ _ hlast, ht']
          have e2 : (t + 1) % N = t % N + 1 := by
            conv_lhs => rw [← ht']
            rw [Nat.add_assoc, cell_mod _ _ _ hlast]
          show P ((t + 1) / N) ((t + 1) % N) s'
          rw [e1, e2]
          exact hs2
        · have hN1 : t % N + 1 = N := by omega
          have e0 : t + 1 = (t / N + 1) * N + 0 := by
            rw [Nat.succ_mul]; omega
          have e1 : (t + 1) / N = t / N + 1 := by rw [e0, cell_div _ _ _ hN]
          have e2 : (t + 1) % N = 0 := by rw [e0, cell_mod _ _ _ hN]
          show P ((t + 1) / N) ((t + 1) % N) s'
          rw [e1, e2]
          rw [hN1] at hs2
          exact hrow _ hi _ hs2)
    refine ⟨s', h1, ?_⟩
    have e1 : N * N / N = N := Nat.mul_div_cancel _ hN
    have e2 : N * N % N = 0 := Nat.mul_mod_left _ _
    rw [e1, e2] at h2
    exact h2

theorem compare_identity_zero (N : Nat) (hN : 0 < N) (hfit : N ≤ 46340) (Cr Ct : List Dbl)
    (hr : Filled N identity_cell (N * N) Cr) (ht : Filled N (fun _ _ => Dbl.zero) (N * N) Ct) :
    compare Cr Ct (N * N) = some (Dbl.one, Dbl.ofInt (N : Int)) := by
  have d1 : Flt.abs (Dbl.sub Dbl.one Dbl.zero) = Dbl.one := by decide
  have d0 : Flt.abs (Dbl.sub Dbl.zero Dbl.zero) = Dbl.zero := by decide
  have g10 : Flt.gt Dbl.one Dbl.zero = true := by decide
  have g11 : Flt.gt Dbl.one Dbl.one = false := by decide
  have g01 : Flt.gt Dbl.zero Dbl.one = false := by decide
  have one_eq : Dbl.one = Dbl.ofInt ((1 : Nat) : Int) := rfl
  have zero_eq : Dbl.zero = Dbl.ofInt ((0 : Nat) : Int) := by decide
  unfold compare
  obtain ⟨s, h1, h2, h3⟩ := forSize_sq_inv N (fun ms i => do
      let r ← rd Cr (i : Int)
      let t ← rd Ct (i : Int)
      let d := Flt.abs (Dbl.sub r t)
      let sum_abs_diff := Dbl.add ms.2 d
      pure (if Flt.gt d ms.1 then d else ms.1, sum_abs_diff))
    (fun i j ms => ms.1 = (if 0 < i + j then Dbl.one else Dbl.zero) ∧
      ms.2 = Dbl.ofInt ((i + (if i < j then 1 else 0) : Nat) : Int))
    (Dbl.zero, Dbl.zero) ⟨rfl, by decide⟩ (by
      intro i hi s hs
      refine ⟨?_, ?_⟩
      · rw [hs.1, if_pos (by omega), if_pos (by omega)]
      · rw [hs.2, if_pos hi, if_neg (by omega)]) (by
      intro i j hi hj s hs
      have hx : rd Cr ((i * N + j : Nat) : Int) = some (identity_cell i j) := by
        rw [rd_nat, hr.cell i j hi hj]
      have hy : rd Ct ((i * N + j : Nat) : Int) = some Dbl.zero := by
        rw [rd_nat, ht.cell i j hi hj]
      show ∃ s', (rd Cr ((i * N + j : Nat) : Int)).bind (fun r =>
        (rd Ct ((i * N + j : Nat) : Int)).bind fun t' =>
        some (if Flt.gt (Flt.abs (Dbl.sub r t')) s.1 then Flt.abs (Dbl.sub r t') else s.1,
          Dbl.add s.2 (Flt.abs (Dbl.sub r t')))) = some s' ∧ _
      rw [hx, Option.some_bind, hy, Option.some_bind]
      refine ⟨_, rfl, ?_⟩
      obtain ⟨mx, sm⟩ := s
      obtain ⟨hmx, hsm⟩ := hs
      dsimp only at hmx hsm
      dsimp only
      unfold identity_cell
      by_cases hij : i = j
      · have hc0 : (i + (if i < j then 1 else 0) : Nat) = i := by rw [if_neg (by omega)]; rfl
        have hc1 : (i + (if i < j + 1 then 1 else 0) : Nat) = i + 1 := by rw [if_pos (by omega)]
        rw [if_pos hij, d1, hmx, hsm, hc0, hc1, if_pos (by omega : 0 < i + (j + 1))]
        refine ⟨?_, ?_⟩
        · by_cases h0 : 0 < i + j
          · simp only [if_pos h0, g11, Bool.false_eq_true, if_false]
          · simp only [if_neg h0, g10, if_true]
        · rw [one_eq, Dbl_add_nat i 1 (by omega) (by norm_num)]
      · have hc : (i + (if i < j + 1 then 1 else 0) : Nat) = i + (if i < j then 1 else 0) := by
          by_cases hlt : i < j
          · rw [if_pos hlt, if_pos (by omega)]
          · rw [if_neg hlt, if_neg (by omega)]
        have hcb : (i + (if i < j then 1 else 0) : Nat) < 2 ^ 53 := by
          by_cases hlt : i < j
          · rw [if_pos hlt]; omega
          · rw [if_neg hlt]; omega
        rw [if_neg hij, d0, hmx, hsm, hc, if_pos (by omega : 0 < i + j),
          if_pos (by omega : 0 < i + (j + 1))]
        refine ⟨?_, ?_⟩
        · simp only [g01, Bool.false_eq_true, if_false]
        · rw [zero_eq, Dbl_add_nat _ 0 hcb (by norm_num)]
          rfl)
  rw [h1]
  rw [if_pos (by omega)] at h2
  rw [if_neg (by omega)] at h3
  have : s = (Dbl.one, Dbl.ofInt (N : Int)) := Prod.ext h2 h3
  rw [this]

/-- The comparison loop always returns on two buffers of the stated size. -/
theorem compare_some (Cr Ct : List Dbl) (n : Nat) (hr : Cr.length = n) (ht : Ct.length = n) :
    ∃ ms, compare Cr Ct n = some ms := by
  unfold compare
  obtain ⟨s, h1, _⟩ := forSize_inv n (fun ms i => do
      let r ← rd Cr (i : Int)
      let t ← rd Ct (i : Int)
      let d := Flt.abs (Dbl.sub r t)
      let sum_abs_diff := Dbl.add ms.2 d
      pure (if Flt.gt d ms.1 then d else ms.1, sum_abs_diff))
    (fun _ _ => True) (Dbl.zero, Dbl.zero) trivial (by
      intro t htn s _
      have hb : (rd Cr (t : Int)).bind (fun r => (rd Ct (t : Int)).bind fun t' =>
          some (if Flt.gt (Flt.abs (Dbl.sub r t')) s.1 then Flt.abs (Dbl.sub r t') else s.1,
            Dbl.add s.2 (Flt.abs (Dbl.sub r t')))) =
          some (if Flt.gt (Flt.abs (Dbl.sub (Cr.getD t Dbl.zero) (Ct.getD t Dbl.zero))) s.1
              then Flt.abs (Dbl.sub (Cr.getD t Dbl.zero) (Ct.getD t Dbl.zero)) else s.1,
            Dbl.add s.2 (Flt.abs (Dbl.sub (Cr.getD t Dbl.zero) (Ct.getD t Dbl.zero)))) := by
        rw [rd_lt Cr t (by omega), Option.some_bind, rd_lt Ct t (by omega), Option.some_bind]
      exact ⟨_, hb, trivial⟩)
  exact ⟨s, h1⟩

theorem sample_row_some (Cr Ct : List Dbl) (N i : Nat) (hi : i < N) (hfit : N ≤ 46340)
    (hr : Cr.length = N * N) (ht : Ct.length = N * N) :
    ∃ row, sample_row Cr Ct (N : Int) (i : Int) = some row := by
  unfold sample_row
  obtain ⟨s, h1, _⟩ := forInt_inv N (fun out j => do
      let p ← idx (i : Int) (N : Int) j
      let r ← rd Cr p
      let t ← rd Ct p
      pure (out ++ [Event.entry (i : Int) j r t]))
    (fun _ _ => True) [] trivial (by
      intro j hj s _
      have hb : (idx (i : Int) (N : Int) (j : Int)).bind (fun p => (rd Cr p).bind fun r =>
          (rd Ct p).bind fun t => some (s ++ [Event.entry (i : Int) (j : Int) r t])) =
          some (s ++ [Event.entry (i : Int) (j : Int) (Cr.getD (i * N + j) Dbl.zero)
            (Ct.getD (i * N + j) Dbl.zero)]) := by
        rw [idx_eq i j N hi (le_of_lt hj) hfit, Option.some_bind,
          rd_lt Cr _ (by rw [hr]; exact cell_lt i j N hi hj), Option.some_bind,
          rd_lt Ct _ (by rw [ht]; exact cell_lt i j N hi hj), Option.some_bind]
      exact ⟨_, hb, trivial⟩)
  exact ⟨s, h1⟩

theorem sample_rows_some (Cr Ct : List Dbl) (N : Nat) (hfit : N ≤ 46340)
    (hr : Cr.length = N * N) (ht : Ct.length = N * N) (l : List Nat) (hl : ∀ i, i ∈ l → i < N) :
    ∃ out, sample_rows Cr Ct (N : Int) l = some out := by
  induction l with
  | nil => exact ⟨[], rfl⟩
  | cons i rest ih =>
    obtain ⟨row, hrow⟩ := sample_row_some Cr Ct N i (hl i (List.mem_cons_self _ _)) hfit hr ht
    obtain ⟨more, hmore⟩ := ih (fun k hk => hl k (List.mem_cons_of_mem _ hk))
    unfold sample_rows
    rw [hrow]
    simp only [Option.bind_eq_bind, Option.some_bind]
    split
    · exact ⟨_, rfl⟩
    · rw [hmore]
      exact ⟨_, rfl⟩

theorem Filled.replicate_zero (N : Nat) :
    Filled N (fun _ _ => Dbl.zero) (N * N) (List.replicate (N * N) Dbl.zero) := by
  refine ⟨List.length_replicate _ _, fun q hq => ?_⟩
  rw [List.getElem?_replicate, if_pos hq]

theorem sq_bound (N : Nat) (hfit : N ≤ 46340) : N * N ≤ 2147395600 :=
  Nat.mul_le_mul hfit hfit

theorem malloc_doubles_eq (heap : Nat → Option (Nat → Dbl)) (k N : Nat) (g : Nat → Dbl)
    (hfit : N ≤ 46340) (h : heap k = some g) :
    malloc_doubles heap k (((N : Int).toNat * (N : Int).toNat) % 2 ^ 64)
      = some ((List.range (N * N)).map g) := by
  have hb := sq_bound N hfit
  have h1 : ((N : Int).toNat * (N : Int).toNat) % 2 ^ 64 = N * N := by
    rw [Int.toNat_ofNat]
    exact Nat.mod_eq_of_lt (by omega)
  have h2 : (N * N * 8) % 2 ^ 64 / 8 = N * N := by omega
  unfold malloc_doubles
  rw [h, h1, h2]
  rfl

/-- A run whose scenario is recognised and whose kernel under test returns reaches the
verdict. -/
theorem main_completes (impl : Kernel) (atoi : String → Int) (atof : String → Dbl)
    (heap : Nat → Option (Nat → Dbl)) (argv : List String) (N : Nat) (scenario : String)
    (tol : Dbl) (hfit : N ≤ 46340)
    (hp : parse_args atoi atof argv = some ((N : Int), scenario, tol))
    (g0 g1 g2 g3 : Nat → Dbl) (h0 : heap 0 = some g0) (h1 : heap 1 = some g1)
    (h2 : heap 2 = some g2) (h3 : heap 3 = some g3) (A B : List Dbl)
    (hf : fill_scenario scenario ((List.range (N * N)).map g0) ((List.range (N * N)).map g1)
      (N : Int) = some (some (A, B)))
    (hA : A.length = N * N) (hB : B.length = N * N) (Ct : List Dbl)
    (himpl : impl A B (List.replicate (N * N) Dbl.zero) (N : Int) = some Ct)
    (hCt : Ct.length = N * N) :
    ∃ Cr ms rows, matmul_ref A B (List.replicate (N * N) Dbl.zero) (N : Int) = some Cr ∧
      compare Cr Ct (N * N) = some ms ∧
      sample_rows Cr Ct (N : Int) (List.range N) = some rows ∧
      main impl atoi atof heap argv = some ⟨(verdict ms.1 tol).1,
        [Event.call_test, Event.call_ref, Event.header (N : Int) scenario,
          Event.max_diff ms.1, Event.sum_diff ms.2, Event.sample_header]
          ++ rows ++ [(verdict ms.1 tol).2], tol, some ms⟩ := by
  obtain ⟨CC, hz, hz1, hz2⟩ := zero_outputs_filled N ((List.range (N * N)).map g2)
    ((List.range (N * N)).map g3) (by simp) (by simp)
  have e1 : CC.1 = List.replicate (N * N) Dbl.zero := hz1.eq (Filled.replicate_zero N)
  have e2 : CC.2 = List.replicate (N * N) Dbl.zero := hz2.eq (Filled.replicate_zero N)
  obtain ⟨Cr, hr, hrF⟩ := matmul_ref_filled A B (List.replicate (N * N) Dbl.zero) N hfit hA hB
    (List.length_replicate _ _)
  obtain ⟨ms, hms⟩ := compare_some Cr Ct (N * N) hrF.1 hCt
  obtain ⟨rows, hrows⟩ := sample_rows_some Cr Ct N hfit hrF.1 hCt (List.range N)
    (fun i hi => List.mem_range.mp hi)
  refine ⟨Cr, ms, rows, hr, hms, hrows, ?_⟩
  have hsize : ((N : Int).toNat * (N : Int).toNat) % 2 ^ 64 = N * N := by
    have hb := sq_bound N hfit
    rw [Int.toNat_ofNat]
    exact Nat.mod_eq_of_lt (by omega)
  have m0 := malloc_doubles_eq heap 0 N g0 hfit h0
  have m1 := malloc_doubles_eq heap 1 N g1 hfit h1
  have m2 := malloc_doubles_eq heap 2 N g2 hfit h2
  have m3 := malloc_doubles_eq heap 3 N g3 hfit h3
  unfold main
  rw [hp]
  dsimp only
  rw [m0, m1, m2, m3]
  dsimp only
  rw [hf, Option.some_bind]
  dsimp only
  rw [hsize, Int.toNat_ofNat, hz]
  simp only [Option.bind_eq_bind, Option.some_bind, e1, e2, himpl, hr, hms, hrows,
    Option.pure_def]

theorem fill_scenario_identity (A B : List Dbl) (N : Int) :
    fill_scenario "identity" A B N = (fill_identity A B N).map some := by
  unfold fill_scenario
  rw [if_neg (by decide), if_pos rfl]

theorem malloc_doubles_some (heap : Nat → Option (Nat → Dbl)) (k size : Nat) (g : Nat → Dbl)
    (h : heap k = some g) :
    malloc_doubles heap k size = some ((List.range ((size * 8) % 2 ^ 64 / 8)).map g) := by
  unfold malloc_doubles
  rw [h]
  rfl

/-- C5 (counterexample): for `N = 46341` the run on the `identity` scenario has no
defined result, because `fill_identity` computes an index beyond `INT_MAX`. -/
theorem identity_broken_A_undefined_at_46341 :
    main matmul_broken_A (fun _ => 46341) (fun _ => Dbl.zero)
      (fun _ => some (fun _ => Dbl.zero)) ["test_run_A", "46341", "identity"] = none := by
  have hp : parse_args (fun _ => 46341) (fun _ => Dbl.zero) ["test_run_A", "46341", "identity"]
      = some (46341, "identity", Dbl.tol_default) := by decide
  unfold main
  rw [hp]
  dsimp only
  rw [malloc_doubles_some _ 0 _ (fun _ => Dbl.zero) rfl,
    malloc_doubles_some _ 1 _ (fun _ => Dbl.zero) rfl,
    malloc_doubles_some _ 2 _ (fun _ => Dbl.zero) rfl,
    malloc_doubles_some _ 3 _ (fun _ => Dbl.zero) rfl]
  dsimp only
  rw [fill_scenario_identity, show (46341 : Int) = ((46341 : Nat) : Int) from rfl,
    fill_identity_none _ _ 46341 (by decide)]
  rfl

/-- C5 (amended): for `1 <= N <= 46340`, the run of the harness on the `identity`
scenario with the candidate `matmul_broken_A` yields `max_abs_diff = 1.0` and
`sum_abs_diff = N`, and exits with code `2` (Mismatch) whenever the tolerance used is
below `1`: with the default tolerance and with every tolerance argument `t`,
`0 <= t < 1`. -/
theorem identity_broken_A_mismatch (N : Nat) (hN : 1 ≤ N) (hfit : N ≤ 46340)
    (atoi : String → Int) (atof : String → Dbl) (heap : Nat → Option (Nat → Dbl))
    (argv : List String) (hargc : 3 ≤ argv.length) (hatoi : atoi (argv.getD 1 "") = (N : Int))
    (hscen : argv.getD 2 "" = "identity") (hheap : ∀ k, k < 4 → (heap k).isSome = true) :
    ∃ r, main matmul_broken_A atoi atof heap argv = some r ∧
      r.diff = some (Dbl.one, Dbl.ofInt (N : Int)) ∧
      Dbl.one.toInt? = some 1 ∧ (Dbl.ofInt (N : Int)).toInt? = some (N : Int) ∧
      (Flt.lt r.tolerance Dbl.one = true → r.exit_code = 2) ∧
      (argv.length = 3 → r.tolerance = Dbl.tol_default ∧ r.exit_code = 2) ∧
      (4 ≤ argv.length → Flt.ge (atof (argv.getD 3 "")) Dbl.zero = true →
        Flt.lt (atof (argv.getD 3 "")) Dbl.one = true →
        r.tolerance = atof (argv.getD 3 "") ∧ r.exit_code = 2) := by
  obtain ⟨g0, h0⟩ := Option.isSome_iff_exists.mp (hheap 0 (by decide))
  obtain ⟨g1, h1⟩ := Option.isSome_iff_exists.mp (hheap 1 (by decide))
  obtain ⟨g2, h2⟩ := Option.isSome_iff_exists.mp (hheap 2 (by decide))
  obtain ⟨g3, h3⟩ := Option.isSome_iff_exists.mp (hheap 3 (by decide))
  have hp : parse_args atoi atof argv = some ((N : Int), "identity",
      if 4 ≤ argv.length then
        (if Flt.lt (atof (argv.getD 3 "")) Dbl.zero = true then Dbl.tol_default
         else atof (argv.getD 3 ""))
      else Dbl.tol_default) := by
    have hshape : parse_args atoi atof argv =
        if 2 ≤ argv.length ∧ (if 2 ≤ argv.length then atoi (argv.getD 1 "") else 6) ≤ 0 then none
        else some (if 2 ≤ argv.length then atoi (argv.getD 1 "") else 6,
          if 3 ≤ argv.length then argv.getD 2 "" else "increment",
          if 4 ≤ argv.length then
            (if Flt.lt (atof (argv.getD 3 "")) Dbl.zero = true then Dbl.tol_default
             else atof (argv.getD 3 ""))
          else Dbl.tol_default) := rfl
    have h2' : 2 ≤ argv.length := by omega
    rw [hshape, if_pos h2', hatoi, if_neg (by omega), if_pos hargc, hscen]
  obtain ⟨AB, hfill, hFA, hFB⟩ := fill_identity_filled ((List.range (N * N)).map g0)
    ((List.range (N * N)).map g1) N hfit (by simp) (by simp)
  have hf : fill_scenario "identity" ((List.range (N * N)).map g0) ((List.range (N * N)).map g1)
      (N : Int) = some (some (AB.1, AB.2)) := by
    rw [fill_scenario_identity, hfill]
    rfl
  obtain ⟨Cr, ms, rows, hr, hms, -, hmain⟩ := main_completes matmul_broken_A atoi atof heap argv
    N "identity" _ hfit hp g0 g1 g2 g3 h0 h1 h2 h3 AB.1 AB.2 hf hFA.1 hFB.1
    (List.replicate (N * N) Dbl.zero)
    (matmul_broken_A_unchanged _ _ _ N hfit hFA.1 hFB.1) (List.length_replicate _ _)
  obtain ⟨Cr', hr', hrF⟩ := matmul_ref_identity AB.1 AB.2 (List.replicate (N * N) Dbl.zero) N hfit
    hFA hFB (List.length_replicate _ _)
  rw [hr] at hr'
  cases hr'
  have hcmp := compare_identity_zero N hN hfit Cr _ hrF (Filled.replicate_zero N)
  rw [hms] at hcmp
  cases hcmp
  have hv : ∀ t : Dbl, Flt.lt t Dbl.one = true → (verdict Dbl.one t).1 = 2 := by
    intro t ht
    unfold verdict Flt.gt
    rw [if_pos ht]
  have hdef : Flt.lt Dbl.tol_default Dbl.one = true := by decide
  refine ⟨_, hmain, rfl, by decide, toInt_ofInt _ (by omega), ?_, ?_, ?_⟩
  · intro hlt
    exact hv _ hlt
  · intro h3'
    have : ¬ (4 ≤ argv.length) := by omega
    dsimp only
    rw [if_neg this]
    exact ⟨rfl, hv _ hdef⟩
  · intro h4 hge hlt
    have hnl := ge_zero_not_lt _ hge
    dsimp only
    rw [if_pos h4, if_neg (by rw [hnl]; simp)]
    exact ⟨rfl, hv _ hlt⟩

/-- C5 (witness): the amended statement at the spec's case `N = 4`, default tolerance. -/
theorem identity_broken_A_mismatch_witness :
    ∃ r, main matmul_broken_A (fun _ => 4) (fun _ => Dbl.zero) heap_nan
        ["test_run_A", "4", "identity"] = some r ∧
      r.diff = some (Dbl.one, Dbl.ofInt ((4 : Nat) : Int)) ∧
      Dbl.one.toInt? = some 1 ∧ (Dbl.ofInt ((4 : Nat) : Int)).toInt? = some ((4 : Nat) : Int) ∧
      (Flt.lt r.tolerance Dbl.one = true → r.exit_code = 2) ∧
      ((["test_run_A", "4", "identity"] : List String).length = 3 →
        r.tolerance = Dbl.tol_default ∧ r.exit_code = 2) ∧
      (4 ≤ (["test_run_A", "4", "identity"] : List String).length →
        Flt.ge ((fun _ => Dbl.zero) ((["test_run_A", "4", "identity"] : List String).getD 3 ""))
          Dbl.zero = true →
        Flt.lt ((fun _ => Dbl.zero) ((["test_run_A", "4", "identity"] : List String).getD 3 ""))
          Dbl.one = true →
        r.tolerance = (fun _ => Dbl.zero) ((["test_run_A", "4", "identity"] : List String).getD 3 "")
          ∧ r.exit_code = 2) :=
  identity_broken_A_mismatch 4 (by decide) (by decide) (fun _ => 4) (fun _ => Dbl.zero) heap_nan
    ["test_run_A", "4", "identity"] (by decide) rfl rfl (by decide)

/-! ## The draw formula of `fill_random` -/

/-- C8 (counterexample): the generator states `s_3 = 3905459128` (drawn for `A[1]`) and
`s_2 = 3274429979` (drawn for `B[0]`) have their top bit set; the code stores `-14/3.0`
and `-26/4.0`, the arithmetic-shift formula gives `-75/3.0` and `-48/4.0` (and other
values again when the remainder is read as the non-negative one). -/
theorem draw_differs_from_arithmetic_shift :
    lcg_state 3 = 3905459128 ∧ lcg_state 2 = 3274429979 ∧
    (fill_random [Flt.nan, Flt.nan, Flt.nan, Flt.nan] [Flt.nan, Flt.nan, Flt.nan, Flt.nan] 2).map
        (fun AB => (AB.1[1]?, AB.2[0]?))
      = some (some (Dbl.div (Dbl.ofInt (-14)) Dbl.three),
          some (Dbl.div (Dbl.ofInt (-26)) Dbl.four)) ∧
    draw_A (lcg_state 3) = some (Dbl.div (Dbl.ofInt (-14)) Dbl.three) ∧
    draw_A_spec (lcg_state 3) = Dbl.div (Dbl.ofInt (-75)) Dbl.three ∧
    draw_A (lcg_state 3) ≠ some (draw_A_spec (lcg_state 3)) ∧
    draw_A (lcg_state 3) ≠ some (Dbl.div (Dbl.ofInt
      (Int.emod (Int.fdiv (to_signed32 (lcg_state 3)) 65536) 97 - 48)) Dbl.three) ∧
    draw_B (lcg_state 2) = some (Dbl.div (Dbl.ofInt (-26)) Dbl.four) ∧
    draw_B_spec (lcg_state 2) = Dbl.div (Dbl.ofInt (-48)) Dbl.four ∧
    draw_B (lcg_state 2) ≠ some (draw_B_spec (lcg_state 2)) ∧
    draw_B (lcg_state 2) ≠ some (Dbl.div (Dbl.ofInt
      (Int.emod (Int.fdiv (to_signed32 (lcg_state 2)) 65536) 61 - 30)) Dbl.four) := by
  decide

theorem signed_shift_of_small (s : Nat) (h : s < 2 ^ 31) :
    Int.fdiv (to_signed32 s) 65536 = ((s / 65536 : Nat) : Int) := by
  unfold to_signed32
  rw [if_pos h, Int.fdiv_eq_ediv _ (by norm_num)]
  rfl

/-- C8 (amended): for every 32-bit generator state `s`, the value drawn from `s` is:
`s` shifted right logically by 16 bits (a value in `0..65535`, never negative),
reduced modulo 97 (for `A`) or 61 (for `B`), minus 48 or 30, divided by `3.0` or
`4.0`; this is the value of the arithmetic-shift/signed formula for every state whose
top bit is clear. -/
theorem draw_formula (s : Nat) (hs : s < 2 ^ 32) :
    draw_A s = some (Dbl.div (Dbl.ofInt ((((s / 65536) % 97 : Nat) : Int) - 48)) Dbl.three) ∧
    draw_B s = some (Dbl.div (Dbl.ofInt ((((s / 65536) % 61 : Nat) : Int) - 30)) Dbl.four) ∧
    int_of_unsigned (s >>> 16) = ((s / 65536 : Nat) : Int) ∧ s / 65536 ≤ 65535 ∧
    (s < 2 ^ 31 → draw_A s = some (draw_A_spec s) ∧ draw_B s = some (draw_B_spec s)) := by
  refine ⟨draw_A_eq s hs, draw_B_eq s hs, draw_unsigned s hs, by omega, fun h => ⟨?_, ?_⟩⟩
  · rw [draw_A_eq s hs]
    unfold draw_A_val draw_A_spec
    rw [signed_shift_of_small s h, Int.tmod_eq_emod (by omega) (by omega)]
    rfl
  · rw [draw_B_eq s hs]
    unfold draw_B_val draw_B_spec
    rw [signed_shift_of_small s h, Int.tmod_eq_emod (by omega) (by omega)]
    rfl

/-- C8 (witness): the amended statement at the first state `s_1 = 231794730`. -/
theorem draw_formula_witness :
    draw_A 231794730
      = some (Dbl.div (Dbl.ofInt ((((231794730 / 65536) % 97 : Nat) : Int) - 48)) Dbl.three) ∧
    draw_B 231794730
      = some (Dbl.div (Dbl.ofInt ((((231794730 / 65536) % 61 : Nat) : Int) - 30)) Dbl.four) ∧
    int_of_unsigned (231794730 >>> 16) = ((231794730 / 65536 : Nat) : Int) ∧
    231794730 / 65536 ≤ 65535 ∧
    (231794730 < 2 ^ 31 →
      draw_A 231794730 = some (draw_A_spec 231794730) ∧
      draw_B 231794730 = some (draw_B_spec 231794730)) :=
  draw_formula 231794730 (by decide)

/-! ## The scenarios do not depend on the initial buffers -/

theorem fill_increment_none (A B : List Dbl) (N : Nat) (h : 46340 < N) :
    fill_increment A B (N : Int) = none := by
  unfold fill_increment
  apply forInt2_none N (by omega)
  intro s
  show (idx ((N - 1 : Nat) : Int) (N : Int) ((N - 1 : Nat) : Int)).bind _ = none
  rw [idx_overflow N h]
  rfl

theorem fill_pattern_none (A B : List Dbl) (N : Nat) (h : 46340 < N) :
    fill_pattern A B (N : Int) = none := by
  unfold fill_pattern
  apply forInt2_none N (by omega)
  intro s
  show (idx ((N - 1 : Nat) : Int) (N : Int) ((N - 1 : Nat) : Int)).bind _ = none
  rw [idx_overflow N h]
  rfl

/-- C12 (counterexample): for `N = 46341` the scenarios `increment` and `pattern`
compute the index `i * N + j` beyond `INT_MAX` in the last row and have no defined
result, so they do not determine `A` and `B`. -/
theorem scenarios_undefined_at_46341 :
    fill_increment (List.replicate (46341 * 46341) Flt.nan)
      (List.replicate (46341 * 46341) Flt.nan) 46341 = none ∧
    fill_pattern (List.replicate (46341 * 46341) Flt.nan)
      (List.replicate (46341 * 46341) Flt.nan) 46341 = none :=
  ⟨fill_increment_none _ _ 46341 (by decide), fill_pattern_none _ _ 46341 (by decide)⟩

/-- C12 (amended): for `N <= 46340` each of the four scenarios returns, assigns every
one of the `N * N` cells of `A` and of `B`, and gives the same `A` and `B` from any two
pairs of initial buffers. -/
theorem scenarios_ignore_initial_contents (N : Nat) (hfit : N ≤ 46340)
    (A0 B0 A1 B1 : List Dbl) (hA0 : A0.length = N * N) (hB0 : B0.length = N * N)
    (hA1 : A1.length = N * N) (hB1 : B1.length = N * N) :
    (∃ A B, fill_increment A0 B0 (N : Int) = some (A, B) ∧
      fill_increment A1 B1 (N : Int) = some (A, B) ∧ A.length = N * N ∧ B.length = N * N ∧
      ∀ q, q < N * N → A[q]? = some (Dbl.ofInt (((q / N * N + q % N : Nat) : Int) + 1)) ∧
        B[q]? = some (Dbl.ofInt ((((q / N + q % N) % 7 : Nat) : Int) - 3))) ∧
    (∃ A B, fill_identity A0 B0 (N : Int) = some (A, B) ∧
      fill_identity A1 B1 (N : Int) = some (A, B) ∧ A.length = N * N ∧ B.length = N * N ∧
      ∀ q, q < N * N → A[q]? = some (identity_cell (q / N) (q % N)) ∧
        B[q]? = some (identity_cell (q / N) (q % N))) ∧
    (∃ A B, fill_random A0 B0 (N : Int) = some (A, B) ∧
      fill_random A1 B1 (N : Int) = some (A, B) ∧ A.length = N * N ∧ B.length = N * N ∧
      ∀ q, q < N * N → A[q]? = some (draw_A_val (lcg_state (2 * (q / N * N + q % N) + 1))) ∧
        B[q]? = some (draw_B_val (lcg_state (2 * (q / N * N + q % N) + 2)))) ∧
    (∃ A B, fill_pattern A0 B0 (N : Int) = some (A, B) ∧
      fill_pattern A1 B1 (N : Int) = some (A, B) ∧ A.length = N * N ∧ B.length = N * N ∧
      ∀ q, q < N * N → A[q]? = some (Dbl.ofInt ((q / N + 1 : Nat) : Int)) ∧
        B[q]? = some (Dbl.ofInt ((q % N + 2 : Nat) : Int))) := by
  refine ⟨?_, ?_, ?_, ?_⟩
  · obtain ⟨AB, h, hFA, hFB⟩ := fill_increment_filled A0 B0 N hfit hA0 hB0
    obtain ⟨AB', h', hFA', hFB'⟩ := fill_increment_filled A1 B1 N hfit hA1 hB1
    have e : AB' = AB := Prod.ext (hFA'.eq hFA) (hFB'.eq hFB)
    rw [e] at h'
    exact ⟨AB.1, AB.2, h, h', hFA.1, hFB.1, fun q hq => ⟨hFA.2 q hq, hFB.2 q hq⟩⟩
  · obtain ⟨AB, h, hFA, hFB⟩ := fill_identity_filled A0 B0 N hfit hA0 hB0
    obtain ⟨AB', h', hFA', hFB'⟩ := fill_identity_filled A1 B1 N hfit hA1 hB1
    have e : AB' = AB := Prod.ext (hFA'.eq hFA) (hFB'.eq hFB)
    rw [e] at h'
    exact ⟨AB.1, AB.2, h, h', hFA.1, hFB.1, fun q hq => ⟨hFA.2 q hq, hFB.2 q hq⟩⟩
  · obtain ⟨st, h, -, hFA, hFB⟩ := fill_random_from_filled A0 B0 N hfit hA0 hB0
    obtain ⟨st', h', -, hFA', hFB'⟩ := fill_random_from_filled A1 B1 N hfit hA1 hB1
    have e1 : st'.2.1 = st.2.1 := hFA'.eq hFA
    have e2 : st'.2.2 = st.2.2 := hFB'.eq hFB
    refine ⟨st.2.1, st.2.2, ?_, ?_, hFA.1, hFB.1, fun q hq => ⟨hFA.2 q hq, hFB.2 q hq⟩⟩
    · unfold fill_random
      rw [h]
      rfl
    · unfold fill_random
      rw [h', ← e1, ← e2]
      rfl
  · obtain ⟨AB, h, hFA, hFB⟩ := fill_pattern_filled A0 B0 N hfit hA0 hB0
    obtain ⟨AB', h', hFA', hFB'⟩ := fill_pattern_filled A1 B1 N hfit hA1 hB1
    have e : AB' = AB := Prod.ext (hFA'.eq hFA) (hFB'.eq hFB)
    rw [e] at h'
    exact ⟨AB.1, AB.2, h, h', hFA.1, hFB.1, fun q hq => ⟨hFA.2 q hq, hFB.2 q hq⟩⟩

/-- C12 (witness): the amended statement at `N = 2`, from buffers of NaN and buffers of
zeros. -/
theorem scenarios_ignore_initial_contents_witness :
    (∃ A B, fill_increment [Flt.nan, Flt.nan, Flt.nan, Flt.nan]
        [Flt.nan, Flt.nan, Flt.nan, Flt.nan] ((2 : Nat) : Int) = some (A, B) ∧
      fill_increment [Dbl.zero, Dbl.zero, Dbl.zero, Dbl.zero]
        [Dbl.one, Dbl.one, Dbl.one, Dbl.one] ((2 : Nat) : Int) = some (A, B) ∧
      A.length = 2 * 2 ∧ B.length = 2 * 2 ∧
      ∀ q, q < 2 * 2 → A[q]? = some (Dbl.ofInt (((q / 2 * 2 + q % 2 : Nat) : Int) + 1)) ∧
        B[q]? = some (Dbl.ofInt ((((q / 2 + q % 2) % 7 : Nat) : Int) - 3))) ∧
    (∃ A B, fill_identity [Flt.nan, Flt.nan, Flt.nan, Flt.nan]
        [Flt.nan, Flt.nan, Flt.nan, Flt.nan] ((2 : Nat) : Int) = some (A, B) ∧
      fill_identity [Dbl.zero, Dbl.zero, Dbl.zero, Dbl.zero]
        [Dbl.one, Dbl.one, Dbl.one, Dbl.one] ((2 : Nat) : Int) = some (A, B) ∧
      A.length = 2 * 2 ∧ B.length = 2 * 2 ∧
      ∀ q, q < 2 * 2 → A[q]? = some (identity_cell (q / 2) (q % 2)) ∧
        B[q]? = some (identity_cell (q / 2) (q % 2))) ∧
    (∃ A B, fill_random [Flt.nan, Flt.nan, Flt.nan, Flt.nan]
        [Flt.nan, Flt.nan, Flt.nan, Flt.nan] ((2 : Nat) : Int) = some (A, B) ∧
      fill_random [Dbl.zero, Dbl.zero, Dbl.zero, Dbl.zero]
        [Dbl.one, Dbl.one, Dbl.one, Dbl.one] ((2 : Nat) : Int) = some (A, B) ∧
      A.length = 2 * 2 ∧ B.length = 2 * 2 ∧
      ∀ q, q < 2 * 2 → A[q]? = some (draw_A_val (lcg_state (2 * (q / 2 * 2 + q % 2) + 1))) ∧
        B[q]? = some (draw_B_val (lcg_state (2 * (q / 2 * 2 + q % 2) + 2)))) ∧
    (∃ A B, fill_pattern [Flt.nan, Flt.nan, Flt.nan, Flt.nan]
        [Flt.nan, Flt.nan, Flt.nan, Flt.nan] ((2 : Nat) : Int) = some (A, B) ∧
      fill_pattern [Dbl.zero, Dbl.zero, Dbl.zero, Dbl.zero]
        [Dbl.one, Dbl.one, Dbl.one, Dbl.one] ((2 : Nat) : Int) = some (A, B) ∧
      A.length = 2 * 2 ∧ B.length = 2 * 2 ∧
      ∀ q, q < 2 * 2 → A[q]? = some (Dbl.ofInt ((q / 2 + 1 : Nat) : Int)) ∧
        B[q]? = some (Dbl.ofInt ((q % 2 + 2 : Nat) : Int))) :=
  scenarios_ignore_initial_contents 2 (by decide) _ _ _ _ rfl rfl rfl rfl

/-! ## The candidate `matmul_broken_A` -/

theorem foldlM_frame {σ α : Type} (f : σ → α → Option σ) (l : List α)
    (hf : ∀ s x s', f s x = some s' → s' = s) (s s' : σ) (h : l.foldlM f s = some s') :
    s' = s := by
  induction l generalizing s with
  | nil =>
    simp only [List.foldlM_nil, Option.pure_def, Option.some.injEq] at h
    exact h.symm
  | cons a l ih =>
    rw [List.foldlM_cons] at h
    cases h1 : f s a with
    | none => rw [h1] at h; cases h
    | some s1 =>
      rw [h1] at h
      have e := hf s a s1 h1
      subst e
      exact ih _ h

/-- Whenever `matmul_broken_A` returns, it returns the buffer `C` it received. -/
theorem matmul_broken_A_frame (A B C : List Dbl) (N : Int) (D : List Dbl)
    (h : matmul_broken_A A B C N = some D) : D = C := by
  unfold matmul_broken_A forInt at h
  refine foldlM_frame _ _ ?_ C D h
  intro s i s' hs
  refine foldlM_frame _ _ ?_ s s' hs
  intro t j t' ht
  simp only [Option.bind_eq_bind, Option.bind_eq_some, Option.pure_def,
    Option.some.injEq] at ht
  obtain ⟨_, _, e⟩ := ht
  exact e.symm

theorem matmul_broken_A_none (A B C : List Dbl) (N : Nat) (h : 46340 < N) :
    matmul_broken_A A B C (N : Int) = none := by
  unfold matmul_broken_A
  apply forInt2_none N (by omega)
  intro s
  have hk : forInt (N : Int) Dbl.zero (fun sum k => do
        let p ← idx ((N - 1 : Nat) : Int) (N : Int) k
        let a ← rd A p
        let q ← idx k (N : Int) ((N - 1 : Nat) : Int)
        let b ← rd B q
        pure (Dbl.add sum (Dbl.mul a b))) = none := by
    apply forInt_none_of_lt N _ (N - 1) (by omega)
    intro s'
    show (idx ((N - 1 : Nat) : Int) (N : Int) ((N - 1 : Nat) : Int)).bind _ = none
    rw [idx_overflow N h]
    rfl
  show (forInt (N : Int) Dbl.zero _).bind _ = none
  rw [hk]
  rfl

/-- C13 (counterexample): for `N = 46341` the reads of `matmul_broken_A` compute the
index `i * N + k` beyond `INT_MAX`; the call has no defined result. -/
theorem matmul_broken_A_undefined_at_46341 :
    matmul_broken_A (List.replicate (46341 * 46341) Dbl.zero)
      (List.replicate (46341 * 46341) Dbl.zero) (List.replicate (46341 * 46341) Dbl.zero) 46341
      = none :=
  matmul_broken_A_none _ _ _ 46341 (by decide)

/-- C13 (amended): for `N <= 46340`, all `N * N` inputs `A`, `B` and every initial
content of `C`, `matmul_broken_A` returns and leaves `C` as it was; for no input at all
does it return a changed `C`. After the harness has zeroed `C_test`, the buffer is all
zeros after the call. -/
theorem matmul_broken_A_leaves_C (N : Nat) (hfit : N ≤ 46340) (A B C Ct Cr : List Dbl)
    (hA : A.length = N * N) (hB : B.length = N * N) (hCt : Ct.length = N * N)
    (hCr : Cr.length = N * N) :
    matmul_broken_A A B C (N : Int) = some C ∧
    (∀ (A' B' C' : List Dbl) (N' : Int) (D : List Dbl),
      matmul_broken_A A' B' C' N' = some D → D = C') ∧
    ∃ CC, zero_outputs Ct Cr (N * N) = some CC ∧
      matmul_broken_A A B CC.1 (N : Int) = some CC.1 ∧
      CC.1.length = N * N ∧ ∀ q, q < N * N → CC.1[q]? = some Dbl.zero := by
  refine ⟨matmul_broken_A_unchanged A B C N hfit hA hB, matmul_broken_A_frame, ?_⟩
  obtain ⟨CC, h1, h2, -⟩ := zero_outputs_filled N Ct Cr hCt hCr
  exact ⟨CC, h1, matmul_broken_A_unchanged A B CC.1 N hfit hA hB, h2.1, h2.2⟩

/-- C13 (witness): the amended statement on 2×2 buffers. -/
theorem matmul_broken_A_leaves_C_witness :
    matmul_broken_A [Dbl.one, Dbl.three, Dbl.four, Dbl.one] [Dbl.zero, Dbl.one, Dbl.one, Dbl.zero]
        [Flt.nan, Dbl.one, Flt.nan, Dbl.four] ((2 : Nat) : Int)
      = some [Flt.nan, Dbl.one, Flt.nan, Dbl.four] ∧
    (∀ (A' B' C' : List Dbl) (N' : Int) (D : List Dbl),
      matmul_broken_A A' B' C' N' = some D → D = C') ∧
    ∃ CC, zero_outputs [Flt.nan, Flt.nan, Flt.nan, Flt.nan] [Flt.nan, Flt.nan, Flt.nan, Flt.nan]
        (2 * 2) = some CC ∧
      matmul_broken_A [Dbl.one, Dbl.three, Dbl.four, Dbl.one]
        [Dbl.zero, Dbl.one, Dbl.one, Dbl.zero] CC.1 ((2 : Nat) : Int) = some CC.1 ∧
      CC.1.length = 2 * 2 ∧ ∀ q, q < 2 * 2 → CC.1[q]? = some Dbl.zero :=
  matmul_broken_A_leaves_C 2 (by decide) _ _ _ _ _ rfl rfl rfl rfl

/-! ## Argument handling and scenario dispatch -/

theorem parse_args_usage (atoi : String → Int) (atof : String → Dbl) (argv : List String)
    (h : arg_N atoi argv ≤ 0) : parse_args atoi atof argv = none := by
  have h2 : 2 ≤ argv.length := by
    by_contra hc
    unfold arg_N at h
    rw [if_neg hc] at h
    omega
  have hshape : parse_args atoi atof argv =
      if 2 ≤ argv.length ∧ arg_N atoi argv ≤ 0 then none
      else some (arg_N atoi argv, arg_scenario argv, arg_tolerance atof argv) := rfl
  rw [hshape, if_pos ⟨h2, h⟩]

theorem parse_args_some (atoi : String → Int) (atof : String → Dbl) (argv : List String)
    (h : 0 < arg_N atoi argv) :
    parse_args atoi atof argv
      = some (arg_N atoi argv, arg_scenario argv, arg_tolerance atof argv) := by
  have hshape : parse_args atoi atof argv =
      if 2 ≤ argv.length ∧ arg_N atoi argv ≤ 0 then none
      else some (arg_N atoi argv, arg_scenario argv, arg_tolerance atof argv) := rfl
  rw [hshape, if_neg (by omega)]

theorem arg_tolerance_nonneg (atof : String → Dbl) (argv : List String) :
    Flt.lt (arg_tolerance atof argv) Dbl.zero = false := by
  have hdef : Flt.lt Dbl.tol_default Dbl.zero = false := by decide
  unfold arg_tolerance
  by_cases h : 4 ≤ argv.length
  · rw [if_pos h]
    by_cases hlt : Flt.lt (atof (argv.getD 3 "")) Dbl.zero = true
    · rw [if_pos hlt]; exact hdef
    · rw [if_neg hlt]; simpa using hlt
  · rw [if_neg h]; exact hdef

theorem verdict_zero (tol : Dbl) (h : Flt.lt tol Dbl.zero = false) :
    (verdict Dbl.zero tol).1 = 0 := by
  unfold verdict Flt.gt
  rw [if_neg (by rw [h]; simp)]

theorem fill_scenario_unknown (scenario : String) (A B : List Dbl) (N : Int)
    (h : scenario ∉ known_scenarios) : fill_scenario scenario A B N = some none := by
  unfold known_scenarios at h
  simp only [List.mem_cons, List.mem_singleton, List.not_mem_nil, or_false, not_or] at h
  unfold fill_scenario
  rw [if_neg h.1, if_neg h.2.1, if_neg h.2.2.1, if_neg h.2.2.2]

theorem fill_random_some (A B : List Dbl) (N : Nat) (hfit : N ≤ 46340) (hA : A.length = N * N)
    (hB : B.length = N * N) :
    ∃ AB, fill_random A B (N : Int) = some AB ∧ AB.1.length = N * N ∧ AB.2.length = N * N := by
  obtain ⟨st, h, -, hFA, hFB⟩ := fill_random_from_filled A B N hfit hA hB
  refine ⟨(st.2.1, st.2.2), ?_, hFA.1, hFB.1⟩
  unfold fill_random
  rw [h]
  rfl

/-- A recognised scenario fills both buffers. -/
theorem fill_scenario_known (scenario : String) (A B : List Dbl) (N : Nat) (hfit : N ≤ 46340)
    (hA : A.length = N * N) (hB : B.length = N * N) (h : scenario ∈ known_scenarios) :
    ∃ A' B', fill_scenario scenario A B (N : Int) = some (some (A', B')) ∧
      A'.length = N * N ∧ B'.length = N * N := by
  unfold known_scenarios at h
  simp only [List.mem_cons, List.mem_singleton, List.not_mem_nil, or_false] at h
  unfold fill_scenario
  rcases h with h | h | h | h
  · subst h
    obtain ⟨AB, h1, hFA, hFB⟩ := fill_increment_filled A B N hfit hA hB
    rw [if_pos rfl, h1]
    exact ⟨AB.1, AB.2, rfl, hFA.1, hFB.1⟩
  · subst h
    obtain ⟨AB, h1, hFA, hFB⟩ := fill_identity_filled A B N hfit hA hB
    rw [if_neg (by decide), if_pos rfl, h1]
    exact ⟨AB.1, AB.2, rfl, hFA.1, hFB.1⟩
  · subst h
    obtain ⟨AB, h1, hFA, hFB⟩ := fill_random_some A B N hfit hA hB
    rw [if_neg (by decide), if_neg (by decide), if_pos rfl, h1]
    exact ⟨AB.1, AB.2, rfl, hFA, hFB⟩
  · subst h
    obtain ⟨AB, h1, hFA, hFB⟩ := fill_pattern_filled A B N hfit hA hB
    rw [if_neg (by decide), if_neg (by decide), if_neg (by decide), if_pos rfl, h1]
    exact ⟨AB.1, AB.2, rfl, hFA.1, hFB.1⟩

/-! ## The candidates `matmul_broken_B` and `matmul_broken_C` -/

theorem matmul_broken_B_inner (A B : List Dbl) (N i j : Nat) (hi : i < N) (hj : j < N)
    (hN : N ≤ 46340) (hA : A.length = N * N) (hB : B.length = N * N) :
    forInt (N : Int) Dbl.zero (fun sum k => do
        let p ← idx k (N : Int) (i : Int)
        let a ← rd A p
        let q ← idx k (N : Int) (j : Int)
        let b ← rd B q
        pure (Dbl.add sum (Dbl.mul a b))) = some (dot_B A B N i j) := by
  obtain ⟨s, h1, h2⟩ := forInt_inv N (fun sum k => do
        let p ← idx k (N : Int) (i : Int)
        let a ← rd A p
        let q ← idx k (N : Int) (j : Int)
        let b ← rd B q
        pure (Dbl.add sum (Dbl.mul a b)))
    (fun k s => s = (List.range k).foldl
      (fun s k => Dbl.add s (Dbl.mul (A.getD (k * N + i) Dbl.zero) (B.getD (k * N + j) Dbl.zero)))
      Dbl.zero) Dbl.zero rfl (by
      intro k hk s hs
      refine ⟨_, ?_, rfl⟩
      dsimp only
      rw [idx_eq k i N hk (le_of_lt hi) hN, idx_eq k j N hk (le_of_lt hj) hN]
      simp only [Option.bind_eq_bind, Option.some_bind]
      rw [rd_lt A _ (by rw [hA]; exact cell_lt k i N hk hi),
        rd_lt B _ (by rw [hB]; exact cell_lt k j N hk hj)]
      simp only [Option.some_bind, Option.pure_def]
      rw [List.range_succ, List.foldl_append, hs]
      rfl)
  rw [h1, h2]
  rfl

theorem matmul_broken_B_filled (A B C : List Dbl) (N : Nat) (hN : N ≤ 46340)
    (hA : A.length = N * N) (hB : B.length = N * N) (hC : C.length = N * N) :
    ∃ C', matmul_broken_B A B C (N : Int) = some C' ∧ Filled N (dot_B A B N) (N * N) C' := by
  unfold matmul_broken_B
  apply forInt2_inv N _ (Filled N (dot_B A B N)) C (Filled.zero hC)
  intro i j hi hj s hs
  refine ⟨s.set (i * N + j) (dot_B A B N i j), ?_, hs.step i j hi hj⟩
  dsimp only
  rw [matmul_broken_B_inner A B N i j hi hj hN hA hB, idx_eq i j N hi (le_of_lt hj) hN]
  simp only [Option.bind_eq_bind, Option.some_bind]
  exact wr_lt s _ _ (by rw [hs.1]; exact cell_lt i j N hi hj)

theorem matmul_broken_B_none (A B C : List Dbl) (N : Nat) (h : 46340 < N) :
    matmul_broken_B A B C (N : Int) = none := by
  unfold matmul_broken_B
  apply forInt2_none N (by omega)
  intro s
  have hk : forInt (N : Int) Dbl.zero (fun sum k => do
        let p ← idx k (N : Int) ((N - 1 : Nat) : Int)
        let a ← rd A p
        let q ← idx k (N : Int) ((N - 1 : Nat) : Int)
        let b ← rd B q
        pure (Dbl.add sum (Dbl.mul a b))) = none := by
    apply forInt_none_of_lt N _ (N - 1) (by omega)
    intro s'
    show (idx ((N - 1 : Nat) : Int) (N : Int) ((N - 1 : Nat) : Int)).bind _ = none
    rw [idx_overflow N h]
    rfl
  show (forInt (N : Int) Dbl.zero _).bind _ = none
  rw [hk]
  rfl

/-- The candidate `matmul_broken_C` returns a buffer of the size it received. -/
theorem matmul_broken_C_some (A B C : List Dbl) (N : Nat) (hN : N ≤ 46340)
    (hA : A.length = N * N) (hB : B.length = N * N) (hC : C.length = N * N) :
    ∃ C', matmul_broken_C A B C (N : Int) = some C' ∧ C'.length = N * N := by
  unfold matmul_broken_C
  apply forInt2_inv N _ (fun _ s => s.length = N * N) C hC
  intro i j hi hj s hs
  obtain ⟨v, hv, -⟩ := forInt_inv N (fun sum_f k => do
        let p ← idx (i : Int) (N : Int) k
        let a ← rd A p
        let q ← idx k (N : Int) (j : Int)
        let b ← rd B q
        pure (binary32.add sum_f (binary32.mul (binary32.ofFlt a) (binary32.ofFlt b))))
    (fun _ _ => True) (Flt.fin false 0 0) trivial (by
      intro k hk s' _
      have hb : (idx (i : Int) (N : Int) (k : Int)).bind (fun p => (rd A p).bind fun a =>
          (idx (k : Int) (N : Int) (j : Int)).bind fun q => (rd B q).bind fun b =>
          some (binary32.add s' (binary32.mul (binary32.ofFlt a) (binary32.ofFlt b)))) =
          some (binary32.add s' (binary32.mul (binary32.ofFlt (A.getD (i * N + k) Dbl.zero))
            (binary32.ofFlt (B.getD (k * N + j) Dbl.zero)))) := by
        rw [idx_eq i k N hi (le_of_lt hk) hN, Option.some_bind,
          rd_lt A _ (by rw [hA]; exact cell_lt i k N hi hk), Option.some_bind,
          idx_eq k j N hk (le_of_lt hj) hN, Option.some_bind,
          rd_lt B _ (by rw [hB]; exact cell_lt k j N hk hj), Option.some_bind]
      exact ⟨_, hb, trivial⟩)
  refine ⟨s.set (i * N + j) (binary64.ofFlt v), ?_, by rw [List.length_set]; exact hs⟩
  show (forInt (N : Int) (Flt.fin false 0 0) _).bind (fun sum_f =>
    (idx (i : Int) (N : Int) (j : Int)).bind fun p => wr s p (binary64.ofFlt sum_f)) = _
  rw [hv, Option.some_bind, idx_eq i j N hi (le_of_lt hj) hN, Option.some_bind]
  exact wr_lt s _ _ (by rw [hs]; exact cell_lt i j N hi hj)

theorem dot_B_symmetric (A B : List Dbl) (N i j : Nat) (hi : i < N)
    (hsym : ∀ i k, i < N → k < N → A[i * N + k]? = A[k * N + i]?) :
    dot_B A B N i j = dot A B N i j := by
  unfold dot_B dot
  apply foldl_range_congr
  intro k hk s
  rw [List.getD_eq_getElem?_getD, List.getD_eq_getElem?_getD A, hsym i k hi hk]

theorem heap_blocks (heap : Nat → Option (Nat → Dbl))
    (hheap : ∀ k, k < 4 → (heap k).isSome = true) :
    ∃ g0 g1 g2 g3, heap 0 = some g0 ∧ heap 1 = some g1 ∧ heap 2 = some g2 ∧ heap 3 = some g3 := by
  obtain ⟨g0, h0⟩ := Option.isSome_iff_exists.mp (hheap 0 (by decide))
  obtain ⟨g1, h1⟩ := Option.isSome_iff_exists.mp (hheap 1 (by decide))
  obtain ⟨g2, h2⟩ := Option.isSome_iff_exists.mp (hheap 2 (by decide))
  obtain ⟨g3, h3⟩ := Option.isSome_iff_exists.mp (hheap 3 (by decide))
  exact ⟨g0, g1, g2, g3, h0, h1, h2, h3⟩

theorem identity_filled_finite (N : Nat) (C : List Dbl) (h : Filled N identity_cell (N * N) C) :
    ∀ x, x ∈ C → x.isFinite = true := by
  intro x hx
  obtain ⟨q, hq, rfl⟩ := List.getElem_of_mem hx
  have h1 := h.2 q (by rw [← h.1]; exact hq)
  rw [List.getElem?_eq_getElem hq] at h1
  have h2 : C[q] = identity_cell (q / N) (q % N) := Option.some.inj h1
  rw [h2]
  unfold identity_cell
  split <;> decide

/-- C17 (counterexample): for `N = 46341` the index computed by `matmul_broken_B`
exceeds `INT_MAX`; the call has no defined result to compare with the reference. -/
theorem matmul_broken_B_undefined_at_46341 :
    matmul_broken_B (List.replicate (46341 * 46341) Dbl.zero)
      (List.replicate (46341 * 46341) Dbl.zero) (List.replicate (46341 * 46341) Dbl.zero) 46341
      = none :=
  matmul_broken_B_none _ _ _ 46341 (by decide)

/-- C17 (amended): for `1 <= N <= 46340`, every `B` and every symmetric `A`,
`matmul_broken_B` returns exactly the output of `matmul_ref`; and the harness linked
with `matmul_broken_B` reports `max_abs_diff = 0`, `sum_abs_diff = 0` and exit code `0`
on the `identity` scenario, whatever the tolerance argument. -/
theorem broken_B_matches_ref_on_symmetric (N : Nat) (hN : 1 ≤ N) (hfit : N ≤ 46340)
    (A B C : List Dbl) (hA : A.length = N * N) (hB : B.length = N * N) (hC : C.length = N * N)
    (hsym : ∀ i k, i < N → k < N → A[i * N + k]? = A[k * N + i]?)
    (atoi : String → Int) (atof : String → Dbl) (heap : Nat → Option (Nat → Dbl))
    (argv : List String) (hargN : arg_N atoi argv = (N : Int))
    (hscen : arg_scenario argv = "identity") (hheap : ∀ k, k < 4 → (heap k).isSome = true) :
    (∃ C', matmul_broken_B A B C (N : Int) = some C' ∧ matmul_ref A B C (N : Int) = some C') ∧
    ∃ r, main matmul_broken_B atoi atof heap argv = some r ∧
      r.diff = some (Dbl.zero, Dbl.zero) ∧ r.exit_code = 0 := by
  constructor
  · obtain ⟨C1, h1, hF1⟩ := matmul_broken_B_filled A B C N hfit hA hB hC
    obtain ⟨C2, h2, hF2⟩ := matmul_ref_filled A B C N hfit hA hB hC
    have hF1' : Filled N (dot A B N) (N * N) C1 :=
      hF1.congr (le_refl _) (fun i j hi _ => dot_B_symmetric A B N i j hi hsym)
    rw [hF2.eq hF1'] at h2
    exact ⟨C1, h1, h2⟩
  · obtain ⟨g0, g1, g2, g3, h0, h1, h2, h3⟩ := heap_blocks heap hheap
    have hp : parse_args atoi atof argv = some ((N : Int), "identity", arg_tolerance atof argv) := by
      rw [parse_args_some atoi atof argv (by rw [hargN]; omega), hargN, hscen]
    obtain ⟨AB, hfill, hFA, hFB⟩ := fill_identity_filled ((List.range (N * N)).map g0)
      ((List.range (N * N)).map g1) N hfit (by simp) (by simp)
    have hf : fill_scenario "identity" ((List.range (N * N)).map g0)
        ((List.range (N * N)).map g1) (N : Int) = some (some (AB.1, AB.2)) := by
      rw [fill_scenario_identity, hfill]
      rfl
    have hsymI : ∀ i k, i < N → k < N → AB.1[i * N + k]? = AB.1[k * N + i]? := by
      intro i k hi hk
      rw [hFA.cell i k hi hk, hFA.cell k i hk hi]
      unfold identity_cell
      by_cases hik : i = k
      · rw [if_pos hik, if_pos hik.symm]
      · rw [if_neg hik, if_neg (fun h => hik h.symm)]
    obtain ⟨Ct, hb, hFt⟩ := matmul_broken_B_filled AB.1 AB.2 (List.replicate (N * N) Dbl.zero) N
      hfit hFA.1 hFB.1 (List.length_replicate _ _)
    obtain ⟨Cr', hr', hrF⟩ := matmul_ref_identity AB.1 AB.2 (List.replicate (N * N) Dbl.zero) N
      hfit hFA hFB (List.length_replicate _ _)
    obtain ⟨Cr2, hr2, hF2⟩ := matmul_ref_filled AB.1 AB.2 (List.replicate (N * N) Dbl.zero) N
      hfit hFA.1 hFB.1 (List.length_replicate _ _)
    have hFt' : Filled N (dot AB.1 AB.2 N) (N * N) Ct :=
      hFt.congr (le_refl _) (fun i j hi _ => dot_B_symmetric AB.1 AB.2 N i j hi hsymI)
    have e1 : Ct = Cr2 := hFt'.eq hF2
    have e2 : Cr2 = Cr' := by
      rw [hr2] at hr'
      exact Option.some.inj hr'
    obtain ⟨Cr, ms, rows, hr, hms, -, hmain⟩ := main_completes matmul_broken_B atoi atof heap
      argv N "identity" _ hfit hp g0 g1 g2 g3 h0 h1 h2 h3 AB.1 AB.2 hf hFA.1 hFB.1 Ct hb hFt.1
    rw [hr2] at hr
    cases hr
    have hcmp := compare_self Cr2 (N * N) hF2.1 (identity_filled_finite N Cr2 (e2 ▸ hrF))
    rw [e1, hcmp] at hms
    cases hms
    exact ⟨_, hmain, rfl, verdict_zero _ (arg_tolerance_nonneg atof argv)⟩

/-- C17 (witness): the amended statement at `N = 2` with a symmetric `A`. -/
theorem broken_B_matches_ref_on_symmetric_witness :
    (∃ C', matmul_broken_B [Dbl.one, Dbl.three, Dbl.three, Dbl.four]
        [Dbl.zero, Dbl.one, Dbl.four, Dbl.zero] [Flt.nan, Flt.nan, Flt.nan, Flt.nan]
        ((2 : Nat) : Int) = some C' ∧
      matmul_ref [Dbl.one, Dbl.three, Dbl.three, Dbl.four]
        [Dbl.zero, Dbl.one, Dbl.four, Dbl.zero] [Flt.nan, Flt.nan, Flt.nan, Flt.nan]
        ((2 : Nat) : Int) = some C') ∧
    ∃ r, main matmul_broken_B (fun _ => 2) (fun _ => Dbl.zero) heap_nan
        ["test_run_B", "2", "identity"] = some r ∧
      r.diff = some (Dbl.zero, Dbl.zero) ∧ r.exit_code = 0 :=
  broken_B_matches_ref_on_symmetric 2 (by decide) (by decide)
    [Dbl.one, Dbl.three, Dbl.three, Dbl.four] [Dbl.zero, Dbl.one, Dbl.four, Dbl.zero]
    [Flt.nan, Flt.nan, Flt.nan, Flt.nan] rfl rfl rfl
    (by intro i k hi hk; interval_cases i <;> interval_cases k <;> rfl)
    (fun _ => 2) (fun _ => Dbl.zero) heap_nan ["test_run_B", "2", "identity"] rfl rfl (by decide)

/-! ## The reference kernel on the `pattern` scenario -/

theorem pattern_dot (i j n : Nat) (hi : i < 46340) (hj : j < 46340) (hn : n ≤ 46340) :
    (List.range n).foldl
      (fun s _ => Dbl.add s (Dbl.mul (Dbl.ofInt ((i + 1 : Nat) : Int))
        (Dbl.ofInt ((j + 2 : Nat) : Int)))) Dbl.zero
      = Dbl.ofInt ((n * ((i + 1) * (j + 2)) : Nat) : Int) := by
  have hc : (i + 1) * (j + 2) ≤ 46340 * 46341 := Nat.mul_le_mul (by omega) (by omega)
  induction n with
  | zero =>
    rw [Nat.zero_mul]
    rfl
  | succ n ih =>
    have hb : n * ((i + 1) * (j + 2)) ≤ 46340 * (46340 * 46341) :=
      Nat.mul_le_mul (by omega) hc
    rw [List.range_succ, List.foldl_append, ih (by omega)]
    simp only [List.foldl_cons, List.foldl_nil]
    rw [Dbl_mul_nat (i + 1) (j + 2) (by omega) (by omega),
      Dbl_add_nat _ _ (by omega) (by omega)]
    congr 2
    exact (Nat.succ_mul _ _).symm

/-- C18 (counterexample): for `N = 46341` the `pattern` scenario followed by the
reference kernel has no defined result (index beyond `INT_MAX`), although every value
`N * (i+1) * (j+2)` would still be an exact double. -/
theorem pattern_ref_undefined_at_46341 :
    ((fill_pattern (List.replicate (46341 * 46341) Dbl.zero)
        (List.replicate (46341 * 46341) Dbl.zero) 46341).bind fun AB =>
      matmul_ref AB.1 AB.2 (List.replicate (46341 * 46341) Dbl.zero) 46341) = none ∧
    (46341 * ((46340 + 1) * (46340 + 2)) : Nat) < 2 ^ 53 := by
  refine ⟨?_, by decide⟩
  rw [show (46341 : Int) = ((46341 : Nat) : Int) from rfl,
    fill_pattern_none _ _ 46341 (by decide)]
  rfl

/-- C18 (amended): for `N <= 46340` and `i, j < N`, on the `pattern` scenario
`matmul_ref` produces `C_ref[i*N+j] = N * (i+1) * (j+2)`, an exact double. -/
theorem pattern_ref_cells (N : Nat) (hfit : N ≤ 46340) (A0 B0 C0 : List Dbl)
    (hA : A0.length = N * N) (hB : B0.length = N * N) (hC : C0.length = N * N) :
    ∃ A B C, fill_pattern A0 B0 (N : Int) = some (A, B) ∧
      matmul_ref A B C0 (N : Int) = some C ∧
      ∀ i j, i < N → j < N →
        C[i * N + j]? = some (Dbl.ofInt ((N * ((i + 1) * (j + 2)) : Nat) : Int)) ∧
        (Dbl.ofInt ((N * ((i + 1) * (j + 2)) : Nat) : Int)).toInt?
          = some ((N * ((i + 1) * (j + 2)) : Nat) : Int) := by
  obtain ⟨AB, h1, hFA, hFB⟩ := fill_pattern_filled A0 B0 N hfit hA hB
  obtain ⟨C, h2, hFC⟩ := matmul_ref_filled AB.1 AB.2 C0 N hfit hFA.1 hFB.1 hC
  refine ⟨AB.1, AB.2, C, h1, h2, fun i j hi hj => ⟨?_, ?_⟩⟩
  · rw [hFC.cell i j hi hj, dot_of_filled AB.1 AB.2 N i j _ _ hi hj hFA hFB,
      pattern_dot i j N (by omega) (by omega) hfit]
  · have hc : (i + 1) * (j + 2) ≤ 46340 * 46341 := Nat.mul_le_mul (by omega) (by omega)
    have hb : N * ((i + 1) * (j + 2)) ≤ 46340 * (46340 * 46341) := Nat.mul_le_mul hfit hc
    exact toInt_ofInt _ (by omega)

/-- C18 (witness): the amended statement at `N = 3`. -/
theorem pattern_ref_cells_witness :
    ∃ A B C, fill_pattern (List.replicate 9 Flt.nan) (List.replicate 9 Flt.nan)
        ((3 : Nat) : Int) = some (A, B) ∧
      matmul_ref A B (List.replicate 9 Flt.nan) ((3 : Nat) : Int) = some C ∧
      ∀ i j, i < 3 → j < 3 →
        C[i * 3 + j]? = some (Dbl.ofInt ((3 * ((i + 1) * (j + 2)) : Nat) : Int)) ∧
        (Dbl.ofInt ((3 * ((i + 1) * (j + 2)) : Nat) : Int)).toInt?
          = some ((3 * ((i + 1) * (j + 2)) : Nat) : Int) :=
  pattern_ref_cells 3 (by decide) _ _ _ rfl rfl rfl

/-! ## The range of the values of `fill_random` -/

set_option maxRecDepth 100000 in
theorem draw_A_bound : ∀ r : Nat, r < 97 →
    Flt.le (Flt.abs (Dbl.div (Dbl.ofInt ((r : Int) - 48)) Dbl.three)) (Dbl.ofInt 16) = true := by
  decide

set_option maxRecDepth 100000 in
theorem draw_B_bound : ∀ r : Nat, r < 61 →
    Flt.le (Flt.abs (Dbl.div (Dbl.ofInt ((r : Int) - 30)) Dbl.four))
      (Dbl.div (Dbl.ofInt 15) (Dbl.ofInt 2)) = true := by
  decide

/-- C20 (counterexample): for `N = 46341` the loop of `fill_random` computes the index
`i * N + j` beyond `INT_MAX` in the last row; no `A` and `B` are produced. -/
theorem fill_random_from_undefined_at_46341 :
    fill_random_from 123456789 (List.replicate (46341 * 46341) Flt.nan)
      (List.replicate (46341 * 46341) Flt.nan) 46341 = none :=
  fill_random_from_none _ _ _ 46341 (by decide)

/-- C20 (amended): for `N <= 46340` and every cell, the integer `fill_random` reduces
modulo 97 or 61 is `(int)(seed >> 16)` with `seed` unsigned, which lies in `0..65535`;
every element of `A` is `k / 3.0` for an integer `-48 <= k <= 48` and satisfies
`|A[p]| <= 16`, every element of `B` is `k / 4.0` for an integer `-30 <= k <= 30` and
satisfies `|B[p]| <= 7.5`. -/
theorem fill_random_ranges (N : Nat) (hfit : N ≤ 46340) (A0 B0 : List Dbl)
    (hA : A0.length = N * N) (hB : B0.length = N * N) :
    ∃ A B, fill_random A0 B0 (N : Int) = some (A, B) ∧
      ∀ i j, i < N → j < N →
        (0 ≤ int_of_unsigned (lcg_state (2 * (i * N + j) + 1) >>> 16) ∧
          int_of_unsigned (lcg_state (2 * (i * N + j) + 1) >>> 16) ≤ 65535) ∧
        (0 ≤ int_of_unsigned (lcg_state (2 * (i * N + j) + 2) >>> 16) ∧
          int_of_unsigned (lcg_state (2 * (i * N + j) + 2) >>> 16) ≤ 65535) ∧
        (∃ k : Int, -48 ≤ k ∧ k ≤ 48 ∧
          k = Int.tmod (int_of_unsigned (lcg_state (2 * (i * N + j) + 1) >>> 16)) 97 - 48 ∧
          A[i * N + j]? = some (Dbl.div (Dbl.ofInt k) Dbl.three) ∧
          Flt.le (Flt.abs (Dbl.div (Dbl.ofInt k) Dbl.three)) (Dbl.ofInt 16) = true) ∧
        (∃ k : Int, -30 ≤ k ∧ k ≤ 30 ∧
          k = Int.tmod (int_of_unsigned (lcg_state (2 * (i * N + j) + 2) >>> 16)) 61 - 30 ∧
          B[i * N + j]? = some (Dbl.div (Dbl.ofInt k) Dbl.four) ∧
          Flt.le (Flt.abs (Dbl.div (Dbl.ofInt k) Dbl.four))
            (Dbl.div (Dbl.ofInt 15) (Dbl.ofInt 2)) = true) := by
  obtain ⟨st, h, -, hFA, hFB⟩ := fill_random_from_filled A0 B0 N hfit hA hB
  refine ⟨st.2.1, st.2.2, ?_, fun i j hi hj => ?_⟩
  · unfold fill_random
    rw [h]
    rfl
  · have hsA := lcg_state_lt (2 * (i * N + j) + 1)
    have hsB := lcg_state_lt (2 * (i * N + j) + 2)
    have uA := draw_unsigned _ hsA
    have uB := draw_unsigned _ hsB
    have qA : lcg_state (2 * (i * N + j) + 1) / 65536 ≤ 65535 := by omega
    have qB : lcg_state (2 * (i * N + j) + 2) / 65536 ≤ 65535 := by omega
    have rA : (lcg_state (2 * (i * N + j) + 1) / 65536) % 97 < 97 := Nat.mod_lt _ (by norm_num)
    have rB : (lcg_state (2 * (i * N + j) + 2) / 65536) % 61 < 61 := Nat.mod_lt _ (by norm_num)
    have mA : Int.tmod ((lcg_state (2 * (i * N + j) + 1) / 65536 : Nat) : Int) 97
        = (((lcg_state (2 * (i * N + j) + 1) / 65536) % 97 : Nat) : Int) := by
      rw [Int.tmod_eq_emod (by omega) (by omega)]
      rfl
    have mB : Int.tmod ((lcg_state (2 * (i * N + j) + 2) / 65536 : Nat) : Int) 61
        = (((lcg_state (2 * (i * N + j) + 2) / 65536) % 61 : Nat) : Int) := by
      rw [Int.tmod_eq_emod (by omega) (by omega)]
      rfl
    rw [uA, uB, mA, mB]
    refine ⟨⟨by omega, by omega⟩, ⟨by omega, by omega⟩, ?_, ?_⟩
    · exact ⟨_, by omega, by omega, rfl, hFA.cell i j hi hj, draw_A_bound _ rA⟩
    · exact ⟨_, by omega, by omega, rfl, hFB.cell i j hi hj, draw_B_bound _ rB⟩

/-- C20 (witness): the amended statement at `N = 2`. -/
theorem fill_random_ranges_witness :
    ∃ A B, fill_random [Flt.nan, Flt.nan, Flt.nan, Flt.nan] [Flt.nan, Flt.nan, Flt.nan, Flt.nan]
        ((2 : Nat) : Int) = some (A, B) ∧
      ∀ i j, i < 2 → j < 2 →
        (0 ≤ int_of_unsigned (lcg_state (2 * (i * 2 + j) + 1) >>> 16) ∧
          int_of_unsigned (lcg_state (2 * (i * 2 + j) + 1) >>> 16) ≤ 65535) ∧
        (0 ≤ int_of_unsigned (lcg_state (2 * (i * 2 + j) + 2) >>> 16) ∧
          int_of_unsigned (lcg_state (2 * (i * 2 + j) + 2) >>> 16) ≤ 65535) ∧
        (∃ k : Int, -48 ≤ k ∧ k ≤ 48 ∧
          k = Int.tmod (int_of_unsigned (lcg_state (2 * (i * 2 + j) + 1) >>> 16)) 97 - 48 ∧
          A[i * 2 + j]? = some (Dbl.div (Dbl.ofInt k) Dbl.three) ∧
          Flt.le (Flt.abs (Dbl.div (Dbl.ofInt k) Dbl.three)) (Dbl.ofInt 16) = true) ∧
        (∃ k : Int, -30 ≤ k ∧ k ≤ 30 ∧
          k = Int.tmod (int_of_unsigned (lcg_state (2 * (i * 2 + j) + 2) >>> 16)) 61 - 30 ∧
          B[i * 2 + j]? = some (Dbl.div (Dbl.ofInt k) Dbl.four) ∧
          Flt.le (Flt.abs (Dbl.div (Dbl.ofInt k) Dbl.four))
            (Dbl.div (Dbl.ofInt 15) (Dbl.ofInt 2)) = true) :=
  fill_random_ranges 2 (by decide) _ _ rfl rfl

/-! ## The exit codes of `main` -/

theorem verdict_code (m tol : Dbl) : (verdict m tol).1 = 0 ∨ (verdict m tol).1 = 2 := by
  unfold verdict
  split
  · exact Or.inr rfl
  · exact Or.inl rfl

/-- Each of the three candidates returns a buffer of the size it received. -/
theorem candidate_some (impl : Kernel)
    (himpl : impl = matmul_broken_A ∨ impl = matmul_broken_B ∨ impl = matmul_broken_C)
    (A B C : List Dbl) (N : Nat) (hN : N ≤ 46340) (hA : A.length = N * N)
    (hB : B.length = N * N) (hC : C.length = N * N) :
    ∃ C', impl A B C (N : Int) = some C' ∧ C'.length = N * N := by
  rcases himpl with h | h | h
  · subst h
    exact ⟨C, matmul_broken_A_unchanged A B C N hN hA hB, hC⟩
  · subst h
    obtain ⟨C', h1, h2⟩ := matmul_broken_B_filled A B C N hN hA hB hC
    exact ⟨C', h1, h2.1⟩
  · subst h
    exact matmul_broken_C_some A B C N hN hA hB hC

/-- C11 (counterexample): with `N = 46341`, the recognised scenario `pattern` and a
successful allocation, the run has no defined exit code at all (the scenario computes
an index beyond `INT_MAX`), so it is not `0` or `2`. -/
theorem main_undefined_at_46341 :
    main matmul_broken_B (fun _ => 46341) (fun _ => Dbl.zero)
      (fun _ => some (fun _ => Dbl.zero)) ["test_run_B", "46341", "pattern"] = none := by
  have hp : parse_args (fun _ => 46341) (fun _ => Dbl.zero) ["test_run_B", "46341", "pattern"]
      = some (46341, "pattern", Dbl.tol_default) := by decide
  have hf : ∀ A B : List Dbl, fill_scenario "pattern" A B 46341 = none := by
    intro A B
    unfold fill_scenario
    rw [if_neg (by decide), if_neg (by decide), if_neg (by decide), if_pos rfl,
      show (46341 : Int) = ((46341 : Nat) : Int) from rfl, fill_pattern_none _ _ 46341 (by decide)]
    rfl
  unfold main
  rw [hp]
  dsimp only
  rw [malloc_doubles_some _ 0 _ (fun _ => Dbl.zero) rfl,
    malloc_doubles_some _ 1 _ (fun _ => Dbl.zero) rfl,
    malloc_doubles_some _ 2 _ (fun _ => Dbl.zero) rfl,
    malloc_doubles_some _ 3 _ (fun _ => Dbl.zero) rfl]
  dsimp only
  rw [hf]
  rfl

/-- C11 (amended): for every invocation of the harness (linked with any of the three
candidates) in which allocation succeeds and, when the scenario is recognised, the
parsed `N` is at most `46340`: the exit code is `1` exactly when the parsed `N` is
`<= 0` or the scenario name is not one of `increment`, `identity`, `random`,
`pattern`; in both error cases no kernel is called and no comparison is made; in every
other case both kernels are called and the exit code is `0` or `2`. -/
theorem main_exit_codes (impl : Kernel)
    (himpl : impl = matmul_broken_A ∨ impl = matmul_broken_B ∨ impl = matmul_broken_C)
    (atoi : String → Int) (atof : String → Dbl) (heap : Nat → Option (Nat → Dbl))
    (argv : List String) (hheap : ∀ k, k < 4 → (heap k).isSome = true)
    (hfit : arg_scenario argv ∈ known_scenarios → arg_N atoi argv ≤ 46340) :
    ∃ r, main impl atoi atof heap argv = some r ∧
      (r.exit_code = 1 ↔ arg_N atoi argv ≤ 0 ∨ arg_scenario argv ∉ known_scenarios) ∧
      (r.exit_code = 1 →
        Event.call_test ∉ r.trace ∧ Event.call_ref ∉ r.trace ∧ r.diff = none) ∧
      (r.exit_code ≠ 1 → (r.exit_code = 0 ∨ r.exit_code = 2) ∧
        Event.call_test ∈ r.trace ∧ Event.call_ref ∈ r.trace ∧ r.diff ≠ none) := by
  obtain ⟨g0, g1, g2, g3, h0, h1, h2, h3⟩ := heap_blocks heap hheap
  by_cases hN : arg_N atoi argv ≤ 0
  · refine ⟨⟨1, [Event.usage (argv.getD 0 "")], Dbl.tol_default, none⟩, ?_, ?_, ?_, ?_⟩
    · unfold main
      rw [parse_args_usage atoi atof argv hN]
    · exact ⟨fun _ => Or.inl hN, fun _ => rfl⟩
    · intro _
      exact ⟨by simp, by simp, rfl⟩
    · intro h
      exact absurd rfl h
  · have hpos : 0 < arg_N atoi argv := by omega
    have hp := parse_args_some atoi atof argv hpos
    by_cases hk : arg_scenario argv ∈ known_scenarios
    · have hle := hfit hk
      obtain ⟨n, hn⟩ : ∃ n : Nat, arg_N atoi argv = (n : Int) :=
        ⟨(arg_N atoi argv).toNat, (Int.toNat_of_nonneg (le_of_lt hpos)).symm⟩
      rw [hn] at hp hle hN
      have hn' : n ≤ 46340 := by omega
      obtain ⟨A, B, hf, hA, hB⟩ := fill_scenario_known (arg_scenario argv)
        ((List.range (n * n)).map g0) ((List.range (n * n)).map g1) n hn' (by simp) (by simp) hk
      obtain ⟨Ct, hCt, hlen⟩ := candidate_some impl himpl A B (List.replicate (n * n) Dbl.zero)
        n hn' hA hB (List.length_replicate _ _)
      obtain ⟨Cr, ms, rows, -, -, -, hmain⟩ := main_completes impl atoi atof heap argv n
        (arg_scenario argv) _ hn' hp g0 g1 g2 g3 h0 h1 h2 h3 A B hf hA hB Ct hCt hlen
      have hcode := verdict_code ms.1 (arg_tolerance atof argv)
      have hne : (verdict ms.1 (arg_tolerance atof argv)).1 ≠ 1 := by
        rcases hcode with h | h <;> rw [h] <;> decide
      refine ⟨_, hmain, ?_, ?_, ?_⟩
      · constructor
        · intro h
          exact absurd h hne
        · intro h
          rcases h with h | h
          · rw [hn] at h
            exact absurd h hN
          · exact absurd hk h
      · intro h
        exact absurd h hne
      · intro _
        exact ⟨hcode, by simp, by simp, by simp⟩
    · refine ⟨⟨1, [Event.unknown_scenario (arg_scenario argv)], arg_tolerance atof argv, none⟩,
        ?_, ?_, ?_, ?_⟩
      · unfold main
        rw [hp]
        dsimp only
        rw [malloc_doubles_some heap 0 _ g0 h0, malloc_doubles_some heap 1 _ g1 h1,
          malloc_doubles_some heap 2 _ g2 h2, malloc_doubles_some heap 3 _ g3 h3]
        dsimp only
        rw [fill_scenario_unknown _ _ _ _ hk]
        rfl
      · exact ⟨fun _ => Or.inr hk, fun _ => rfl⟩
      · intro _
        exact ⟨by simp, by simp, rfl⟩
      · intro h
        exact absurd rfl h

/-- C11 (witness): the amended statement on an unknown scenario name. -/
theorem main_exit_codes_witness :
    ∃ r, main matmul_broken_A (fun _ => 3) (fun _ => Dbl.zero) heap_nan
        ["test_run_A", "3", "diagonal"] = some r ∧
      (r.exit_code = 1 ↔ arg_N (fun _ => 3) ["test_run_A", "3", "diagonal"] ≤ 0 ∨
        arg_scenario ["test_run_A", "3", "diagonal"] ∉ known_scenarios) ∧
      (r.exit_code = 1 →
        Event.call_test ∉ r.trace ∧ Event.call_ref ∉ r.trace ∧ r.diff = none) ∧
      (r.exit_code ≠ 1 → (r.exit_code = 0 ∨ r.exit_code = 2) ∧
        Event.call_test ∈ r.trace ∧ Event.call_ref ∈ r.trace ∧ r.diff ≠ none) :=
  main_exit_codes matmul_broken_A (Or.inl rfl) (fun _ => 3) (fun _ => Dbl.zero) heap_nan
    ["test_run_A", "3", "diagonal"] (by decide) (by decide)

/-! ## The sample table -/

theorem sample_row_eq (Cr Ct : List Dbl) (N i : Nat) (hi : i < N) (hfit : N ≤ 46340)
    (hr : Cr.length = N * N) (ht : Ct.length = N * N) :
    sample_row Cr Ct (N : Int) (i : Int) = some (table_row Cr Ct N i) := by
  unfold sample_row
  obtain ⟨s, h1, h2⟩ := forInt_inv N (fun out j => do
      let p ← idx (i : Int) (N : Int) j
      let r ← rd Cr p
      let t ← rd Ct p
      pure (out ++ [Event.entry (i : Int) j r t]))
    (fun n out => out = (List.range n).map fun (j : Nat) =>
      Event.entry (i : Int) (j : Int) (Cr.getD (i * N + j) Dbl.zero)
        (Ct.getD (i * N + j) Dbl.zero)) [] rfl (by
      intro j hj s hs
      have hb : (idx (i : Int) (N : Int) (j : Int)).bind (fun p => (rd Cr p).bind fun r =>
          (rd Ct p).bind fun t => some (s ++ [Event.entry (i : Int) (j : Int) r t])) =
          some (s ++ [Event.entry (i : Int) (j : Int) (Cr.getD (i * N + j) Dbl.zero)
            (Ct.getD (i * N + j) Dbl.zero)]) := by
        rw [idx_eq i j N hi (le_of_lt hj) hfit, Option.some_bind,
          rd_lt Cr _ (by rw [hr]; exact cell_lt i j N hi hj), Option.some_bind,
          rd_lt Ct _ (by rw [ht]; exact cell_lt i j N hi hj), Option.some_bind]
      refine ⟨_, hb, ?_⟩
      show _ = List.map _ (List.range (j + 1))
      rw [hs, List.range_succ, List.map_append]
      rfl)
  rw [h1, h2]
  rfl

theorem sample_rows_small (Cr Ct : List Dbl) (N : Nat) (hN : N ≤ 6) (hfit : N ≤ 46340)
    (hr : Cr.length = N * N) (ht : Ct.length = N * N) (len a : Nat) (ha : a + len = N) :
    sample_rows Cr Ct (N : Int) (List.range' a len)
      = some (((List.range' a len).map (table_row Cr Ct N)).flatten) := by
  induction len generalizing a with
  | zero => rfl
  | succ len ih =>
    have hcond : ¬ (5 ≤ (a : Int) ∧ 6 < (N : Int)) := by omega
    rw [List.range'_succ]
    unfold sample_rows
    rw [sample_row_eq Cr Ct N a (by omega) hfit hr ht]
    simp only [Option.bind_eq_bind, Option.some_bind]
    rw [if_neg hcond, ih (a + 1) (by omega)]
    rfl

theorem sample_rows_large (Cr Ct : List Dbl) (N : Nat) (hN : 6 < N) (hfit : N ≤ 46340)
    (hr : Cr.length = N * N) (ht : Ct.length = N * N) (len a : Nat) (ha : a + len = N)
    (ha5 : a ≤ 5) :
    sample_rows Cr Ct (N : Int) (List.range' a len)
      = some (((List.range' a (6 - a)).map (table_row Cr Ct N)).flatten ++ [Event.truncated]) := by
  induction len generalizing a with
  | zero => omega
  | succ len ih =>
    rw [List.range'_succ]
    unfold sample_rows
    rw [sample_row_eq Cr Ct N a (by omega) hfit hr ht]
    simp only [Option.bind_eq_bind, Option.some_bind]
    by_cases h5 : a = 5
    · subst h5
      rw [if_pos (by omega)]
      simp [List.range']
    · have hcond : ¬ (5 ≤ (a : Int) ∧ 6 < (N : Int)) := by omega
      rw [if_neg hcond, ih (a + 1) (by omega) (by omega)]
      have e : 6 - a = (6 - (a + 1)) + 1 := by omega
      rw [e, List.range'_succ]
      simp

/-- The sample-table loop of `main` prints `sample_table`. -/
theorem sample_rows_eq (Cr Ct : List Dbl) (N : Nat) (hfit : N ≤ 46340)
    (hr : Cr.length = N * N) (ht : Ct.length = N * N) :
    sample_rows Cr Ct (N : Int) (List.range N) = some (sample_table Cr Ct N) := by
  unfold sample_table
  rw [List.range_eq_range']
  by_cases hN : 6 < N
  · rw [if_pos hN, sample_rows_large Cr Ct N hN hfit hr ht N 0 (by omega) (by omega)]
    rw [List.range_eq_range']
  · rw [if_neg hN, sample_rows_small Cr Ct N (by omega) hfit hr ht N 0 (by omega)]

theorem table_row_length (Cr Ct : List Dbl) (N i : Nat) : (table_row Cr Ct N i).length = N := by
  unfold table_row
  rw [List.length_map, List.length_range]

theorem join_rows_length (Cr Ct : List Dbl) (N n : Nat) :
    (((List.range n).map (table_row Cr Ct N)).flatten).length = n * N := by
  induction n with
  | zero => simp
  | succ n ih =>
    rw [List.range_succ, List.map_append, List.flatten_append, List.length_append, ih]
    simp [table_row_length, Nat.succ_mul]

theorem truncated_not_in_rows (Cr Ct : List Dbl) (N n : Nat) :
    Event.truncated ∉ ((List.range n).map (table_row Cr Ct N)).flatten := by
  intro h
  rw [List.mem_flatten] at h
  obtain ⟨l, hl, hm⟩ := h
  rw [List.mem_map] at hl
  obtain ⟨i, -, rfl⟩ := hl
  unfold table_row at hm
  rw [List.mem_map] at hm
  obtain ⟨j, -, hj⟩ := hm
  cases hj

/-- C15 (counterexample): with `N = 46341` and the default scenario the run has no
defined result, hence neither a sample table nor an exit code. -/
theorem main_table_undefined_at_46341 :
    main matmul_broken_C (fun _ => 46341) (fun _ => Dbl.zero)
      (fun _ => some (fun _ => Dbl.zero)) ["test_run_C", "46341"] = none := by
  have hp : parse_args (fun _ => 46341) (fun _ => Dbl.zero) ["test_run_C", "46341"]
      = some (46341, "increment", Dbl.tol_default) := by decide
  have hf : ∀ A B : List Dbl, fill_scenario "increment" A B 46341 = none := by
    intro A B
    unfold fill_scenario
    rw [if_pos rfl, show (46341 : Int) = ((46341 : Nat) : Int) from rfl,
      fill_increment_none _ _ 46341 (by decide)]
    rfl
  unfold main
  rw [hp]
  dsimp only
  rw [malloc_doubles_some _ 0 _ (fun _ => Dbl.zero) rfl,
    malloc_doubles_some _ 1 _ (fun _ => Dbl.zero) rfl,
    malloc_doubles_some _ 2 _ (fun _ => Dbl.zero) rfl,
    malloc_doubles_some _ 3 _ (fun _ => Dbl.zero) rfl]
  dsimp only
  rw [hf]
  rfl

/-- C15 (amended): for `1 <= N <= 46340`, a recognised scenario and any of the three
candidates, the run prints, after the header lines, the sample table of `C_ref` and
`C_test`: every column of rows `0..N-1` when `N <= 6` (`N * N` entries, no truncation
line), every column of exactly rows `0..5` followed by one truncation line when `N > 6`
(`6 * N` entries); the exit code is the verdict on `max_abs_diff` of the comparison over
all `N * N` cells. -/
theorem main_sample_table (impl : Kernel)
    (himpl : impl = matmul_broken_A ∨ impl = matmul_broken_B ∨ impl = matmul_broken_C)
    (atoi : String → Int) (atof : String → Dbl) (heap : Nat → Option (Nat → Dbl))
    (argv : List String) (N : Nat) (hN : 1 ≤ N) (hfit : N ≤ 46340)
    (hargN : arg_N atoi argv = (N : Int)) (hk : arg_scenario argv ∈ known_scenarios)
    (hheap : ∀ k, k < 4 → (heap k).isSome = true) :
    ∃ r A B Cr Ct ms, main impl atoi atof heap argv = some r ∧
      impl A B (List.replicate (N * N) Dbl.zero) (N : Int) = some Ct ∧
      matmul_ref A B (List.replicate (N * N) Dbl.zero) (N : Int) = some Cr ∧
      compare Cr Ct (N * N) = some ms ∧
      r.trace = [Event.call_test, Event.call_ref, Event.header (N : Int) (arg_scenario argv),
          Event.max_diff ms.1, Event.sum_diff ms.2, Event.sample_header]
        ++ sample_table Cr Ct N ++ [(verdict ms.1 (arg_tolerance atof argv)).2] ∧
      r.exit_code = (verdict ms.1 (arg_tolerance atof argv)).1 ∧
      (N ≤ 6 → sample_table Cr Ct N = ((List.range N).map (table_row Cr Ct N)).flatten ∧
        (sample_table Cr Ct N).length = N * N ∧ Event.truncated ∉ sample_table Cr Ct N) ∧
      (6 < N →
        sample_table Cr Ct N
          = ((List.range 6).map (table_row Cr Ct N)).flatten ++ [Event.truncated] ∧
        (sample_table Cr Ct N).length = 6 * N + 1) := by
  obtain ⟨g0, g1, g2, g3, h0, h1, h2, h3⟩ := heap_blocks heap hheap
  have hp : parse_args atoi atof argv
      = some ((N : Int), arg_scenario argv, arg_tolerance atof argv) := by
    rw [parse_args_some atoi atof argv (by rw [hargN]; omega), hargN]
  obtain ⟨A, B, hf, hA, hB⟩ := fill_scenario_known (arg_scenario argv)
    ((List.range (N * N)).map g0) ((List.range (N * N)).map g1) N hfit (by simp) (by simp) hk
  obtain ⟨Ct, hCt, hlen⟩ := candidate_some impl himpl A B (List.replicate (N * N) Dbl.zero)
    N hfit hA hB (List.length_replicate _ _)
  obtain ⟨Cr, ms, rows, hr, hms, hrows, hmain⟩ := main_completes impl atoi atof heap argv N
    (arg_scenario argv) _ hfit hp g0 g1 g2 g3 h0 h1 h2 h3 A B hf hA hB Ct hCt hlen
  obtain ⟨Cr', hr', hrF⟩ := matmul_ref_filled A B (List.replicate (N * N) Dbl.zero) N hfit hA hB
    (List.length_replicate _ _)
  rw [hr] at hr'
  cases hr'
  rw [sample_rows_eq Cr Ct N hfit hrF.1 hlen] at hrows
  cases hrows
  refine ⟨_, A, B, Cr, Ct, ms, hmain, hCt, hr, hms, rfl, rfl, ?_, ?_⟩
  · intro h6
    have e : sample_table Cr Ct N = ((List.range N).map (table_row Cr Ct N)).flatten := by
      unfold sample_table
      rw [if_neg (by omega)]
    rw [e]
    exact ⟨rfl, join_rows_length Cr Ct N N, truncated_not_in_rows Cr Ct N N⟩
  · intro h6
    have e : sample_table Cr Ct N
        = ((List.range 6).map (table_row Cr Ct N)).flatten ++ [Event.truncated] := by
      unfold sample_table
      rw [if_pos h6]
    rw [e]
    refine ⟨rfl, ?_⟩
    rw [List.length_append, join_rows_length Cr Ct N 6]
    rfl

/-- C15 (witness): the amended statement at `N = 7` on the `identity` scenario. -/
theorem main_sample_table_witness :
    ∃ r A B Cr Ct ms, main matmul_broken_A (fun _ => 7) (fun _ => Dbl.zero) heap_nan
        ["test_run_A", "7", "identity"] = some r ∧
      matmul_broken_A A B (List.replicate (7 * 7) Dbl.zero) ((7 : Nat) : Int) = some Ct ∧
      matmul_ref A B (List.replicate (7 * 7) Dbl.zero) ((7 : Nat) : Int) = some Cr ∧
      compare Cr Ct (7 * 7) = some ms ∧
      r.trace = [Event.call_test, Event.call_ref,
          Event.header ((7 : Nat) : Int) (arg_scenario ["test_run_A", "7", "identity"]),
          Event.max_diff ms.1, Event.sum_diff ms.2, Event.sample_header]
        ++ sample_table Cr Ct 7
        ++ [(verdict ms.1 (arg_tolerance (fun _ => Dbl.zero)
              ["test_run_A", "7", "identity"])).2] ∧
      r.exit_code = (verdict ms.1 (arg_tolerance (fun _ => Dbl.zero)
        ["test_run_A", "7", "identity"])).1 ∧
      (7 ≤ 6 → sample_table Cr Ct 7 = ((List.range 7).map (table_row Cr Ct 7)).flatten ∧
        (sample_table Cr Ct 7).length = 7 * 7 ∧ Event.truncated ∉ sample_table Cr Ct 7) ∧
      (6 < 7 →
        sample_table Cr Ct 7
          = ((List.range 6).map (table_row Cr Ct 7)).flatten ++ [Event.truncated] ∧
        (sample_table Cr Ct 7).length = 6 * 7 + 1) :=
  main_sample_table matmul_broken_A (Or.inl rfl) (fun _ => 7) (fun _ => Dbl.zero) heap_nan
    ["test_run_A", "7", "identity"] 7 (by decide) (by decide) rfl (by decide) (by decide)

/-! ## The float-accumulating candidate on `increment`, `N = 5` -/

set_option maxRecDepth 1000000 in
theorem increment_5_run :
    fill_increment zeros_5 zeros_5 5 = some increment_5 ∧
      matmul_broken_C increment_5.1 increment_5.2 zeros_5 5 = some product_5 ∧
      matmul_ref increment_5.1 increment_5.2 zeros_5 5 = some product_5 ∧
      compare product_5 product_5 25 = some (Dbl.zero, Dbl.zero) := by
  decide!

set_option maxRecDepth 1000000 in
theorem increment_5_operands : ∀ i : Nat, i < 5 → ∀ k : Nat, k < 5 →
    (increment_5.1.getD (i * 5 + k) Dbl.zero).isSmallInt = true ∧
      Flt.beq (binary32.ofFlt (increment_5.1.getD (i * 5 + k) Dbl.zero))
        (increment_5.1.getD (i * 5 + k) Dbl.zero) = true ∧
      (increment_5.2.getD (i * 5 + k) Dbl.zero).isSmallInt = true ∧
      Flt.beq (binary32.ofFlt (increment_5.2.getD (i * 5 + k) Dbl.zero))
        (increment_5.2.getD (i * 5 + k) Dbl.zero) = true := by
  decide!

set_option maxRecDepth 1000000 in
theorem increment_5_sums : ∀ i : Nat, i < 5 → ∀ j : Nat, j < 5 → ∀ k : Nat, k < 5 →
    (binary32.mul (binary32.ofFlt (increment_5.1.getD (i * 5 + k) Dbl.zero))
        (binary32.ofFlt (increment_5.2.getD (k * 5 + j) Dbl.zero))).isSmallInt = true ∧
      (dot_C increment_5.1 increment_5.2 5 i j (k + 1)).isSmallInt = true ∧
      product_5[i * 5 + j]?
        = some (binary64.ofFlt (dot_C increment_5.1 increment_5.2 5 i j 5)) ∧
      Flt.beq (binary64.ofFlt (dot_C increment_5.1 increment_5.2 5 i j 5))
        (dot_C increment_5.1 increment_5.2 5 i j 5) = true := by
  decide!

theorem fill_increment_5 (A0 B0 : List Dbl) (hA : A0.length = 25) (hB : B0.length = 25) :
    fill_increment A0 B0 5 = some increment_5 := by
  obtain ⟨AB, h, hA', hB'⟩ := fill_increment_filled A0 B0 5 (by decide) hA hB
  obtain ⟨AB0, h0, hA0, hB0⟩ := fill_increment_filled zeros_5 zeros_5 5 (by decide) rfl rfl
  have e0 : fill_increment zeros_5 zeros_5 ((5 : Nat) : Int) = some increment_5 :=
    increment_5_run.1
  rw [e0] at h0
  cases h0
  have e1 : AB.1 = increment_5.1 := hA'.eq hA0
  have e2 : AB.2 = increment_5.2 := hB'.eq hB0
  have e : AB = increment_5 := Prod.ext e1 e2
  rw [← e]
  exact h

/-- C14: on the `increment` scenario at `N = 5`, whatever the tolerance argument and the
initial buffer contents, the run with `matmul_broken_C` ends with exit code 0 and the
no-difference line, with `max_abs_diff = 0`: the candidate and the reference both write
`product_5`; every operand is an integer below `2^24` in magnitude whose conversion to
`float` has the same value, every `float` product and partial sum is such an integer, and
the conversion of the final sum to `double` has the same value. -/
theorem broken_C_matches_increment_5 (atoi : String → Int) (atof : String → Dbl)
    (heap : Nat → Option (Nat → Dbl)) (argv : List String)
    (hargN : arg_N atoi argv = 5) (hscen : arg_scenario argv = "increment")
    (hheap : ∀ k, k < 4 → (heap k).isSome = true) :
    ∃ r, main matmul_broken_C atoi atof heap argv = some r ∧
      (∀ A0 B0 : List Dbl, A0.length = 25 → B0.length = 25 →
        fill_increment A0 B0 5 = some increment_5) ∧
      matmul_broken_C increment_5.1 increment_5.2 zeros_5 5 = some product_5 ∧
      matmul_ref increment_5.1 increment_5.2 zeros_5 5 = some product_5 ∧
      (∀ i : Nat, i < 5 → ∀ k : Nat, k < 5 →
        (increment_5.1.getD (i * 5 + k) Dbl.zero).isSmallInt = true ∧
        Flt.beq (binary32.ofFlt (increment_5.1.getD (i * 5 + k) Dbl.zero))
          (increment_5.1.getD (i * 5 + k) Dbl.zero) = true ∧
        (increment_5.2.getD (i * 5 + k) Dbl.zero).isSmallInt = true ∧
        Flt.beq (binary32.ofFlt (increment_5.2.getD (i * 5 + k) Dbl.zero))
          (increment_5.2.getD (i * 5 + k) Dbl.zero) = true) ∧
      (∀ i : Nat, i < 5 → ∀ j : Nat, j < 5 → ∀ k : Nat, k < 5 →
        (binary32.mul (binary32.ofFlt (increment_5.1.getD (i * 5 + k) Dbl.zero))
          (binary32.ofFlt (increment_5.2.getD (k * 5 + j) Dbl.zero))).isSmallInt = true ∧
        (dot_C increment_5.1 increment_5.2 5 i j (k + 1)).isSmallInt = true ∧
        product_5[i * 5 + j]?
          = some (binary64.ofFlt (dot_C increment_5.1 increment_5.2 5 i j 5)) ∧
        Flt.beq (binary64.ofFlt (dot_C increment_5.1 increment_5.2 5 i j 5))
          (dot_C increment_5.1 increment_5.2 5 i j 5) = true) ∧
      r.diff = some (Dbl.zero, Dbl.zero) ∧ r.exit_code = 0 ∧
      r.tolerance = arg_tolerance atof argv ∧
      Event.no_difference (arg_tolerance atof argv) ∈ r.trace ∧
      Event.max_diff Dbl.zero ∈ r.trace := by
  obtain ⟨g0, g1, g2, g3, h0, h1, h2, h3⟩ := heap_blocks heap hheap
  have hp : parse_args atoi atof argv
      = some (((5 : Nat) : Int), "increment", arg_tolerance atof argv) := by
    rw [parse_args_some atoi atof argv (by rw [hargN]; decide), hargN, hscen]
    rfl
  have hf : fill_scenario "increment" ((List.range (5 * 5)).map g0)
      ((List.range (5 * 5)).map g1) ((5 : Nat) : Int)
        = some (some (increment_5.1, increment_5.2)) := by
    unfold fill_scenario
    rw [if_pos rfl]
    have e := fill_increment_5 ((List.range (5 * 5)).map g0) ((List.range (5 * 5)).map g1)
      (by simp) (by simp)
    have e' : fill_increment ((List.range (5 * 5)).map g0) ((List.range (5 * 5)).map g1)
        ((5 : Nat) : Int) = some increment_5 := e
    rw [e']
    rfl
  have hC : matmul_broken_C increment_5.1 increment_5.2 (List.replicate (5 * 5) Dbl.zero)
      ((5 : Nat) : Int) = some product_5 := increment_5_run.2.1
  have hR : matmul_ref increment_5.1 increment_5.2 (List.replicate (5 * 5) Dbl.zero)
      ((5 : Nat) : Int) = some product_5 := increment_5_run.2.2.1
  obtain ⟨Cr, ms, rows, hr, hms, -, hmain⟩ := main_completes matmul_broken_C atoi atof heap
    argv 5 "increment" (arg_tolerance atof argv) (by decide) hp g0 g1 g2 g3 h0 h1 h2 h3
    increment_5.1 increment_5.2 hf (by decide) (by decide) product_5 hC (by decide)
  rw [hR] at hr
  cases hr
  have hms' : compare product_5 product_5 (5 * 5) = some (Dbl.zero, Dbl.zero) :=
    increment_5_run.2.2.2
  rw [hms'] at hms
  cases hms
  have hv : verdict Dbl.zero (arg_tolerance atof argv)
      = (0, Event.no_difference (arg_tolerance atof argv)) := by
    unfold verdict Flt.gt
    rw [arg_tolerance_nonneg atof argv]
    rfl
  refine ⟨_, hmain, fill_increment_5, increment_5_run.2.1, increment_5_run.2.2.1,
    increment_5_operands, increment_5_sums, rfl, ?_, rfl, ?_, ?_⟩
  · show (verdict Dbl.zero (arg_tolerance atof argv)).1 = 0
    rw [hv]
  · show _ ∈ _ ++ [(verdict Dbl.zero (arg_tolerance atof argv)).2]
    rw [hv]
    simp
  · simp

/-- C14 (witness): the statement for the command line `test_run_C 5`. -/
theorem broken_C_matches_increment_5_witness :
    ∃ r, main matmul_broken_C (fun _ => 5) (fun _ => Dbl.zero) heap_nan ["test_run_C", "5"]
        = some r ∧ r.diff = some (Dbl.zero, Dbl.zero) ∧ r.exit_code = 0 := by
  obtain ⟨r, h, -, -, -, -, -, hd, he, -⟩ := broken_C_matches_increment_5 (fun _ => 5)
    (fun _ => Dbl.zero) heap_nan ["test_run_C", "5"] rfl rfl (by decide)
  exact ⟨r, h, hd, he⟩

/-! ## Rounding: the exponent, the nearest integer, and the value of the result -/

theorem roundPos_eq (f : Fmt) (neg : Bool) (num den : Nat) :
    f.roundPos neg num den
      = f.pack neg (nearest (num * 2 ^ (-(f.expo num den)).toNat)
          (den * 2 ^ (f.expo num den).toNat)) (f.expo num den) := rfl

theorem zpow_split (L : Int) :
    ((2 ^ L.toNat : Nat) : ℚ) / ((2 ^ (-L).toNat : Nat) : ℚ) = (2 : ℚ) ^ L := by
  rcases le_total 0 L with h | h
  · obtain ⟨k, rfl⟩ := Int.eq_ofNat_of_zero_le h
    have h0 : (-(k : Int)).toNat = 0 := by omega
    rw [h0, Int.toNat_ofNat]
    simp
  · obtain ⟨k, rfl⟩ := Int.exists_eq_neg_ofNat h
    have h0 : (-(k : Int)).toNat = 0 := by omega
    rw [h0, neg_neg, Int.toNat_ofNat]
    simp

theorem le_ratio (num den : Nat) (L : Int) (hd : 0 < den) :
    den * 2 ^ L.toNat ≤ num * 2 ^ (-L).toNat ↔ (2 : ℚ) ^ L ≤ (num : ℚ) / den := by
  rw [← zpow_split L]
  have h1 : (0 : ℚ) < ((2 ^ (-L).toNat : Nat) : ℚ) := by positivity
  have h2 : (0 : ℚ) < (den : ℚ) := by exact_mod_cast hd
  rw [div_le_div_iff₀ h1 h2]
  constructor
  · intro h
    have : ((den * 2 ^ L.toNat : Nat) : ℚ) ≤ ((num * 2 ^ (-L).toNat : Nat) : ℚ) := by
      exact_mod_cast h
    push_cast at this ⊢
    linarith
  · intro h
    have : ((den * 2 ^ L.toNat : Nat) : ℚ) ≤ ((num * 2 ^ (-L).toNat : Nat) : ℚ) := by
      push_cast at h ⊢
      linarith
    exact_mod_cast this

theorem scaled_ratio (num den : Nat) (e : Int) (hd : 0 < den) :
    ((num * 2 ^ (-e).toNat : Nat) : ℚ) / ((den * 2 ^ e.toNat : Nat) : ℚ)
      = (num : ℚ) / den / (2 : ℚ) ^ e := by
  rw [← zpow_split e]
  have h1 : (0 : ℚ) < ((2 ^ (-e).toNat : Nat) : ℚ) := by positivity
  have h2 : (0 : ℚ) < (den : ℚ) := by exact_mod_cast hd
  have h3 : (0 : ℚ) < ((2 ^ e.toNat : Nat) : ℚ) := by positivity
  push_cast
  field_simp

theorem bitlen_bounds (n : Nat) (hn : 0 < n) :
    (2 : ℚ) ^ ((bitlen n : Int) - 1) ≤ (n : ℚ) ∧ (n : ℚ) < (2 : ℚ) ^ (bitlen n : Int) := by
  have h1 := bitlen_le n (by omega)
  have h2 := bitlen_lt n
  have h3 := bitlen_pos n (by omega)
  constructor
  · have e : ((bitlen n : Int) - 1) = ((bitlen n - 1 : Nat) : Int) := by omega
    rw [e, zpow_natCast]
    exact_mod_cast h1
  · rw [zpow_natCast]
    exact_mod_cast h2

theorem expo_spec (f : Fmt) (num den : Nat) (hn : 0 < num) (hd : 0 < den) :
    f.emin ≤ f.expo num den ∧
      (num : ℚ) / den < (2 : ℚ) ^ (f.expo num den + (f.prec : Int)) ∧
      ((2 : ℚ) ^ (f.expo num den + (f.prec : Int) - 1) ≤ (num : ℚ) / den
        ∨ f.expo num den = f.emin) := by
  obtain ⟨hn1, hn2⟩ := bitlen_bounds num hn
  obtain ⟨hd1, hd2⟩ := bitlen_bounds den hd
  have hden : (0 : ℚ) < (den : ℚ) := by exact_mod_cast hd
  have two : (1 : ℚ) < 2 := by norm_num
  -- the bracket of the quotient given by the bit lengths
  have hup : (num : ℚ) / den < (2 : ℚ) ^ ((bitlen num : Int) - (bitlen den : Int) + 1) := by
    rw [div_lt_iff₀ hden]
    have e : (2 : ℚ) ^ ((bitlen num : Int) - (bitlen den : Int) + 1)
        = (2 : ℚ) ^ (bitlen num : Int) / (2 : ℚ) ^ ((bitlen den : Int) - 1) := by
      rw [← zpow_sub₀ (by norm_num : (2 : ℚ) ≠ 0)]
      congr 1
      omega
    rw [e, div_mul_eq_mul_div, lt_div_iff₀ (by positivity)]
    calc (num : ℚ) * (2 : ℚ) ^ ((bitlen den : Int) - 1)
        ≤ (num : ℚ) * den := by
          apply mul_le_mul_of_nonneg_left hd1
          positivity
      _ < (2 : ℚ) ^ (bitlen num : Int) * den := by
          apply mul_lt_mul_of_pos_right hn2 hden
  have hlo : (2 : ℚ) ^ ((bitlen num : Int) - (bitlen den : Int) - 1) ≤ (num : ℚ) / den := by
    rw [le_div_iff₀ hden]
    have e : (2 : ℚ) ^ ((bitlen num : Int) - (bitlen den : Int) - 1)
        = (2 : ℚ) ^ ((bitlen num : Int) - 1) / (2 : ℚ) ^ (bitlen den : Int) := by
      rw [← zpow_sub₀ (by norm_num : (2 : ℚ) ≠ 0)]
      congr 1
      omega
    rw [e, div_mul_eq_mul_div, div_le_iff₀ (by positivity)]
    calc (2 : ℚ) ^ ((bitlen num : Int) - 1) * den
        ≤ (2 : ℚ) ^ ((bitlen num : Int) - 1) * (2 : ℚ) ^ (bitlen den : Int) := by
          apply mul_le_mul_of_nonneg_left (le_of_lt hd2)
          positivity
      _ ≤ (num : ℚ) * (2 : ℚ) ^ (bitlen den : Int) := by
          apply mul_le_mul_of_nonneg_right hn1
          positivity
  -- the exponent of the leading bit
  have he0 : ∃ e0 : Int, f.expo num den = max (e0 - ((f.prec : Int) - 1)) f.emin ∧
      (2 : ℚ) ^ e0 ≤ (num : ℚ) / den ∧ (num : ℚ) / den < (2 : ℚ) ^ (e0 + 1) := by
    by_cases hc : den * 2 ^ ((bitlen num : Int) - (bitlen den : Int)).toNat
        ≤ num * 2 ^ (-((bitlen num : Int) - (bitlen den : Int))).toNat
    · refine ⟨(bitlen num : Int) - (bitlen den : Int), ?_, (le_ratio _ _ _ hd).mp hc, hup⟩
      unfold Fmt.expo
      simp only [if_pos hc]
    · refine ⟨(bitlen num : Int) - (bitlen den : Int) - 1, ?_, hlo, ?_⟩
      · unfold Fmt.expo
        simp only [if_neg hc]
      · have := (le_ratio num den _ hd).not.mp hc
        rw [sub_add_cancel]
        exact lt_of_not_le this
  obtain ⟨e0, he, h1, h2⟩ := he0
  refine ⟨by rw [he]; exact le_max_right _ _, ?_, ?_⟩
  · refine lt_of_lt_of_le h2 ?_
    apply zpow_le_zpow_right₀ (le_of_lt two)
    have := le_max_left (e0 - ((f.prec : Int) - 1)) f.emin
    omega
  · rcases le_total (e0 - ((f.prec : Int) - 1)) f.emin with h | h
    · right
      rw [he]
      exact max_eq_right h
    · left
      rw [he, max_eq_left h]
      have e : e0 - ((f.prec : Int) - 1) + (f.prec : Int) - 1 = e0 := by ring
      rw [e]
      exact h1

theorem nearest_ge (n d : Nat) : n / d ≤ nearest n d := by
  unfold nearest
  split_ifs <;> omega

theorem nearest_le (n d : Nat) : nearest n d ≤ n / d + 1 := by
  unfold nearest
  split_ifs <;> omega

theorem nearest_exact (m d : Nat) (hd : 0 < d) : nearest (m * d) d = m := by
  unfold nearest
  rw [Nat.mul_mod_left, Nat.mul_div_cancel _ hd, if_pos (by omega)]

/-- The quotient `Fmt.roundPos` rounds to an integer is `num / den / 2^e`. -/
theorem quotient_bounds (num den : Nat) (e : Int) (hd : 0 < den) :
    (((num * 2 ^ (-e).toNat) / (den * 2 ^ e.toNat) : Nat) : ℚ)
        ≤ (num : ℚ) / den / (2 : ℚ) ^ e ∧
      (num : ℚ) / den / (2 : ℚ) ^ e
        < (((num * 2 ^ (-e).toNat) / (den * 2 ^ e.toNat) : Nat) : ℚ) + 1 := by
  rw [← scaled_ratio num den e hd]
  have hD : 0 < den * 2 ^ e.toNat := Nat.mul_pos hd (by positivity)
  have hDq : (0 : ℚ) < ((den * 2 ^ e.toNat : Nat) : ℚ) := by exact_mod_cast hD
  constructor
  · rw [le_div_iff₀ hDq]
    exact_mod_cast Nat.div_mul_le_self _ _
  · rw [div_lt_iff₀ hDq]
    have : num * 2 ^ (-e).toNat
        < num * 2 ^ (-e).toNat / (den * 2 ^ e.toNat) * (den * 2 ^ e.toNat)
          + den * 2 ^ e.toNat := Nat.lt_div_mul_add hD
    have h2 : num * 2 ^ (-e).toNat
        < (num * 2 ^ (-e).toNat / (den * 2 ^ e.toNat) + 1) * (den * 2 ^ e.toNat) := by
      rw [Nat.add_mul, Nat.one_mul]
      exact this
    exact_mod_cast h2

/-- A natural number below the quotient is below its integer part. -/
theorem le_quotient (num den : Nat) (e : Int) (K : Nat) (hd : 0 < den)
    (h : (K : ℚ) ≤ (num : ℚ) / den / (2 : ℚ) ^ e) :
    K ≤ (num * 2 ^ (-e).toNat) / (den * 2 ^ e.toNat) := by
  have h2 := (quotient_bounds num den e hd).2
  have h3 : (K : ℚ) < (((num * 2 ^ (-e).toNat) / (den * 2 ^ e.toNat) : Nat) : ℚ) + 1 :=
    lt_of_le_of_lt h h2
  have h4 : K < (num * 2 ^ (-e).toNat) / (den * 2 ^ e.toNat) + 1 := by exact_mod_cast h3
  omega

theorem pack_cases (neg : Bool) (m : Nat) (e : Int) (hm : m ≤ 2 ^ 53) (he : -1074 ≤ e) :
    binary64.pack neg m e = Flt.inf neg ∨
      ∃ m1 e1, binary64.pack neg m e = Flt.fin neg m1 e1 ∧ m1 < 2 ^ 53 ∧ -1074 ≤ e1 ∧
        e1 ≤ 971 ∧ (m1 : ℚ) * (2 : ℚ) ^ e1 = (m : ℚ) * (2 : ℚ) ^ e := by
  unfold Fmt.pack
  by_cases h0 : m = 0
  · rw [if_pos h0]
    exact Or.inr ⟨0, 0, rfl, by norm_num, by norm_num, by norm_num, by rw [h0]; simp⟩
  · rw [if_neg h0]
    by_cases h1 : m = 2 ^ binary64.prec
    · rw [if_pos h1]
      by_cases h2 : binary64.emax < e + 1
      · rw [if_pos h2]
        exact Or.inl rfl
      · rw [if_neg h2]
        have h2' : e + 1 ≤ 971 := not_lt.mp h2
        refine Or.inr ⟨_, _, rfl, by decide, by omega, h2', ?_⟩
        have hm' : m = 2 ^ 53 := h1
        rw [hm', zpow_add₀ (by norm_num : (2 : ℚ) ≠ 0)]
        have : binary64.prec - 1 = 52 := rfl
        rw [this]
        push_cast
        ring
    · rw [if_neg h1]
      by_cases h2 : binary64.emax < e
      · rw [if_pos h2]
        exact Or.inl rfl
      · rw [if_neg h2]
        have h2' : e ≤ 971 := not_lt.mp h2
        have h1' : m ≠ 2 ^ 53 := h1
        exact Or.inr ⟨m, e, rfl, by omega, he, h2', rfl⟩

theorem expo64 (num den : Nat) (hn : 0 < num) (hd : 0 < den) :
    -1074 ≤ binary64.expo num den ∧
      (num : ℚ) / den < (2 : ℚ) ^ (binary64.expo num den + 53) ∧
      ((2 : ℚ) ^ (binary64.expo num den + 52) ≤ (num : ℚ) / den
        ∨ binary64.expo num den = -1074) := by
  obtain ⟨h1, h2, h3⟩ := expo_spec binary64 num den hn hd
  refine ⟨h1, h2, ?_⟩
  rcases h3 with h | h
  · left
    have e : binary64.expo num den + ((binary64.prec : Nat) : Int) - 1
        = binary64.expo num den + 52 := by
      have : ((binary64.prec : Nat) : Int) = 53 := rfl
      omega
    rw [e] at h
    exact h
  · exact Or.inr h

theorem nearest_le_pow (num den : Nat) (hn : 0 < num) (hd : 0 < den) :
    nearest (num * 2 ^ (-(binary64.expo num den)).toNat)
      (den * 2 ^ (binary64.expo num den).toNat) ≤ 2 ^ 53 := by
  obtain ⟨-, h2, -⟩ := expo64 num den hn hd
  have hq := (quotient_bounds num den (binary64.expo num den) hd).1
  have pe : (0 : ℚ) < (2 : ℚ) ^ (binary64.expo num den) := by positivity
  have h3 : (num : ℚ) / den / (2 : ℚ) ^ (binary64.expo num den) < (2 : ℚ) ^ (53 : Nat) := by
    rw [div_lt_iff₀ pe]
    have e : (2 : ℚ) ^ (53 : Nat) * (2 : ℚ) ^ (binary64.expo num den)
        = (2 : ℚ) ^ (binary64.expo num den + 53) := by
      rw [zpow_add₀ (by norm_num : (2 : ℚ) ≠ 0)]
      norm_num
      ring
    rw [e]
    exact h2
  have h4 : (((num * 2 ^ (-(binary64.expo num den)).toNat)
      / (den * 2 ^ (binary64.expo num den).toNat) : Nat) : ℚ) < ((2 ^ 53 : Nat) : ℚ) := by
    push_cast
    exact lt_of_le_of_lt hq h3
  have h5 : (num * 2 ^ (-(binary64.expo num den)).toNat)
      / (den * 2 ^ (binary64.expo num den).toNat) < 2 ^ 53 := by exact_mod_cast h4
  have := nearest_le (num * 2 ^ (-(binary64.expo num den)).toNat)
    (den * 2 ^ (binary64.expo num den).toNat)
  omega

/-- Rounding is bounded below by every representable number that is below the exact
value. -/
theorem nearest_lower (num den : Nat) (hn : 0 < num) (hd : 0 < den) (mc : Nat) (ec : Int)
    (hmc : mc < 2 ^ 53) (hec : -1074 ≤ ec)
    (hc : (mc : ℚ) * (2 : ℚ) ^ ec ≤ (num : ℚ) / den) :
    (mc : ℚ) * (2 : ℚ) ^ ec
      ≤ (nearest (num * 2 ^ (-(binary64.expo num den)).toNat)
          (den * 2 ^ (binary64.expo num den).toNat) : ℚ)
        * (2 : ℚ) ^ (binary64.expo num den) := by
  obtain ⟨h1, -, h3⟩ := expo64 num den hn hd
  have hq := nearest_ge (num * 2 ^ (-(binary64.expo num den)).toNat)
    (den * 2 ^ (binary64.expo num den).toNat)
  generalize nearest (num * 2 ^ (-(binary64.expo num den)).toNat)
    (den * 2 ^ (binary64.expo num den).toNat) = m at hq ⊢
  have hle := le_quotient num den (binary64.expo num den)
  generalize binary64.expo num den = e at h1 h3 hq hle ⊢
  have pe : (0 : ℚ) < (2 : ℚ) ^ e := by positivity
  have two : (2 : ℚ) ≠ 0 := by norm_num
  by_cases h : e ≤ ec
  · have hK : ((mc * 2 ^ (ec - e).toNat : Nat) : ℚ) * (2 : ℚ) ^ e = (mc : ℚ) * (2 : ℚ) ^ ec := by
      push_cast
      rw [mul_assoc, ← zpow_natCast, ← zpow_add₀ two]
      congr 2
      omega
    have hK2 := hle (mc * 2 ^ (ec - e).toNat) hd (by
      rw [le_div_iff₀ pe, hK]
      exact hc)
    rw [← hK]
    apply mul_le_mul_of_nonneg_right _ (le_of_lt pe)
    exact_mod_cast le_trans hK2 hq
  · have hne : e ≠ -1074 := by omega
    rcases h3 with h3 | h3
    · have hK2 := hle (2 ^ 52) hd (by
        rw [le_div_iff₀ pe]
        have e1 : ((2 ^ 52 : Nat) : ℚ) * (2 : ℚ) ^ e = (2 : ℚ) ^ (e + 52) := by
          rw [zpow_add₀ two]
          norm_num
          ring
        rw [e1]
        exact h3)
      have hm : ((2 ^ 52 : Nat) : ℚ) ≤ (m : ℚ) := by exact_mod_cast le_trans hK2 hq
      calc (mc : ℚ) * (2 : ℚ) ^ ec ≤ ((2 ^ 53 : Nat) : ℚ) * (2 : ℚ) ^ ec := by
            apply mul_le_mul_of_nonneg_right _ (by positivity)
            exact_mod_cast le_of_lt hmc
        _ = (2 : ℚ) ^ (ec + 53) := by
            rw [zpow_add₀ two]
            norm_num
            ring
        _ ≤ (2 : ℚ) ^ (e + 52) := by
            apply zpow_le_zpow_right₀ (by norm_num)
            omega
        _ = ((2 ^ 52 : Nat) : ℚ) * (2 : ℚ) ^ e := by
            rw [zpow_add₀ two]
            norm_num
            ring
        _ ≤ (m : ℚ) * (2 : ℚ) ^ e := by
            apply mul_le_mul_of_nonneg_right hm (le_of_lt pe)
    · exact absurd h3 hne

theorem gcd_reduce (num den : Nat) (hn : 0 < num) (hd : 0 < den) :
    0 < num / Nat.gcd num den ∧ 0 < den / Nat.gcd num den ∧
      ((num / Nat.gcd num den : Nat) : ℚ) / ((den / Nat.gcd num den : Nat) : ℚ)
        = (num : ℚ) / den := by
  have hg : 0 < Nat.gcd num den := Nat.gcd_pos_of_pos_left den hn
  obtain ⟨a, ha⟩ := Nat.gcd_dvd_left num den
  obtain ⟨b, hb⟩ := Nat.gcd_dvd_right num den
  have ha' : num / Nat.gcd num den = a := Nat.div_eq_of_eq_mul_right hg ha
  have hb' : den / Nat.gcd num den = b := Nat.div_eq_of_eq_mul_right hg hb
  have ha0 : 0 < a := by
    rcases Nat.eq_zero_or_pos a with h | h
    · rw [h, Nat.mul_zero] at ha
      omega
    · exact h
  have hb0 : 0 < b := by
    rcases Nat.eq_zero_or_pos b with h | h
    · rw [h, Nat.mul_zero] at hb
      omega
    · exact h
  refine ⟨by rw [ha']; exact ha0, by rw [hb']; exact hb0, ?_⟩
  rw [ha', hb']
  have hgq : ((Nat.gcd num den : Nat) : ℚ) ≠ 0 := by exact_mod_cast (ne_of_gt hg)
  have hbq : (b : ℚ) ≠ 0 := by exact_mod_cast (ne_of_gt hb0)
  have e1 : (num : ℚ) = (Nat.gcd num den : ℚ) * a := by exact_mod_cast ha
  have e2 : (den : ℚ) = (Nat.gcd num den : ℚ) * b := by exact_mod_cast hb
  rw [e1, e2]
  field_simp
  ring

/-- The result of a rounding to binary64: an infinity, or a finite number in range that
is not below any representable number below the exact value. -/
theorem round_cases (neg : Bool) (num den : Nat) (hd : 0 < den) :
    binary64.round neg num den = Flt.inf neg ∨
      ∃ m1 e1, binary64.round neg num den = Flt.fin neg m1 e1 ∧ m1 < 2 ^ 53 ∧ -1074 ≤ e1 ∧
        e1 ≤ 971 ∧
        ∀ (mc : Nat) (ec : Int), mc < 2 ^ 53 → -1074 ≤ ec →
          (mc : ℚ) * (2 : ℚ) ^ ec ≤ (num : ℚ) / den →
          (mc : ℚ) * (2 : ℚ) ^ ec ≤ (m1 : ℚ) * (2 : ℚ) ^ e1 := by
  unfold Fmt.round
  by_cases h0 : num = 0
  · rw [if_pos h0]
    refine Or.inr ⟨0, 0, rfl, by norm_num, by norm_num, by norm_num, ?_⟩
    intro mc ec _ _ h
    rw [h0] at h
    simpa using h
  · rw [if_neg h0]
    obtain ⟨hn', hd', hv⟩ := gcd_reduce num den (Nat.pos_of_ne_zero h0) hd
    rw [roundPos_eq]
    rcases pack_cases neg _ _ (nearest_le_pow _ _ hn' hd') (expo64 _ _ hn' hd').1 with h | h
    · exact Or.inl h
    · obtain ⟨m1, e1, hp, hm1, he1, he1', hval⟩ := h
      refine Or.inr ⟨m1, e1, hp, hm1, he1, he1', ?_⟩
      intro mc ec hmc hec hc
      rw [hval]
      exact nearest_lower _ _ hn' hd' mc ec hmc hec (by rw [hv]; exact hc)

theorem abs_round (neg : Bool) (num den : Nat) :
    Flt.abs (binary64.round neg num den) = binary64.round false num den := by
  unfold Fmt.round
  by_cases h0 : num = 0
  · rw [if_pos h0, if_pos h0]
    rfl
  · rw [if_neg h0, if_neg h0, roundPos_eq, roundPos_eq]
    unfold Fmt.pack
    split_ifs <;> rfl

/-- Rounding a number that is a binary64 number returns it. -/
theorem round_exact (neg : Bool) (m : Nat) (e : Int) (num den : Nat) (hd : 0 < den)
    (hm0 : m ≠ 0) (hm : m < 2 ^ 53) (he : -1074 ≤ e) (he' : e ≤ 971)
    (hnorm : 2 ^ 52 ≤ m ∨ e = -1074)
    (hv : (num : ℚ) / den = (m : ℚ) * (2 : ℚ) ^ e) :
    binary64.round neg num den = Flt.fin neg m e := by
  have two : (2 : ℚ) ≠ 0 := by norm_num
  have hmq : (0 : ℚ) < (m : ℚ) := by exact_mod_cast Nat.pos_of_ne_zero hm0
  have hn0 : num ≠ 0 := by
    intro h
    rw [h] at hv
    have : (0 : ℚ) < (m : ℚ) * (2 : ℚ) ^ e := by positivity
    rw [← hv] at this
    simp at this
  unfold Fmt.round
  rw [if_neg hn0]
  obtain ⟨hn', hd', hv'⟩ := gcd_reduce num den (Nat.pos_of_ne_zero hn0) hd
  rw [hv] at hv'
  generalize num / Nat.gcd num den = n1 at hn' hv'
  generalize den / Nat.gcd num den = d1 at hd' hv'
  obtain ⟨h1, h2, h3⟩ := expo64 n1 d1 hn' hd'
  rw [hv'] at h2 h3
  have hmlt : (m : ℚ) < (2 : ℚ) ^ (53 : Nat) := by exact_mod_cast hm
  -- the exponent is `e`
  have hexp : binary64.expo n1 d1 = e := by
    have pe : (0 : ℚ) < (2 : ℚ) ^ e := by positivity
    have hup : (m : ℚ) * (2 : ℚ) ^ e < (2 : ℚ) ^ (e + 53) := by
      rw [zpow_add₀ two, mul_comm ((2 : ℚ) ^ e)]
      apply mul_lt_mul_of_pos_right _ pe
      exact_mod_cast hm
    by_cases hn52 : 2 ^ 52 ≤ m
    · have hlo : (2 : ℚ) ^ (e + 52) ≤ (m : ℚ) * (2 : ℚ) ^ e := by
        rw [zpow_add₀ two, mul_comm ((2 : ℚ) ^ e)]
        apply mul_le_mul_of_nonneg_right _ (le_of_lt pe)
        exact_mod_cast hn52
      have a1 : e + 52 < binary64.expo n1 d1 + 53 :=
        (zpow_lt_zpow_iff_right₀ (by norm_num : (1 : ℚ) < 2)).mp (lt_of_le_of_lt hlo h2)
      rcases h3 with h3 | h3
      · have a2 : binary64.expo n1 d1 + 52 < e + 53 :=
          (zpow_lt_zpow_iff_right₀ (by norm_num : (1 : ℚ) < 2)).mp (lt_of_le_of_lt h3 hup)
        omega
      · omega
    · have hsub : e = -1074 := by
        rcases hnorm with hn | hn
        · exact absurd hn hn52
        · exact hn
      rcases h3 with h3 | h3
      · have hup2 : (m : ℚ) * (2 : ℚ) ^ e < (2 : ℚ) ^ (e + 52) := by
          rw [zpow_add₀ two, mul_comm ((2 : ℚ) ^ e)]
          apply mul_lt_mul_of_pos_right _ pe
          have : m < 2 ^ 52 := not_le.mp hn52
          exact_mod_cast this
        have a2 : binary64.expo n1 d1 + 52 < e + 52 :=
          (zpow_lt_zpow_iff_right₀ (by norm_num : (1 : ℚ) < 2)).mp (lt_of_le_of_lt h3 hup2)
        omega
      · omega
  rw [roundPos_eq, hexp]
  have hq := scaled_ratio n1 d1 e hd'
  rw [hv', mul_div_assoc, div_self (ne_of_gt (by positivity : (0 : ℚ) < (2 : ℚ) ^ e)),
    mul_one] at hq
  have hD : 0 < d1 * 2 ^ e.toNat := Nat.mul_pos hd' (by positivity)
  have hDq : ((d1 * 2 ^ e.toNat : Nat) : ℚ) ≠ 0 := by exact_mod_cast (ne_of_gt hD)
  have hmul : n1 * 2 ^ (-e).toNat = m * (d1 * 2 ^ e.toNat) := by
    have := (div_eq_iff hDq).mp hq
    exact_mod_cast this
  rw [hmul, nearest_exact m _ hD]
  unfold Fmt.pack
  have hm53 : m ≠ 2 ^ binary64.prec := by
    have : binary64.prec = 53 := rfl
    rw [this]
    omega
  rw [if_neg hm0, if_neg hm53, if_neg (by
    have : binary64.emax = 971 := rfl
    rw [this]
    omega)]

/-! ## Order and value of the data the comparison loop handles -/

theorem mag_cases (x : Flt) (h : x.isMag = true) :
    x = Flt.inf false ∨
      ∃ m e, x = Flt.fin false m e ∧ m < 2 ^ 53 ∧ -1074 ≤ e ∧ e ≤ 971 := by
  cases x with
  | nan => simp [Flt.isMag] at h
  | inf s =>
    cases s
    · exact Or.inl rfl
    · simp [Flt.isMag] at h
  | fin s m e =>
    cases s
    · simp only [Flt.isMag, Bool.not_false, Bool.true_and, decide_eq_true_eq] at h
      exact Or.inr ⟨m, e, rfl, h.1, h.2.1, h.2.2⟩
    · simp [Flt.isMag] at h

theorem fin_below_inf (m : Nat) (e : Int) (hm : m < 2 ^ 53) (he : e ≤ 971) :
    (m : ℚ) * (2 : ℚ) ^ e < (2 : ℚ) ^ (1024 : Nat) := by
  have h1 : (m : ℚ) < (2 : ℚ) ^ (53 : Int) := by exact_mod_cast hm
  have pe : (0 : ℚ) < (2 : ℚ) ^ e := by positivity
  calc (m : ℚ) * (2 : ℚ) ^ e < (2 : ℚ) ^ (53 : Int) * (2 : ℚ) ^ e :=
        mul_lt_mul_of_pos_right h1 pe
    _ = (2 : ℚ) ^ (53 + e) := by rw [zpow_add₀ (by norm_num : (2 : ℚ) ≠ 0)]
    _ ≤ (2 : ℚ) ^ ((1024 : Nat) : Int) := zpow_le_zpow_right₀ (by norm_num) (by omega)
    _ = (2 : ℚ) ^ (1024 : Nat) := zpow_natCast 2 1024

theorem scaled_val (s : Bool) (m : Nat) (e k : Int) (hk : k ≤ e) :
    ((Flt.scaled s m (e - k) : Int) : ℚ) * (2 : ℚ) ^ k = (Flt.fin s m e).val := by
  have hp : (((m * 2 ^ (e - k).toNat : Nat) : Int) : ℚ) * (2 : ℚ) ^ k
      = (m : ℚ) * (2 : ℚ) ^ e := by
    push_cast
    rw [mul_assoc, ← zpow_natCast, ← zpow_add₀ (by norm_num : (2 : ℚ) ≠ 0)]
    congr 2
    omega
  unfold Flt.scaled Flt.val
  cases s
  · simpa using hp
  · simp only [if_true]
    push_cast at hp ⊢
    rw [neg_mul, hp]

theorem lt_fin (s1 s2 : Bool) (m1 m2 : Nat) (e1 e2 : Int) :
    Flt.lt (Flt.fin s1 m1 e1) (Flt.fin s2 m2 e2)
      = decide ((Flt.fin s1 m1 e1).val < (Flt.fin s2 m2 e2).val) := by
  have pe : (0 : ℚ) < (2 : ℚ) ^ (min e1 e2) := by positivity
  rw [← scaled_val s1 m1 e1 (min e1 e2) (min_le_left _ _),
    ← scaled_val s2 m2 e2 (min e1 e2) (min_le_right _ _)]
  unfold Flt.lt
  rw [decide_eq_decide, mul_lt_mul_right pe]
  exact Int.cast_lt.symm

theorem val_nonneg (x : Flt) (h : x.isMag = true) : 0 ≤ x.val := by
  rcases mag_cases x h with rfl | ⟨m, e, rfl, -, -, -⟩
  · simp [Flt.val]
  · simp only [Flt.val, Bool.false_eq_true, if_false]
    positivity

theorem lt_mag (x y : Flt) (hx : x.isMag = true) (hy : y.isMag = true) :
    Flt.lt x y = decide (x.val < y.val) := by
  rcases mag_cases x hx with rfl | ⟨m1, e1, rfl, hm1, -, he1⟩
  · rcases mag_cases y hy with rfl | ⟨m2, e2, rfl, hm2, -, he2⟩
    · simp [Flt.lt]
    · have := fin_below_inf m2 e2 hm2 he2
      simp only [Flt.lt, Flt.val]
      symm
      rw [decide_eq_false_iff_not]
      simp only [Bool.false_eq_true, if_false]
      exact not_lt.mpr (le_of_lt this)
  · rcases mag_cases y hy with rfl | ⟨m2, e2, rfl, hm2, -, he2⟩
    · have := fin_below_inf m1 e1 hm1 he1
      simp only [Flt.lt, Flt.val]
      symm
      simp only [Bool.not_false, Bool.false_eq_true, if_false, decide_eq_true_eq]
      exact this
    · exact lt_fin _ _ _ _ _ _

theorem mag_not_nan (x : Flt) (h : x.isMag = true) : x ≠ Flt.nan := by
  intro hx
  rw [hx] at h
  simp [Flt.isMag] at h

theorem le_mag (x y : Flt) (hx : x.isMag = true) (hy : y.isMag = true) :
    Flt.le x y = decide (x.val ≤ y.val) := by
  have h : Flt.le x y = !Flt.lt y x := by
    cases x with
    | nan => exact absurd rfl (mag_not_nan _ hx)
    | inf s =>
      cases y with
      | nan => exact absurd rfl (mag_not_nan _ hy)
      | inf t => rfl
      | fin t m e => rfl
    | fin s m e =>
      cases y with
      | nan => exact absurd rfl (mag_not_nan _ hy)
      | inf t => rfl
      | fin t m e => rfl
  rw [h, lt_mag y x hy hx]
  by_cases hc : y.val < x.val
  · simp [hc, not_le.mpr hc]
  · simp [hc, not_lt.mp hc]

theorem round_mag (num den : Nat) (hd : 0 < den) :
    (binary64.round false num den).isMag = true := by
  rcases round_cases false num den hd with h | ⟨m1, e1, h, hm, he, he', -⟩
  · rw [h]
    rfl
  · rw [h]
    simp only [Flt.isMag, Bool.not_false, Bool.true_and, decide_eq_true_eq]
    exact ⟨hm, he, he'⟩

theorem round_val_ge (num den : Nat) (hd : 0 < den) (mc : Nat) (ec : Int) (hmc : mc < 2 ^ 53)
    (hec : -1074 ≤ ec) (hec' : ec ≤ 971) (hv : (mc : ℚ) * (2 : ℚ) ^ ec ≤ (num : ℚ) / den) :
    (mc : ℚ) * (2 : ℚ) ^ ec ≤ (binary64.round false num den).val := by
  rcases round_cases false num den hd with h | ⟨m1, e1, h, -, -, -, hlow⟩
  · rw [h]
    simp only [Flt.val, Bool.false_eq_true, if_false]
    exact le_of_lt (fin_below_inf mc ec hmc hec')
  · rw [h]
    simp only [Flt.val, Bool.false_eq_true, if_false]
    exact hlow mc ec hmc hec hv

/-- The exact value handed to the rounding by an addition at the common exponent `e`. -/
theorem sum_ratio (s : Int) (e : Int) :
    ((s.natAbs * 2 ^ e.toNat : Nat) : ℚ) / ((2 ^ (-e).toNat : Nat) : ℚ)
      = |(s : ℚ)| * (2 : ℚ) ^ e := by
  rw [← zpow_split e]
  push_cast
  rw [Nat.cast_natAbs, Int.cast_abs, mul_div_assoc]

theorem scaled_not (s : Bool) (m : Nat) (k : Int) :
    Flt.scaled (!s) m k = -Flt.scaled s m k := by
  unfold Flt.scaled
  cases s <;> simp

/-- Addition of two magnitudes: a magnitude not below either operand. -/
theorem add_mag (x y : Flt) (hx : x.isMag = true) (hy : y.isMag = true) :
    (Dbl.add x y).isMag = true ∧ x.val ≤ (Dbl.add x y).val ∧ y.val ≤ (Dbl.add x y).val := by
  have top : ∀ z : Flt, z.isMag = true → z.val ≤ (Flt.inf false).val := by
    intro z hz
    rcases mag_cases z hz with rfl | ⟨m, e, rfl, hm, -, he⟩
    · exact le_refl _
    · simp only [Flt.val, Bool.false_eq_true, if_false]
      exact le_of_lt (fin_below_inf m e hm he)
  rcases mag_cases x hx with rfl | ⟨m1, e1, rfl, hm1, he1, he1'⟩
  · rcases mag_cases y hy with rfl | ⟨m2, e2, rfl, hm2, he2, he2'⟩
    · exact ⟨rfl, le_refl _, le_refl _⟩
    · exact ⟨rfl, le_refl _, top _ hy⟩
  · rcases mag_cases y hy with rfl | ⟨m2, e2, rfl, hm2, he2, he2'⟩
    · exact ⟨rfl, top _ hx, le_refl _⟩
    · have hv1 := scaled_val false m1 e1 (min e1 e2) (min_le_left _ _)
      have hv2 := scaled_val false m2 e2 (min e1 e2) (min_le_right _ _)
      have hn1 : 0 ≤ Flt.scaled false m1 (e1 - min e1 e2) := by
        unfold Flt.scaled
        simp
      have hn2 : 0 ≤ Flt.scaled false m2 (e2 - min e1 e2) := by
        unfold Flt.scaled
        simp
      have pe : (0 : ℚ) < (2 : ℚ) ^ (min e1 e2) := by positivity
      have hr : Dbl.add (Flt.fin false m1 e1) (Flt.fin false m2 e2)
          = if Flt.scaled false m1 (e1 - min e1 e2) + Flt.scaled false m2 (e2 - min e1 e2) = 0
            then Flt.fin false 0 0
            else binary64.round
              (decide (Flt.scaled false m1 (e1 - min e1 e2)
                + Flt.scaled false m2 (e2 - min e1 e2) < 0))
              ((Flt.scaled false m1 (e1 - min e1 e2)
                + Flt.scaled false m2 (e2 - min e1 e2)).natAbs * 2 ^ (min e1 e2).toNat)
              (2 ^ (-(min e1 e2)).toNat) := rfl
      rw [hr]
      generalize Flt.scaled false m1 (e1 - min e1 e2) = a at hv1 hn1
      generalize Flt.scaled false m2 (e2 - min e1 e2) = b at hv2 hn2
      have ha : (0 : ℚ) ≤ (a : ℚ) := by exact_mod_cast hn1
      have hb : (0 : ℚ) ≤ (b : ℚ) := by exact_mod_cast hn2
      by_cases h0 : a + b = 0
      · rw [if_pos h0]
        have a0 : a = 0 := by omega
        have b0 : b = 0 := by omega
        rw [a0] at hv1
        rw [b0] at hv2
        refine ⟨by decide, ?_, ?_⟩
        · rw [← hv1]
          simp [Flt.val]
        · rw [← hv2]
          simp [Flt.val]
      · rw [if_neg h0]
        have hneg : decide (a + b < 0) = false := by
          rw [decide_eq_false_iff_not]
          omega
        rw [hneg]
        have hd : 0 < 2 ^ (-(min e1 e2)).toNat := by positivity
        have hq := sum_ratio (a + b) (min e1 e2)
        have habs : |((a + b : Int) : ℚ)| = (a : ℚ) + (b : ℚ) := by
          push_cast
          exact abs_of_nonneg (by linarith)
        rw [habs, add_mul, hv1, hv2] at hq
        simp only [Flt.val, Bool.false_eq_true, if_false] at hq hv1 hv2 ⊢
        refine ⟨round_mag _ _ hd, ?_, ?_⟩
        · apply round_val_ge _ _ hd m1 e1 hm1 he1 he1'
          rw [hq]
          have : (0 : ℚ) ≤ (m2 : ℚ) * (2 : ℚ) ^ e2 := by positivity
          linarith
        · apply round_val_ge _ _ hd m2 e2 hm2 he2 he2'
          rw [hq]
          have : (0 : ℚ) ≤ (m1 : ℚ) * (2 : ℚ) ^ e1 := by positivity
          linarith

theorem double_cases (x : Flt) (h : x.isDouble = true) :
    ∃ s m e, x = Flt.fin s m e ∧ m < 2 ^ 53 ∧ -1074 ≤ e ∧ e ≤ 971 ∧ (m = 0 → e = 0) ∧
      (m ≠ 0 → 2 ^ 52 ≤ m ∨ e = -1074) := by
  cases x with
  | nan => simp [Flt.isDouble] at h
  | inf s => simp [Flt.isDouble] at h
  | fin s m e =>
    simp only [Flt.isDouble, decide_eq_true_eq] at h
    exact ⟨s, m, e, rfl, h⟩

/-- The absolute difference of two finite doubles: a magnitude, `+0.0` when they are
numerically equal and positive when they are not. -/
theorem absdiff_cases (r t : Flt) (hr : r.isDouble = true) (ht : t.isDouble = true) :
    (Flt.abs (Dbl.sub r t)).isMag = true ∧
      (Flt.beq r t = true → Flt.abs (Dbl.sub r t) = Dbl.zero) ∧
      (Flt.beq r t = false → 0 < (Flt.abs (Dbl.sub r t)).val) := by
  obtain ⟨s1, m1, e1, rfl, -, he1, -, -, -⟩ := double_cases r hr
  obtain ⟨s2, m2, e2, rfl, -, he2, -, -, -⟩ := double_cases t ht
  have hsub : Dbl.sub (Flt.fin s1 m1 e1) (Flt.fin s2 m2 e2)
      = if Flt.scaled s1 m1 (e1 - min e1 e2) + Flt.scaled (!s2) m2 (e2 - min e1 e2) = 0
        then Flt.fin (s1 && !s2) 0 0
        else binary64.round
          (decide (Flt.scaled s1 m1 (e1 - min e1 e2)
            + Flt.scaled (!s2) m2 (e2 - min e1 e2) < 0))
          ((Flt.scaled s1 m1 (e1 - min e1 e2)
            + Flt.scaled (!s2) m2 (e2 - min e1 e2)).natAbs * 2 ^ (min e1 e2).toNat)
          (2 ^ (-(min e1 e2)).toNat) := rfl
  have hbeq : Flt.beq (Flt.fin s1 m1 e1) (Flt.fin s2 m2 e2)
      = decide (Flt.scaled s1 m1 (e1 - min e1 e2) = Flt.scaled s2 m2 (e2 - min e1 e2)) := rfl
  rw [hsub, hbeq, scaled_not]
  generalize Flt.scaled s1 m1 (e1 - min e1 e2) = a
  generalize Flt.scaled s2 m2 (e2 - min e1 e2) = b
  have hmin : -1074 ≤ min e1 e2 := le_min he1 he2
  generalize min e1 e2 = e at hmin
  by_cases h0 : a + -b = 0
  · rw [if_pos h0]
    have hab : a = b := by omega
    refine ⟨by rfl, fun _ => rfl, ?_⟩
    intro h
    rw [decide_eq_false_iff_not] at h
    exact absurd hab h
  · rw [if_neg h0, abs_round]
    have hd : 0 < 2 ^ (-e).toNat := by positivity
    refine ⟨round_mag _ _ hd, ?_, fun _ => ?_⟩
    · intro h
      rw [decide_eq_true_eq] at h
      omega
    · have hq := sum_ratio (a + -b) e
      have h1 : (1 : ℚ) ≤ |((a + -b : Int) : ℚ)| := by
        rw [← Int.cast_abs]
        have : (1 : Int) ≤ |a + -b| := Int.one_le_abs h0
        exact_mod_cast this
      have h2 : (2 : ℚ) ^ (-1074 : Int) ≤ (2 : ℚ) ^ e :=
        zpow_le_zpow_right₀ (by norm_num) hmin
      have h3 : ((1 : Nat) : ℚ) * (2 : ℚ) ^ (-1074 : Int)
          ≤ (((a + -b).natAbs * 2 ^ e.toNat : Nat) : ℚ) / ((2 ^ (-e).toNat : Nat) : ℚ) := by
        rw [hq, Nat.cast_one]
        exact mul_le_mul h1 h2 (by positivity) (by positivity)
      have h4 := round_val_ge _ _ hd 1 (-1074) (by norm_num) (by norm_num) (by norm_num) h3
      have h5 : (0 : ℚ) < ((1 : Nat) : ℚ) * (2 : ℚ) ^ (-1074 : Int) := by positivity
      exact lt_of_lt_of_le h5 h4

/-! ## The comparison loop on finite matrices -/

theorem compare_inv (Cr Ct : List Dbl) (n : Nat) (hr : Cr.length = n) (ht : Ct.length = n)
    (hfr : ∀ x, x ∈ Cr → x.isDouble = true) (hft : ∀ x, x ∈ Ct → x.isDouble = true) :
    ∃ ms, compare Cr Ct n = some ms ∧ ms.1.isMag = true ∧ ms.2.isMag = true ∧
      ms.1.val ≤ ms.2.val ∧
      (∀ p, p < n →
        (Flt.abs (Dbl.sub (Cr.getD p Dbl.zero) (Ct.getD p Dbl.zero))).val ≤ ms.1.val) ∧
      ((n = 0 ∧ ms.1 = Dbl.zero) ∨
        ∃ p, p < n ∧ ms.1 = Flt.abs (Dbl.sub (Cr.getD p Dbl.zero) (Ct.getD p Dbl.zero))) := by
  unfold compare
  refine forSize_inv n _ (fun k ms => ms.1.isMag = true ∧ ms.2.isMag = true ∧
      ms.1.val ≤ ms.2.val ∧
      (∀ p, p < k →
        (Flt.abs (Dbl.sub (Cr.getD p Dbl.zero) (Ct.getD p Dbl.zero))).val ≤ ms.1.val) ∧
      ((k = 0 ∧ ms.1 = Dbl.zero) ∨
        ∃ p, p < k ∧ ms.1 = Flt.abs (Dbl.sub (Cr.getD p Dbl.zero) (Ct.getD p Dbl.zero))))
    (Dbl.zero, Dbl.zero)
    ⟨by decide, by decide, le_refl _, fun p hp => absurd hp (Nat.not_lt_zero p),
      Or.inl ⟨rfl, rfl⟩⟩ ?_
  intro k hk ms hms
  obtain ⟨hm1, hm2, hle, hall, hatt⟩ := hms
  have hkr : k < Cr.length := by rw [hr]; exact hk
  have hkt : k < Ct.length := by rw [ht]; exact hk
  have hdr : (Cr.getD k Dbl.zero).isDouble = true := by
    apply hfr
    rw [List.getD_eq_getElem _ _ hkr]
    exact List.getElem_mem hkr
  have hdt : (Ct.getD k Dbl.zero).isDouble = true := by
    apply hft
    rw [List.getD_eq_getElem _ _ hkt]
    exact List.getElem_mem hkt
  obtain ⟨hdm, hdz, hdp⟩ := absdiff_cases _ _ hdr hdt
  obtain ⟨ham, ha1, ha2⟩ := add_mag ms.2 _ hm2 hdm
  have hbody : (rd Cr (k : Int)).bind (fun r => (rd Ct (k : Int)).bind fun t =>
      some (if Flt.gt (Flt.abs (Dbl.sub r t)) ms.1 then Flt.abs (Dbl.sub r t) else ms.1,
        Dbl.add ms.2 (Flt.abs (Dbl.sub r t))))
      = some (if Flt.gt (Flt.abs (Dbl.sub (Cr.getD k Dbl.zero) (Ct.getD k Dbl.zero))) ms.1
          then Flt.abs (Dbl.sub (Cr.getD k Dbl.zero) (Ct.getD k Dbl.zero)) else ms.1,
        Dbl.add ms.2 (Flt.abs (Dbl.sub (Cr.getD k Dbl.zero) (Ct.getD k Dbl.zero)))) := by
    rw [rd_lt Cr k hkr, rd_lt Ct k hkt]
    rfl
  refine ⟨_, hbody, ?_⟩
  obtain ⟨d, hd⟩ : ∃ d, d = Flt.abs (Dbl.sub (Cr.getD k Dbl.zero) (Ct.getD k Dbl.zero)) :=
    ⟨_, rfl⟩
  rw [← hd] at hdm hdz hdp ham ha1 ha2 ⊢
  have hgt : Flt.gt d ms.1 = decide (ms.1.val < d.val) := lt_mag ms.1 d hm1 hdm
  rw [hgt]
  by_cases hc : ms.1.val < d.val
  · rw [decide_eq_true hc, if_pos rfl]
    refine ⟨hdm, ham, ha2, ?_, Or.inr ⟨k, Nat.lt_succ_self k, hd⟩⟩
    intro p hp
    rcases Nat.lt_succ_iff_lt_or_eq.mp hp with h | h
    · exact le_trans (hall p h) (le_of_lt hc)
    · rw [h, ← hd]
  · rw [decide_eq_false hc, if_neg (by simp)]
    refine ⟨hm1, ham, le_trans hle ha1, ?_, ?_⟩
    · intro p hp
      rcases Nat.lt_succ_iff_lt_or_eq.mp hp with h | h
      · exact hall p h
      · rw [h, ← hd]
        exact not_lt.mp hc
    · rcases hatt with ⟨-, h0⟩ | ⟨p, hp, hpe⟩
      · refine Or.inr ⟨k, Nat.lt_succ_self k, ?_⟩
        rw [← hd, h0]
        have hz : d.val ≤ 0 := by
          have := not_lt.mp hc
          rw [h0] at this
          simpa [Flt.val, Dbl.zero] using this
        cases hb : Flt.beq (Cr.getD k Dbl.zero) (Ct.getD k Dbl.zero)
        · exact absurd (hdp hb) (not_lt.mpr hz)
        · exact (hdz hb).symm
      · exact Or.inr ⟨p, Nat.lt_succ_of_lt hp, hpe⟩

/-- C19 (counterexample): for the 3×3 matrices whose cells are all `x =
4809040976229758 * 2^-52` and all `0.0`, the loop returns `max_abs_diff = x` and
`sum_abs_diff = 5410171098258479 * 2^-49`, which is above `9 * x`, both as the exact
product and as the `double` product `9.0 * x`. -/
theorem compare_sum_above_bound :
    compare (List.replicate (3 * 3) (Flt.fin false 4809040976229758 (-52)))
        (List.replicate (3 * 3) Dbl.zero) (3 * 3)
      = some (Flt.fin false 4809040976229758 (-52), Flt.fin false 5410171098258479 (-49)) ∧
    (Flt.fin false 4809040976229758 (-52)).isDouble = true ∧
    Flt.lt (Flt.fin false (3 * 3 * 4809040976229758) (-52))
      (Flt.fin false 5410171098258479 (-49)) = true ∧
    Flt.le (Flt.fin false 5410171098258479 (-49))
      (Dbl.mul (Dbl.ofInt (3 * 3)) (Flt.fin false 4809040976229758 (-52))) = false := by
  decide

/-- C19 (amended): for every `N > 0` and every pair of `N * N` matrices of finite doubles,
the comparison loop returns `max_abs_diff` and `sum_abs_diff` with
`0 <= max_abs_diff <= sum_abs_diff`; `max_abs_diff` is `|C_ref[p] - C_test[p]|` for some
cell `p` and is not below that of any cell; and `max_abs_diff = 0` if and only if `C_ref`
and `C_test` are numerically equal in every cell. -/
theorem compare_bounds (N : Nat) (hN : 1 ≤ N) (Cr Ct : List Dbl) (hr : Cr.length = N * N)
    (ht : Ct.length = N * N) (hfr : ∀ x, x ∈ Cr → x.isDouble = true)
    (hft : ∀ x, x ∈ Ct → x.isDouble = true) :
    ∃ ms, compare Cr Ct (N * N) = some ms ∧
      Flt.le Dbl.zero ms.1 = true ∧ Flt.le ms.1 ms.2 = true ∧
      (∃ p, p < N * N ∧
        ms.1 = Flt.abs (Dbl.sub (Cr.getD p Dbl.zero) (Ct.getD p Dbl.zero))) ∧
      (∀ p, p < N * N →
        Flt.le (Flt.abs (Dbl.sub (Cr.getD p Dbl.zero) (Ct.getD p Dbl.zero))) ms.1 = true) ∧
      (ms.1 = Dbl.zero ↔
        ∀ p, p < N * N → Flt.beq (Cr.getD p Dbl.zero) (Ct.getD p Dbl.zero) = true) := by
  obtain ⟨ms, hc, hm1, hm2, hle, hall, hatt⟩ := compare_inv Cr Ct (N * N) hr ht hfr hft
  have hpos : 0 < N * N := Nat.mul_pos hN hN
  have hdbl : ∀ p, p < N * N → (Cr.getD p Dbl.zero).isDouble = true ∧
      (Ct.getD p Dbl.zero).isDouble = true := by
    intro p hp
    have hpr : p < Cr.length := by rw [hr]; exact hp
    have hpt : p < Ct.length := by rw [ht]; exact hp
    constructor
    · apply hfr
      rw [List.getD_eq_getElem _ _ hpr]
      exact List.getElem_mem hpr
    · apply hft
      rw [List.getD_eq_getElem _ _ hpt]
      exact List.getElem_mem hpt
  have hatt' : ∃ p, p < N * N ∧
      ms.1 = Flt.abs (Dbl.sub (Cr.getD p Dbl.zero) (Ct.getD p Dbl.zero)) := by
    rcases hatt with ⟨h0, -⟩ | h
    · omega
    · exact h
  have hz : (Dbl.zero).isMag = true := by decide
  refine ⟨ms, hc, ?_, ?_, hatt', ?_, ?_, ?_⟩
  · rw [le_mag _ _ hz hm1, decide_eq_true_eq]
    have := val_nonneg _ hm1
    simpa [Flt.val, Dbl.zero] using this
  · rw [le_mag _ _ hm1 hm2, decide_eq_true_eq]
    exact hle
  · intro p hp
    obtain ⟨h1, h2⟩ := hdbl p hp
    rw [le_mag _ _ (absdiff_cases _ _ h1 h2).1 hm1, decide_eq_true_eq]
    exact hall p hp
  · intro h0 p hp
    obtain ⟨h1, h2⟩ := hdbl p hp
    have hv := hall p hp
    rw [h0] at hv
    have hv' : (Flt.abs (Dbl.sub (Cr.getD p Dbl.zero) (Ct.getD p Dbl.zero))).val ≤ 0 := by
      simpa [Flt.val, Dbl.zero] using hv
    cases hb : Flt.beq (Cr.getD p Dbl.zero) (Ct.getD p Dbl.zero)
    · exact absurd ((absdiff_cases _ _ h1 h2).2.2 hb) (not_lt.mpr hv')
    · rfl
  · intro hall'
    obtain ⟨p, hp, hpe⟩ := hatt'
    obtain ⟨h1, h2⟩ := hdbl p hp
    rw [hpe]
    exact (absdiff_cases _ _ h1 h2).2.1 (hall' p hp)

/-- C19 (witness): the amended statement on two 2×2 matrices. -/
theorem compare_bounds_witness :
    ∃ ms, compare [Dbl.one, Dbl.zero, Dbl.three, Dbl.four]
        [Dbl.one, Dbl.four, Dbl.three, Dbl.zero] (2 * 2) = some ms ∧
      Flt.le Dbl.zero ms.1 = true ∧ Flt.le ms.1 ms.2 = true ∧
      (∃ p, p < 2 * 2 ∧
        ms.1 = Flt.abs (Dbl.sub ([Dbl.one, Dbl.zero, Dbl.three, Dbl.four].getD p Dbl.zero)
          ([Dbl.one, Dbl.four, Dbl.three, Dbl.zero].getD p Dbl.zero))) ∧
      (∀ p, p < 2 * 2 →
        Flt.le (Flt.abs (Dbl.sub ([Dbl.one, Dbl.zero, Dbl.three, Dbl.four].getD p Dbl.zero)
          ([Dbl.one, Dbl.four, Dbl.three, Dbl.zero].getD p Dbl.zero))) ms.1 = true) ∧
      (ms.1 = Dbl.zero ↔
        ∀ p, p < 2 * 2 → Flt.beq ([Dbl.one, Dbl.zero, Dbl.three, Dbl.four].getD p Dbl.zero)
          ([Dbl.one, Dbl.four, Dbl.three, Dbl.zero].getD p Dbl.zero) = true) :=
  compare_bounds 2 (by decide) [Dbl.one, Dbl.zero, Dbl.three, Dbl.four]
    [Dbl.one, Dbl.four, Dbl.three, Dbl.zero] rfl rfl (by decide) (by decide)

/-! ## Exact operations with `0.0` and `1.0` -/

theorem scaled_zero (s : Bool) (k : Int) : Flt.scaled s 0 k = 0 := by
  unfold Flt.scaled
  cases s <;> simp

theorem scaled_sign (s : Bool) (m : Nat) (k : Int) (hm : m ≠ 0) :
    Flt.scaled s m k ≠ 0 ∧ decide (Flt.scaled s m k < 0) = s := by
  have hp : 0 < m * 2 ^ k.toNat := Nat.mul_pos (Nat.pos_of_ne_zero hm) (by positivity)
  have hq : (0 : Int) < ((m * 2 ^ k.toNat : Nat) : Int) := by exact_mod_cast hp
  unfold Flt.scaled
  cases s
  · simp only [Bool.false_eq_true, if_false, decide_eq_false_iff_not]
    omega
  · simp only [if_true, decide_eq_true_eq]
    omega

theorem abs_val_fin (s : Bool) (m : Nat) (e : Int) :
    |(Flt.fin s m e).val| = (m : ℚ) * (2 : ℚ) ^ e := by
  have h : (0 : ℚ) ≤ (m : ℚ) * (2 : ℚ) ^ e := by positivity
  unfold Flt.val
  cases s
  · simp only [Bool.false_eq_true, if_false]
    exact abs_of_nonneg h
  · simp only [if_true]
    rw [abs_neg]
    exact abs_of_nonneg h

/-- The sum of a non-zero double and a zero is the double. -/
theorem add_zero_exact (s sg : Bool) (m : Nat) (e : Int) (hm0 : m ≠ 0) (hm : m < 2 ^ 53)
    (he : -1074 ≤ e) (he' : e ≤ 971) (hnorm : 2 ^ 52 ≤ m ∨ e = -1074) :
    Dbl.add (Flt.fin s m e) (Flt.fin sg 0 0) = Flt.fin s m e ∧
      Dbl.add (Flt.fin sg 0 0) (Flt.fin s m e) = Flt.fin s m e := by
  have key : ∀ k : Int, k ≤ e → ∀ t : Int, t = Flt.scaled s m (e - k) →
      (if t = 0 then Flt.fin (s && sg) 0 0
        else binary64.round (decide (t < 0)) (t.natAbs * 2 ^ k.toNat) (2 ^ (-k).toNat))
        = Flt.fin s m e := by
    intro k hk t ht
    obtain ⟨h1, h2⟩ := scaled_sign s m (e - k) hm0
    rw [← ht] at h1 h2
    rw [if_neg h1, h2]
    apply round_exact s m e _ _ (by positivity) hm0 hm he he' hnorm
    rw [sum_ratio, ht, ← abs_val_fin s m e, ← scaled_val s m e k hk, abs_mul,
      abs_of_pos (by positivity : (0 : ℚ) < (2 : ℚ) ^ k)]
  constructor
  · have h := key (min e 0) (min_le_left _ _)
      (Flt.scaled s m (e - min e 0) + Flt.scaled sg 0 (0 - min e 0))
      (by rw [scaled_zero, add_zero])
    exact h
  · have h := key (min 0 e) (min_le_right _ _)
      (Flt.scaled sg 0 (0 - min 0 e) + Flt.scaled s m (e - min 0 e))
      (by rw [scaled_zero, zero_add])
    have hs : (sg && s) = (s && sg) := Bool.and_comm _ _
    have hshape : Dbl.add (Flt.fin sg 0 0) (Flt.fin s m e)
        = if Flt.scaled sg 0 (0 - min 0 e) + Flt.scaled s m (e - min 0 e) = 0
          then Flt.fin (sg && s) 0 0
          else binary64.round
            (decide (Flt.scaled sg 0 (0 - min 0 e) + Flt.scaled s m (e - min 0 e) < 0))
            ((Flt.scaled sg 0 (0 - min 0 e) + Flt.scaled s m (e - min 0 e)).natAbs
              * 2 ^ (min 0 e).toNat)
            (2 ^ (-(min 0 e)).toNat) := rfl
    rw [hshape, hs]
    exact h

/-- The product of a double and `1.0` is the double. -/
theorem mul_one_exact (a : Flt) (ha : a.isDouble = true) : Dbl.mul a Dbl.one = a := by
  obtain ⟨s, m, e, rfl, hm, he, he', hz, hnorm⟩ := double_cases a ha
  have hone : Dbl.one = Flt.fin false (2 ^ 52) (-52) := by decide
  rw [hone]
  have hshape : Dbl.mul (Flt.fin s m e) (Flt.fin false (2 ^ 52) (-52))
      = binary64.round (xor s false) (m * 2 ^ 52 * 2 ^ (e + -52).toNat)
          (2 ^ (-(e + -52)).toNat) := rfl
  rw [hshape, Bool.xor_false]
  by_cases hm0 : m = 0
  · rw [hm0, hz hm0]
    rfl
  · apply round_exact s m e _ _ (by positivity) hm0 hm he he' (hnorm hm0)
    have h := zpow_split (e + -52)
    push_cast at h ⊢
    have h52 : (4503599627370496 : ℚ) = (2 : ℚ) ^ (52 : Int) := by norm_num
    rw [mul_div_assoc, h, mul_assoc, h52, ← zpow_add₀ (by norm_num : (2 : ℚ) ≠ 0)]
    congr 2
    omega

/-- The product of a finite number and `0.0` is a zero. -/
theorem mul_zero_exact (s : Bool) (m : Nat) (e : Int) :
    Dbl.mul (Flt.fin s m e) Dbl.zero = Flt.fin s 0 0 := by
  have hshape : Dbl.mul (Flt.fin s m e) Dbl.zero
      = binary64.round (xor s false) (m * 0 * 2 ^ (e + 0).toNat) (2 ^ (-(e + 0)).toNat) := rfl
  rw [hshape, Nat.mul_zero, Nat.zero_mul, Bool.xor_false]
  rfl

theorem zero_add_zero (sg : Bool) : Dbl.add Dbl.zero (Flt.fin sg 0 0) = Dbl.zero := by
  cases sg <;> decide

/-! ## The index-swapped candidate on an identity right operand -/

theorem plusZero_of_zero (s : Bool) : (Flt.fin s 0 0).plusZero = Dbl.zero := rfl

theorem plusZero_of_ne (s : Bool) (m : Nat) (e : Int) (hm : m ≠ 0) :
    (Flt.fin s m e).plusZero = Flt.fin s m e := by
  show (if m = 0 then Flt.fin false 0 0 else Flt.fin s m e) = Flt.fin s m e
  rw [if_neg hm]

theorem zero_add_double (a : Flt) (ha : a.isDouble = true) :
    Dbl.add Dbl.zero a = a.plusZero := by
  obtain ⟨s, m, e, rfl, hm, he, he', hz, hnorm⟩ := double_cases a ha
  by_cases hm0 : m = 0
  · subst hm0
    rw [hz rfl, plusZero_of_zero]
    exact zero_add_zero s
  · rw [plusZero_of_ne s m e hm0]
    exact (add_zero_exact s false m e hm0 hm he he' (hnorm hm0)).2

theorem plusZero_add_zero (a : Flt) (ha : a.isDouble = true) (sg : Bool) :
    Dbl.add a.plusZero (Flt.fin sg 0 0) = a.plusZero := by
  obtain ⟨s, m, e, rfl, hm, he, he', hz, hnorm⟩ := double_cases a ha
  by_cases hm0 : m = 0
  · subst hm0
    rw [hz rfl, plusZero_of_zero]
    exact zero_add_zero sg
  · rw [plusZero_of_ne s m e hm0]
    exact (add_zero_exact s sg m e hm0 hm he he' (hnorm hm0)).1

theorem plusZero_beq (a : Flt) (ha : a.isDouble = true) : Flt.beq a.plusZero a = true := by
  obtain ⟨s, m, e, rfl, -, -, -, hz, -⟩ := double_cases a ha
  by_cases hm0 : m = 0
  · subst hm0
    rw [hz rfl, plusZero_of_zero]
    cases s <;> decide
  · rw [plusZero_of_ne s m e hm0]
    unfold Flt.beq
    simp

theorem plusZero_eq (a : Flt) (ha : a.isDouble = true) (hne : a ≠ Flt.fin true 0 0) :
    a.plusZero = a := by
  obtain ⟨s, m, e, rfl, -, -, -, hz, -⟩ := double_cases a ha
  by_cases hm0 : m = 0
  · subst hm0
    rw [hz rfl] at hne ⊢
    cases s
    · rfl
    · exact absurd rfl hne
  · exact plusZero_of_ne s m e hm0

/-- The sum `matmul_broken_B` accumulates when `B` is the identity: the cell `(j, i)` of
`A`, with `+0.0` for a zero. -/
theorem dot_B_identity (A B : List Dbl) (N i j : Nat) (hi : i < N) (hj : j < N)
    (hA : A.length = N * N) (hfin : ∀ x, x ∈ A → x.isDouble = true)
    (hB : Filled N identity_cell (N * N) B) :
    dot_B A B N i j = (A.getD (j * N + i) Dbl.zero).plusZero := by
  have hcell : ∀ k, k < N → (A.getD (k * N + i) Dbl.zero).isDouble = true := by
    intro k hk
    have hlt : k * N + i < A.length := by rw [hA]; exact cell_lt k i N hk hi
    apply hfin
    rw [List.getD_eq_getElem _ _ hlt]
    exact List.getElem_mem hlt
  have hb : ∀ k, k < N → B.getD (k * N + j) Dbl.zero = identity_cell k j := by
    intro k hk
    exact getD_of_getElem? _ _ _ _ (hB.cell k j hk hj)
  have key : ∀ n, n ≤ N →
      (List.range n).foldl
        (fun s k => Dbl.add s (Dbl.mul (A.getD (k * N + i) Dbl.zero)
          (B.getD (k * N + j) Dbl.zero))) Dbl.zero
        = if j < n then (A.getD (j * N + i) Dbl.zero).plusZero else Dbl.zero := by
    intro n
    induction n with
    | zero =>
      intro _
      rfl
    | succ n ih =>
      intro hn
      have hn' : n < N := hn
      rw [List.range_succ, List.foldl_append, ih (Nat.le_of_lt hn')]
      show Dbl.add _ (Dbl.mul (A.getD (n * N + i) Dbl.zero) (B.getD (n * N + j) Dbl.zero)) = _
      rw [hb n hn']
      obtain ⟨s, m, e, hx, -⟩ := double_cases _ (hcell n hn')
      unfold identity_cell
      rcases Nat.lt_trichotomy n j with h | h | h
      · have c1 : ¬ j < n := by omega
        have c2 : ¬ n = j := by omega
        have c3 : ¬ j < n + 1 := by omega
        rw [if_neg c1, if_neg c2, if_neg c3, hx, mul_zero_exact]
        exact zero_add_zero s
      · subst h
        have c1 : ¬ n < n := by omega
        have c3 : n < n + 1 := by omega
        rw [if_neg c1, if_pos rfl, if_pos c3, mul_one_exact _ (hcell n hn')]
        exact zero_add_double _ (hcell n hn')
      · have c1 : j < n := h
        have c2 : ¬ n = j := by omega
        have c3 : j < n + 1 := by omega
        rw [if_pos c1, if_neg c2, if_pos c3, hx, mul_zero_exact]
        exact plusZero_add_zero _ (hcell j hj) s
  unfold dot_B
  rw [key N (le_refl N), if_pos hj]

/-- C16 (counterexample): for the 2×2 matrix `A = [1, +inf; 1, 1]` and the 2×2 identity
`B`, `matmul_broken_B` leaves NaN in cell `(1, 1)`, while cell `(1, 1)` of `A` is `1`. -/
theorem broken_B_not_transpose_on_inf :
    (matmul_broken_B [Dbl.one, Flt.inf false, Dbl.one, Dbl.one]
        [Dbl.one, Dbl.zero, Dbl.zero, Dbl.one] [Dbl.zero, Dbl.zero, Dbl.zero, Dbl.zero] 2).bind
        (fun C => C[1 * 2 + 1]?) = some Flt.nan ∧
      [Dbl.one, Flt.inf false, Dbl.one, Dbl.one][1 * 2 + 1]? = some Dbl.one ∧
      Flt.nan ≠ Dbl.one := by
  decide

/-- C16 (amended): for every `N <= 46340` (in particular every `0 < N <= 46340`), every
`N * N` matrix `A` of finite doubles and the `N * N` identity `B`, `matmul_broken_B`
writes the transpose of `A`: `C[i*N+j]` is `A[j*N+i]`, with `+0.0` in place of a negative
zero; so `C[i*N+j] == A[j*N+i]` numerically in every cell, and the two are the same datum
unless `A[j*N+i]` is `-0.0`. -/
theorem broken_B_transposes (N : Nat) (hfit : N ≤ 46340) (A B C : List Dbl)
    (hA : A.length = N * N) (hC : C.length = N * N)
    (hfin : ∀ x, x ∈ A → x.isDouble = true)
    (hB : Filled N identity_cell (N * N) B) :
    ∃ C', matmul_broken_B A B C (N : Int) = some C' ∧ C'.length = N * N ∧
      ∀ i j, i < N → j < N →
        C'[i * N + j]? = some (A.getD (j * N + i) Dbl.zero).plusZero ∧
        (A.getD (j * N + i) Dbl.zero ≠ Flt.fin true 0 0 → C'[i * N + j]? = A[j * N + i]?) ∧
        Flt.beq (A.getD (j * N + i) Dbl.zero).plusZero (A.getD (j * N + i) Dbl.zero) = true := by
  obtain ⟨C', h, hF⟩ := matmul_broken_B_filled A B C N hfit hA hB.1 hC
  refine ⟨C', h, hF.1, ?_⟩
  intro i j hi hj
  have hlt : j * N + i < A.length := by rw [hA]; exact cell_lt j i N hj hi
  have hd : (A.getD (j * N + i) Dbl.zero).isDouble = true := by
    apply hfin
    rw [List.getD_eq_getElem _ _ hlt]
    exact List.getElem_mem hlt
  have hc : C'[i * N + j]? = some (A.getD (j * N + i) Dbl.zero).plusZero := by
    rw [hF.cell i j hi hj, dot_B_identity A B N i j hi hj hA hfin hB]
  refine ⟨hc, ?_, plusZero_beq _ hd⟩
  intro hne
  rw [hc, plusZero_eq _ hd hne, List.getD_eq_getElem _ _ hlt, List.getElem?_eq_getElem hlt]

/-- C16 (witness): the amended statement on a 2×2 matrix with a negative zero. -/
theorem broken_B_transposes_witness :
    ∃ C', matmul_broken_B [Dbl.one, Dbl.three, Flt.fin true 0 0, Dbl.four]
        [Dbl.one, Dbl.zero, Dbl.zero, Dbl.one] [Flt.nan, Flt.nan, Flt.nan, Flt.nan]
        ((2 : Nat) : Int) = some C' ∧ C'.length = 2 * 2 ∧
      ∀ i j, i < 2 → j < 2 →
        C'[i * 2 + j]? = some
          ([Dbl.one, Dbl.three, Flt.fin true 0 0, Dbl.four].getD (j * 2 + i) Dbl.zero).plusZero ∧
        ([Dbl.one, Dbl.three, Flt.fin true 0 0, Dbl.four].getD (j * 2 + i) Dbl.zero
            ≠ Flt.fin true 0 0 →
          C'[i * 2 + j]? = [Dbl.one, Dbl.three, Flt.fin true 0 0, Dbl.four][j * 2 + i]?) ∧
        Flt.beq
          ([Dbl.one, Dbl.three, Flt.fin true 0 0, Dbl.four].getD (j * 2 + i) Dbl.zero).plusZero
          ([Dbl.one, Dbl.three, Flt.fin true 0 0, Dbl.four].getD (j * 2 + i) Dbl.zero) = true :=
  broken_B_transposes 2 (by decide) [Dbl.one, Dbl.three, Flt.fin true 0 0, Dbl.four]
    [Dbl.one, Dbl.zero, Dbl.zero, Dbl.one] [Flt.nan, Flt.nan, Flt.nan, Flt.nan] rfl rfl
    (by decide) ⟨rfl, by
      intro q hq
      interval_cases q <;> rfl⟩

end Harness
